import Mathlib

/-!
# Request-orchestration layer of `src/app/api/chat/route.js`

A shallow embedding of the rate limiter, the response cache, the input
validator and sanitizer, the query classifier, the error handler and the `POST`
handler of the chat route, and of the client function `sendMessageToAPI` of
`src/app/chat/page.js`, followed by the properties established about them.

Conventions of the embedding.

* A JavaScript string is the list of its UTF-16 code units (`JSString`);
  `length`, the regular expressions without the `u` flag and `substring` all
  count code units.
* `Date.now()` is an integer number of milliseconds; every operation of the
  limiter and of the cache reads the clock once and receives that reading as its
  argument `now`; a run of `POST` receives its readings in a `Clock`.
* A JavaScript `Map` is an association list in insertion order: `set` on a
  present key replaces the value in place, `set` on an absent key appends.
* What the handler cannot decide by itself (the request id, the API key, the
  generative-AI library, the end of the race against the timer) is an argument
  of `POST`; what it calls in the library is reported in its `Outcome`.
* Logging and metrics are write-only sinks and are left out.
* The client function receives the outcomes of its successive `fetch` calls as
  a list; its React state setters are left out.
-/

namespace ByrChallenge

/-! ## JavaScript strings -/

/-- A JavaScript string: its UTF-16 code units in order. -/
abbrev JSString := List Nat

/-- The code units of a source literal (all literals of the route are in the
Basic Multilingual Plane, one code unit per character). -/
def lit (s : String) : JSString := s.data.map Char.toNat

/-! ## `Map` as an insertion-ordered association list -/

/-- Models `Map.prototype.get`: the value stored under `k`, if any. -/
def mapGet {κ ν : Type} [DecidableEq κ] : List (κ × ν) → κ → Option ν
  | [], _ => none
  | (k', v) :: rest, k => if k' = k then some v else mapGet rest k

/-- Models `Map.prototype.has`. -/
def mapHas {κ ν : Type} [DecidableEq κ] (m : List (κ × ν)) (k : κ) : Bool :=
  (mapGet m k).isSome

/-- Models `Map.prototype.set`: replace in place, or append a new key. -/
def mapSet {κ ν : Type} [DecidableEq κ] : List (κ × ν) → κ → ν → List (κ × ν)
  | [], k, v => [(k, v)]
  | (k', v') :: rest, k, v =>
      if k' = k then (k, v) :: rest else (k', v') :: mapSet rest k v

/-! ## Configuration (`CONFIG`) -/

/-- The names every object literal inherits from `Object.prototype`: a lookup
`table[name]` with one of them yields an inherited function or object, which is
truthy and is not a number. -/
def objectPrototypeKeys : List String :=
  ["constructor", "__proto__", "hasOwnProperty", "isPrototypeOf",
   "propertyIsEnumerable", "toLocaleString", "toString", "valueOf",
   "__defineGetter__", "__defineSetter__", "__lookupGetter__", "__lookupSetter__"]

/-- A rate-limit tier as `isAllowed` reads it: `perMinute` and `perHour` are
`none` when the property read gives `undefined`. -/
structure Limits where
  perMinute : Option Nat
  perHour : Option Nat
  deriving DecidableEq, Repr

/-- Models `CONFIG.RATE_LIMITS` (the `perDay` entry is never read). -/
def CONFIG.RATE_LIMITS : Limits := { perMinute := some 60, perHour := some 1000 }

/-- Models `CONFIG.MAX_MESSAGE_LENGTH`. -/
def CONFIG.MAX_MESSAGE_LENGTH : Nat := 5000

/-- Models `CONFIG.MAX_RESPONSE_LENGTH`. -/
def CONFIG.MAX_RESPONSE_LENGTH : Nat := 10000

/-! ## Rate limiter -/

/-- The object `isAllowed` returns; absent properties are `none`. -/
structure RateResult where
  allowed : Bool
  reason : Option String
  retryAfter : Option Nat
  deriving DecidableEq, Repr

/-- State of `RateLimiter`: the `requests` map and the `blacklist` set. -/
structure RateLimiter where
  requests : List (JSString × List Int)
  blacklist : List JSString
  deriving DecidableEq, Repr

/-- Models `RateLimiter.getKey`: `userId ? ip + ":" + userId : ip`. The argument
is `none` for a falsy `userId` (`null`, `undefined`, the empty string) and
`some u` for a truthy one whose text in the template literal is `u`; `u` is
empty for a truthy value such as the array `[]`, and the key is `ip + ":"`
then. -/
def RateLimiter.getKey (ip : JSString) (userId : Option JSString) : JSString :=
  match userId with
  | some u => ip ++ lit ":" ++ u
  | none => ip

/-- Models `RateLimiter.getLimitsForQueryType`: `limits[queryType] || CONFIG.RATE_LIMITS`.
An inherited `Object.prototype` member is truthy and has neither property. -/
def RateLimiter.getLimitsForQueryType (queryType : String) : Limits :=
  if queryType = "simple_query" then { perMinute := some 30, perHour := some 500 }
  else if queryType = "file_analysis" then { perMinute := some 10, perHour := some 100 }
  else if queryType = "complex_analysis" then { perMinute := some 5, perHour := some 50 }
  else if queryType ∈ objectPrototypeKeys then { perMinute := none, perHour := none }
  else CONFIG.RATE_LIMITS

/-- The comparison `count >= cap`, false when `cap` is `undefined`. -/
def reaches (count : Nat) (cap : Option Nat) : Bool :=
  match cap with
  | some n => decide (n ≤ count)
  | none => false

/-- Models `RateLimiter.isAllowed` at clock reading `now`: the returned object and the
limiter afterwards. On the blacklist path nothing is touched; otherwise the
pruned array is stored under the key and, when the call is allowed, `now` is
pushed onto that same array. -/
def RateLimiter.isAllowed (self : RateLimiter) (now : Int) (ip : JSString)
    (userId : Option JSString) (queryType : String) : RateResult × RateLimiter :=
  let key := RateLimiter.getKey ip userId
  if key ∈ self.blacklist then
    ({ allowed := false, reason := some "Blacklisted", retryAfter := none }, self)
  else
    let minuteAgo := now - 60000
    let hourAgo := now - 3600000
    let requests₁ := if mapHas self.requests key then self.requests
                     else mapSet self.requests key []
    let userRequests := (mapGet requests₁ key).getD []
    let recentRequests := userRequests.filter (fun timestamp => decide (timestamp > hourAgo))
    let requests₂ := mapSet requests₁ key recentRequests
    let requestsLastMinute := (recentRequests.filter (fun t => decide (t > minuteAgo))).length
    let requestsLastHour := recentRequests.length
    let limits := RateLimiter.getLimitsForQueryType queryType
    if reaches requestsLastMinute limits.perMinute then
      ({ allowed := false, reason := some "Minute limit exceeded", retryAfter := some 60 },
        { self with requests := requests₂ })
    else if reaches requestsLastHour limits.perHour then
      ({ allowed := false, reason := some "Hour limit exceeded", retryAfter := some 3600 },
        { self with requests := requests₂ })
    else
      ({ allowed := true, reason := none, retryAfter := none },
        { self with requests := mapSet requests₂ key (recentRequests ++ [now]) })

/-- The timestamps stored for `key` (none when the key was never seen). -/
def RateLimiter.history (self : RateLimiter) (key : JSString) : List Int :=
  (mapGet self.requests key).getD []

/-- One call of `isAllowed`, with the clock reading it sees. -/
structure Call where
  now : Int
  ip : JSString
  userId : Option JSString
  queryType : String
  deriving DecidableEq, Repr

/-- The limiter after a sequence of `isAllowed` calls, made in list order. -/
def runCalls : RateLimiter → List Call → RateLimiter
  | s, [] => s
  | s, c :: cs => runCalls (s.isAllowed c.now c.ip c.userId c.queryType).2 cs

/-- The clock readings of the calls of the sequence that were made for `key`
and returned `allowed: true`. -/
def allowedTimes (key : JSString) : RateLimiter → List Call → List Int
  | _, [] => []
  | s, c :: cs =>
      let r := s.isAllowed c.now c.ip c.userId c.queryType
      if r.1.allowed && decide (RateLimiter.getKey c.ip c.userId = key) then
        c.now :: allowedTimes key r.2 cs
      else allowedTimes key r.2 cs

/-! ## Response cache -/

/-- Models `CONFIG.CACHE_TTL[queryType] || CONFIG.CACHE_TTL.general_queries`: `some ttl`
when the result is a number, `none` when it is an inherited `Object.prototype`
member (truthy, so it is kept, and not a number). -/
def CONFIG.CACHE_TTL (queryType : String) : Option Nat :=
  if queryType = "excel_formulas" then some 3600000
  else if queryType = "margin_analysis" then some 1800000
  else if queryType = "general_queries" then some 600000
  else if queryType = "fifa_projections" then some 86400000
  else if queryType ∈ objectPrototypeKeys then none
  else some 600000

/-- A value of the `cache` map. `expiry` is `Date.now() + ttl`: a number when
`ttl` is one, and otherwise a string, kept as `none`, for which both
`expiry > now` and `expiry < now` are false. -/
structure CacheEntry (α : Type) where
  data : α
  expiry : Option Int
  queryType : String
  created : Int
  deriving DecidableEq, Repr

/-- State of `SmartCache`: the `cache`, `hits` and `misses` maps. -/
structure SmartCache (α : Type) where
  cache : List (JSString × CacheEntry α)
  hits : List (JSString × Nat)
  misses : List (JSString × Nat)
  deriving DecidableEq, Repr

/-- Models `SmartCache.generateKey`: `userId ? userId + ":" + hash : hash`; `hash`
stands for the hexadecimal MD5 digest computed by the `crypto` library. The
argument is `none` for a falsy `userId` and `some u` for a truthy one whose
text in the template literal is `u` (empty for a value such as the array
`[]`, which gives the key `":" + hash`). -/
def SmartCache.generateKey (hash : JSString → JSString) (message : JSString)
    (userId : Option JSString) : JSString :=
  match userId with
  | some u => u ++ lit ":" ++ hash message
  | none => hash message

/-- The test `expiry > now` of `get`. -/
def expiryAfter (expiry : Option Int) (now : Int) : Bool :=
  match expiry with
  | some e => decide (e > now)
  | none => false

/-- The test `expiry < now` of `cleanup`. -/
def expiryBefore (expiry : Option Int) (now : Int) : Bool :=
  match expiry with
  | some e => decide (e < now)
  | none => false

/-- Models `SmartCache.get` at clock reading `now`: the returned value (`none` for
`null`) and the cache afterwards (only a counter changes). -/
def SmartCache.get {α : Type} (hash : JSString → JSString) (self : SmartCache α)
    (now : Int) (message : JSString) (userId : Option JSString) :
    Option α × SmartCache α :=
  let key := SmartCache.generateKey hash message userId
  let miss : Option α × SmartCache α :=
    (none, { self with misses := mapSet self.misses key ((mapGet self.misses key).getD 0 + 1) })
  match mapGet self.cache key with
  | some cached =>
      if expiryAfter cached.expiry now then
        (some cached.data,
          { self with hits := mapSet self.hits key ((mapGet self.hits key).getD 0 + 1) })
      else miss
  | none => miss

/-- Models `SmartCache.cleanup` at clock reading `now`: delete every entry whose
expiry is before `now`. -/
def SmartCache.cleanup {α : Type} (self : SmartCache α) (now : Int) : SmartCache α :=
  { self with cache := self.cache.filter (fun kv => !expiryBefore kv.2.expiry now) }

/-- Models `SmartCache.set` at clock reading `now`: store the entry, then clean up. -/
def SmartCache.set {α : Type} (hash : JSString → JSString) (self : SmartCache α)
    (now : Int) (message : JSString) (data : α) (queryType : String)
    (userId : Option JSString) : SmartCache α :=
  let key := SmartCache.generateKey hash message userId
  let ttl := CONFIG.CACHE_TTL queryType
  let stored : SmartCache α :=
    { self with
      cache := mapSet self.cache key
        { data := data, expiry := ttl.map (fun n => now + (n : Int)),
          queryType := queryType, created := now } }
  stored.cleanup now

/-- One `get` call: clock reading, message, user id. -/
structure Read where
  now : Int
  message : JSString
  userId : Option JSString
  deriving DecidableEq, Repr

/-- The cache after a sequence of `get` calls, made in list order. -/
def runReads {α : Type} (hash : JSString → JSString) : SmartCache α → List Read → SmartCache α
  | s, [] => s
  | s, r :: rs => runReads hash (s.get hash r.now r.message r.userId).2 rs

/-! ## Regular expressions

The fragment of ECMAScript regular expressions the route uses, without the
`u` flag: matching goes code unit by code unit. Every quantifier of the route
applies to a single character class, so `star` and `plus` take an `Atom`.
-/

/-- LineTerminator code units: what `.` does not match. -/
def isLineTerminator (c : Nat) : Bool :=
  c = 0x0A || c = 0x0D || c = 0x2028 || c = 0x2029

/-- The class `\s`: WhiteSpace and LineTerminator code units. -/
def isWhiteSpace (c : Nat) : Bool :=
  c = 0x09 || c = 0x0A || c = 0x0B || c = 0x0C || c = 0x0D || c = 0x20 || c = 0xA0 ||
  c = 0x1680 || (0x2000 ≤ c && c ≤ 0x200A) || c = 0x2028 || c = 0x2029 || c = 0x202F ||
  c = 0x205F || c = 0x3000 || c = 0xFEFF

/-- The class `\d`. -/
def isDigit (c : Nat) : Bool := 0x30 ≤ c && c ≤ 0x39

/-- The word characters of `\b` (without the `u` flag): `[A-Za-z0-9_]`. -/
def isWordChar (c : Nat) : Bool :=
  (0x61 ≤ c && c ≤ 0x7A) || (0x41 ≤ c && c ≤ 0x5A) || isDigit c || c = 0x5F

/-- Canonicalize of the `i` flag without `u` (simple upper-casing that never
maps a non-ASCII code unit to an ASCII one), given on the code units whose
canonical form is the canonical form of a character of one of the route's
patterns: the ASCII letters and `ó`. Any other code unit is left as it is; its
real canonical form differs from that of every pattern character as well. -/
def canonicalize (c : Nat) : Nat :=
  if 0x61 ≤ c ∧ c ≤ 0x7A then c - 0x20
  else if c = 0xF3 then 0xD3
  else c

/-- A pattern element that consumes one code unit. -/
inductive Atom
  | char (c : Nat)
  | dot
  | digit
  | space
  | anyOf (cs : List Nat)
  deriving DecidableEq, Repr

/-- Whether atom `a` accepts code unit `c` (`ic`: the `i` flag). -/
def Atom.accepts (ic : Bool) (a : Atom) (c : Nat) : Bool :=
  match a with
  | .char p => if ic then canonicalize c = canonicalize p else c = p
  | .dot => !isLineTerminator c
  | .digit => isDigit c
  | .space => isWhiteSpace c
  | .anyOf cs => if ic then (cs.map canonicalize).contains (canonicalize c) else cs.contains c

/-- Pattern syntax. Groups without back-references are plain nesting. -/
inductive Regex
  | empty
  | atom (a : Atom)
  | seq (r₁ r₂ : Regex)
  | alt (r₁ r₂ : Regex)
  | star (a : Atom)
  | plus (a : Atom)
  | bol
  | eol
  | wordBoundary
  | negLookahead (r : Regex)
  deriving DecidableEq, Repr

/-- A position in the input: the code unit just before it (`none` at the
start of the input) and the code units still ahead. -/
structure Pos where
  prev : Option Nat
  rest : List Nat
  deriving DecidableEq, Repr

/-- Every position a greedy `a*` can stop at, longest run first. -/
def starRun (ic : Bool) (a : Atom) : Option Nat → List Nat → List Pos
  | prev, [] => [⟨prev, []⟩]
  | prev, c :: cs =>
      (if a.accepts ic c then starRun ic a (some c) cs else []) ++ [⟨prev, c :: cs⟩]

/-- Whether the code unit on one side of a position is a word character. -/
def isWordSide (c : Option Nat) : Bool :=
  match c with
  | some x => isWordChar x
  | none => false

/-- Backtracking matcher: every position at which a match of the pattern that
starts at `p` can end, in the order the backtracking search tries them. -/
def Regex.run (ic : Bool) : Regex → Pos → List Pos
  | .empty, p => [p]
  | .atom a, p =>
      match p.rest with
      | c :: cs => if a.accepts ic c then [⟨some c, cs⟩] else []
      | [] => []
  | .seq r₁ r₂, p => (Regex.run ic r₁ p).flatMap (fun q => Regex.run ic r₂ q)
  | .alt r₁ r₂, p => Regex.run ic r₁ p ++ Regex.run ic r₂ p
  | .star a, p => starRun ic a p.prev p.rest
  | .plus a, p =>
      match p.rest with
      | c :: cs => if a.accepts ic c then starRun ic a (some c) cs else []
      | [] => []
  | .bol, p => if p.prev.isNone then [p] else []
  | .eol, p => if p.rest.isEmpty then [p] else []
  | .wordBoundary, p => if isWordSide p.prev != isWordSide p.rest.head? then [p] else []
  | .negLookahead r, p => if (Regex.run ic r p).isEmpty then [p] else []

/-- The pattern that matches the given code units one after another. -/
def Regex.units : List Nat → Regex
  | [] => Regex.empty
  | c :: cs => Regex.seq (Regex.atom (Atom.char c)) (Regex.units cs)

/-- The pattern that matches the characters of a literal one after another. -/
def Regex.str (s : String) : Regex := Regex.units (lit s)

/-- The alternation `r₁|r₂|...` of a non-empty list of patterns. -/
def Regex.alts : List Regex → Regex
  | [] => Regex.negLookahead Regex.empty
  | [r] => r
  | r :: rs => Regex.alt r (Regex.alts rs)

/-- A regular expression object without the `g` and `y` flags: its pattern
and its `i` flag. -/
structure RegExp where
  body : Regex
  ignoreCase : Bool
  deriving DecidableEq, Repr

/-- Search for a match starting at the current position or at a later one. -/
def testFrom (ic : Bool) (r : Regex) : Option Nat → List Nat → Bool
  | prev, [] => !(Regex.run ic r ⟨prev, []⟩).isEmpty
  | prev, c :: cs => !(Regex.run ic r ⟨prev, c :: cs⟩).isEmpty || testFrom ic r (some c) cs

/-- Models `RegExp.prototype.test`. -/
def RegExp.test (re : RegExp) (s : JSString) : Bool :=
  testFrom re.ignoreCase re.body none s

/-- The loop of `String.prototype.split` with a regular-expression separator:
`seg` is the text between the end `p` of the last separator and the current
index `q`, `pos` is the position at `q`. A match at `q` that ends at `e = p`
is skipped; any other match closes the segment and continues at `e`. -/
def splitLoop (re : RegExp) : Nat → JSString → Pos → List JSString
  | 0, seg, pos => [seg ++ pos.rest]
  | fuel + 1, seg, pos =>
      match pos.rest with
      | [] => [seg]
      | c :: cs =>
          match (Regex.run re.ignoreCase re.body pos).head? with
          | none => splitLoop re fuel (seg ++ [c]) ⟨some c, cs⟩
          | some e =>
              if e.rest.length = pos.rest.length + seg.length then
                splitLoop re fuel (seg ++ [c]) ⟨some c, cs⟩
              else seg :: splitLoop re fuel [] e

/-- Models `s.split(re)` without a limit. Each turn of the loop moves `q` forward or
is followed by one that does, so `2 * length + 1` turns are enough. -/
def split (s : JSString) (re : RegExp) : List JSString :=
  match s with
  | [] => if (Regex.run re.ignoreCase re.body ⟨none, []⟩).isEmpty then [[]] else []
  | _ => splitLoop re (2 * s.length + 1) [] ⟨none, s⟩

/-! ## Input validator -/

/-- The value read from a property of the parsed request body. Of a number only
its truthiness is kept (`0`, `-0` are falsy); `object` stands for any object or
array. -/
inductive JSValue
  | undefined
  | null
  | boolean (b : Bool)
  | number (isZero : Bool)
  | string (s : JSString)
  | object
  deriving DecidableEq, Repr

/-- ToBoolean. -/
def JSValue.truthy : JSValue → Bool
  | .undefined => false
  | .null => false
  | .boolean b => b
  | .number isZero => !isZero
  | .string s => !s.isEmpty
  | .object => true

/-- What `request.json()` can give: `null`, or a value with readable
properties, of which `message` and `userId` are kept (a property that is absent
reads as `undefined`). -/
inductive JSBody
  | null
  | props (message userId : JSValue)
  deriving DecidableEq, Repr

/-- The pattern `/^(?!.*(<script|javascript:|data:)).*$/i` -/
def InputValidator.noScripts : RegExp :=
  { body :=
      .seq .bol
        (.seq (.negLookahead (.seq (.star .dot)
            (Regex.alts [Regex.str "<script", Regex.str "javascript:", Regex.str "data:"])))
          (.seq (.star .dot) .eol)),
    ignoreCase := true }

/-- The group `(SELECT|INSERT|UPDATE|DELETE|DROP|UNION)`. -/
def InputValidator.sqlKeywords : Regex :=
  Regex.alts [Regex.str "SELECT", Regex.str "INSERT", Regex.str "UPDATE",
    Regex.str "DELETE", Regex.str "DROP", Regex.str "UNION"]

/-- The pattern `/^(?!.*('|"|;|--|\b(SELECT|INSERT|UPDATE|DELETE|DROP|UNION)\b)).*$/i` -/
def InputValidator.noSQLInjection : RegExp :=
  { body :=
      .seq .bol
        (.seq (.negLookahead (.seq (.star .dot)
            (Regex.alts [Regex.str "'", Regex.str "\"", Regex.str ";", Regex.str "--",
              .seq .wordBoundary (.seq InputValidator.sqlKeywords .wordBoundary)])))
          (.seq (.star .dot) .eol)),
    ignoreCase := true }

/-- Models `rules.message.patterns`, in the order of `Object.entries`. -/
def InputValidator.patterns : List (String × RegExp) :=
  [("noScripts", InputValidator.noScripts), ("noSQLInjection", InputValidator.noSQLInjection)]

/-- The object `validate` returns. -/
structure ValidationResult where
  valid : Bool
  errors : List String
  deriving DecidableEq, Repr

/-- Models `InputValidator.validate`. The result is `none` when reading
`input.message` throws a `TypeError`, which is the case for a `null` body. -/
def InputValidator.validate (input : JSBody) : Option ValidationResult :=
  match input with
  | .null => none
  | .props message _ =>
      let errors : List String :=
        if !message.truthy then ["Message is required"]
        else
          match message with
          | .string m =>
              (if m.length < 1 then ["Message is too short"] else []) ++
              (if m.length > CONFIG.MAX_MESSAGE_LENGTH then
                ["Message exceeds " ++ toString CONFIG.MAX_MESSAGE_LENGTH ++ " characters"]
               else []) ++
              InputValidator.patterns.filterMap (fun entry =>
                if !entry.2.test m then
                  some ("Message contains invalid content (" ++ entry.1 ++ ")")
                else none)
          | _ => ["Message must be a string"]
      some { valid := errors.length == 0, errors := errors }

/-! ## Query classifier -/

/-- The pattern `/factura|invoice|coupon|crv|producto|descuento/i` -/
def IntelligentAnalyzer.invoice_analysis : RegExp :=
  { body := Regex.alts [Regex.str "factura", Regex.str "invoice", Regex.str "coupon",
      Regex.str "crv", Regex.str "producto", Regex.str "descuento"],
    ignoreCase := true }

/-- The pattern `/margen|margin|profit|rentabilidad|ganancia/i` -/
def IntelligentAnalyzer.margin_optimization : RegExp :=
  { body := Regex.alts [Regex.str "margen", Regex.str "margin", Regex.str "profit",
      Regex.str "rentabilidad", Regex.str "ganancia"],
    ignoreCase := true }

/-- The pattern `/formula|excel|función|spreadsheet|hoja.+calculo/i` -/
def IntelligentAnalyzer.excel_formulas : RegExp :=
  { body := Regex.alts [Regex.str "formula", Regex.str "excel", Regex.str "función",
      Regex.str "spreadsheet",
      .seq (Regex.str "hoja") (.seq (.plus .dot) (Regex.str "calculo"))],
    ignoreCase := true }

/-- The pattern `/fifa|2026|olympics|2028|evento|proyección/i` -/
def IntelligentAnalyzer.fifa_projections : RegExp :=
  { body := Regex.alts [Regex.str "fifa", Regex.str "2026", Regex.str "olympics",
      Regex.str "2028", Regex.str "evento", Regex.str "proyección"],
    ignoreCase := true }

/-- The pattern `/.*/` -/
def IntelligentAnalyzer.general_consultation : RegExp :=
  { body := .star .dot, ignoreCase := false }

/-- Models `IntelligentAnalyzer.patterns`, in the order of `Object.entries`. -/
def IntelligentAnalyzer.patterns : List (String × RegExp) :=
  [("invoice_analysis", IntelligentAnalyzer.invoice_analysis),
   ("margin_optimization", IntelligentAnalyzer.margin_optimization),
   ("excel_formulas", IntelligentAnalyzer.excel_formulas),
   ("fifa_projections", IntelligentAnalyzer.fifa_projections),
   ("general_consultation", IntelligentAnalyzer.general_consultation)]

/-- Models `IntelligentAnalyzer.classifyQuery`: the key of the first entry whose
pattern tests true, and the final `return` when the loop runs out. -/
def IntelligentAnalyzer.classifyQuery (message : JSString) : String :=
  match IntelligentAnalyzer.patterns.find? (fun entry => entry.2.test message) with
  | some entry => entry.1
  | none => "general_consultation"

/-- The pattern `/\s+/` -/
def IntelligentAnalyzer.whitespaceRun : RegExp :=
  { body := .plus .space, ignoreCase := false }

/-- The pattern `/\d/` -/
def IntelligentAnalyzer.anyDigit : RegExp :=
  { body := .atom .digit, ignoreCase := false }

/-- The pattern `/excel|formula|projection|analysis/i` -/
def IntelligentAnalyzer.specialTerms : RegExp :=
  { body := Regex.alts [Regex.str "excel", Regex.str "formula", Regex.str "projection",
      Regex.str "analysis"],
    ignoreCase := true }

/-- Models `IntelligentAnalyzer.getQueryComplexity`. -/
def IntelligentAnalyzer.getQueryComplexity (message : JSString) : String :=
  let wordCount := (split message IntelligentAnalyzer.whitespaceRun).length
  let hasNumbers := IntelligentAnalyzer.anyDigit.test message
  let hasSpecialTerms := IntelligentAnalyzer.specialTerms.test message
  if wordCount > 50 || (hasNumbers && hasSpecialTerms) then "complex"
  else if wordCount > 20 || hasSpecialTerms then "normal"
  else "fast"

/-! ## String built-ins and `InputValidator.sanitize` -/

/-- Models `String.prototype.startsWith` at position 0. -/
def startsWith : JSString → JSString → Bool
  | _, [] => true
  | [], _ :: _ => false
  | c :: cs, p :: ps => decide (c = p) && startsWith cs ps

/-- Models `String.prototype.includes`. -/
def includes : JSString → JSString → Bool
  | [], search => startsWith [] search
  | c :: cs, search => startsWith (c :: cs) search || includes cs search

/-- Models `String.prototype.trim`: leading and trailing WhiteSpace and
LineTerminator code units are removed. -/
def trim (s : JSString) : JSString :=
  ((s.dropWhile isWhiteSpace).reverse.dropWhile isWhiteSpace).reverse

/-- Models `String.prototype.substring(0, n)`. -/
def substring (s : JSString) (n : Nat) : JSString := s.take n

/-- RegExpBuiltinExec of a pattern without the `y` flag, started at a position:
the code units passed over before the first match, the position at which the
match starts and the position at which it ends. -/
def execFrom (re : RegExp) : Option Nat → List Nat → Option (JSString × Pos × Pos)
  | prev, [] =>
      match (Regex.run re.ignoreCase re.body ⟨prev, []⟩).head? with
      | some e => some ([], ⟨prev, []⟩, e)
      | none => none
  | prev, c :: cs =>
      match (Regex.run re.ignoreCase re.body ⟨prev, c :: cs⟩).head? with
      | some e => some ([], ⟨prev, c :: cs⟩, e)
      | none =>
          match execFrom re (some c) cs with
          | some found => some (c :: found.1, found.2)
          | none => none

/-- The loop of `String.prototype.replace` with a `g` pattern and a replacement
text without `$`: each match found from `lastIndex` on is replaced; after an
empty match `lastIndex` moves one code unit further. -/
def replaceLoop (re : RegExp) (replacement : JSString) : Nat → Pos → JSString
  | 0, pos => pos.rest
  | fuel + 1, pos =>
      match execFrom re pos.prev pos.rest with
      | none => pos.rest
      | some (skipped, start, e) =>
          if e.rest.length = start.rest.length then
            match start.rest with
            | [] => skipped ++ replacement
            | c :: cs => skipped ++ replacement ++ c :: replaceLoop re replacement fuel ⟨some c, cs⟩
          else skipped ++ replacement ++ replaceLoop re replacement fuel e

/-- Models `s.replace(re, replacement)` for a `g` pattern. Every turn of the loop
moves `lastIndex` forward, so `length + 1` turns are enough. -/
def replace (s : JSString) (re : RegExp) (replacement : JSString) : JSString :=
  replaceLoop re replacement (s.length + 1) ⟨none, s⟩

/-- The pattern `/[<>]/g`. -/
def InputValidator.angleBrackets : RegExp :=
  { body := .atom (.anyOf [0x3C, 0x3E]), ignoreCase := false }

/-- Models `InputValidator.sanitize`. -/
def InputValidator.sanitize (message : JSString) : JSString :=
  substring (replace (trim message) InputValidator.angleBrackets []) CONFIG.MAX_MESSAGE_LENGTH

/-! ## Error handler -/

/-- An entry of `ErrorHandler.errorTypes`. -/
structure ErrorType where
  code : String
  httpStatus : Nat
  message : String
  deriving DecidableEq, Repr

/-- Models `errorTypes.VALIDATION_ERROR`. -/
def ErrorHandler.VALIDATION_ERROR : ErrorType :=
  { code := "VALIDATION_ERROR", httpStatus := 400, message := "Invalid input provided" }

/-- Models `errorTypes.RATE_LIMIT`. -/
def ErrorHandler.RATE_LIMIT : ErrorType :=
  { code := "RATE_LIMIT_EXCEEDED", httpStatus := 429, message := "Too many requests" }

/-- Models `errorTypes.MODEL_ERROR`. -/
def ErrorHandler.MODEL_ERROR : ErrorType :=
  { code := "MODEL_UNAVAILABLE", httpStatus := 503, message := "AI model temporarily unavailable" }

/-- Models `errorTypes.TIMEOUT_ERROR`. -/
def ErrorHandler.TIMEOUT_ERROR : ErrorType :=
  { code := "TIMEOUT", httpStatus := 408, message := "Request timeout" }

/-- Models `errorTypes.SYSTEM_ERROR`. -/
def ErrorHandler.SYSTEM_ERROR : ErrorType :=
  { code := "INTERNAL_ERROR", httpStatus := 500, message := "Internal system error" }

/-- Models `ErrorHandler.handle` on an `Error` whose `message` is the given
string (the log entry is left out). -/
def ErrorHandler.handle (message : JSString) : ErrorType :=
  if includes message (lit "timeout") || decide (message = lit "Timeout") then
    ErrorHandler.TIMEOUT_ERROR
  else if includes message (lit "404") || includes message (lit "not found") then
    ErrorHandler.MODEL_ERROR
  else if includes message (lit "Invalid") then ErrorHandler.VALIDATION_ERROR
  else ErrorHandler.SYSTEM_ERROR

/-! ## The `POST` handler -/

/-- The constant `CONFIG.MODELS`. -/
def CONFIG.MODELS : List String :=
  ["gemini-1.5-flash-latest", "gemini-1.5-flash", "gemini-1.5-pro-latest", "gemini-1.5-pro"]

/-- The own properties of `CONFIG.TIMEOUTS`: `none` when the table has no own
property of that name. -/
def CONFIG.TIMEOUTS (complexity : String) : Option Nat :=
  if complexity = "fast" then some 15000
  else if complexity = "normal" then some 30000
  else if complexity = "complex" then some 60000
  else none

/-- The constant `SECURITY_HEADERS`. -/
def SECURITY_HEADERS : List (String × JSString) :=
  [("X-Content-Type-Options", lit "nosniff"), ("X-Frame-Options", lit "DENY"),
   ("X-XSS-Protection", lit "1; mode=block"),
   ("Referrer-Policy", lit "strict-origin-when-cross-origin"),
   ("Permissions-Policy", lit "geolocation=(), microphone=(), camera=()")]

/-- The constant `SYSTEM_PROMPT`, line by line. -/
def SYSTEM_PROMPT : JSString :=
  lit (String.join
    ["\n",
     "You are the financial automation specialist for B&R Food Services, a food distributor in Los Angeles preparing for FIFA 2026 and Olympics 2028.\n",
     "\n",
     "SPECIALIZATION:\n",
     "- Automatic invoice processing with products, coupons and CRV fees\n",
     "- Margin optimization for 400+ restaurants and caterers\n",
     "- Excel formula creation for financial analysis\n",
     "- Demand projections for massive events\n",
     "\n",
     "INVOICE STRUCTURE:\n",
     "• Products: description + base price\n",
     "• Coupons: \"Coupon\" + discount (negative value)\n",
     "• CRV Fees: \"CRV X.XX\" + charge (positive value)\n",
     "• RULE: Adjustments always apply to the previous product\n",
     "\n",
     "CORE EXCEL FORMULA:\n",
     "=IF(OR(LEFT(LOWER(D2),3)=\"crv\", LOWER(D2)=\"coupon\"), \"\", E2 + IF(OR(LEFT(LOWER(D3),3)=\"crv\", LOWER(D3)=\"coupon\"), E3, 0))\n",
     "\n",
     "Always respond as a food distribution expert focused on automation, efficiency and preparation for massive growth. Use emojis and markdown format for readability.\n"])

/-- Models `IntelligentAnalyzer.generateContext(queryType)` for the names the
classifier returns: `SYSTEM_PROMPT + (contexts[queryType] || '')`. -/
def IntelligentAnalyzer.generateContext (queryType : String) : JSString :=
  SYSTEM_PROMPT ++
    (if queryType = "invoice_analysis" then
      lit "\n\nFocus on identifying products, coupons and CRV fees. Provide specific Excel formulas."
     else if queryType = "margin_optimization" then
      lit "\n\nAnalyze margins considering the foodservice industry. Include benchmarks and strategies."
     else if queryType = "excel_formulas" then
      lit "\n\nGenerate robust formulas and explain each component. Include validations."
     else if queryType = "fifa_projections" then
      lit "\n\nUse historical data from similar events. Consider seasonality and operational capacity."
     else [])

/-- A JSON value without nesting. `isoTime t` is the text
`new Date().toISOString()` produces at clock reading `t`. -/
inductive JsonLeaf
  | str (s : JSString)
  | num (n : Int)
  | bool (b : Bool)
  | isoTime (t : Int)
  deriving DecidableEq, Repr

/-- A property value of a response body: a plain value, an array of strings or
an object of plain values. -/
inductive Json
  | leaf (v : JsonLeaf)
  | strings (l : List JSString)
  | obj (fields : List (String × JsonLeaf))
  deriving DecidableEq, Repr

/-- What `NextResponse.json` sends: status, headers, and as body the list of the
properties that are not `undefined`, in order. -/
structure Response where
  status : Nat
  headers : List (String × JSString)
  body : List (String × Json)
  deriving DecidableEq, Repr

/-- The value of a top-level property of the body, if present. -/
def Response.field (r : Response) (name : String) : Option Json :=
  mapGet r.body name

/-- The clock readings of one request, in the order they are taken:
`startTime`, the reading inside `isAllowed`, the one inside `cache.get`, the
one for `duration`, the one inside `cache.set`, and the one of the `timestamp`
of the response that is sent. -/
structure Clock where
  start : Int
  rate : Int
  cacheGet : Int
  finish : Int
  cacheSet : Int
  respond : Int
  deriving DecidableEq, Repr

/-- How the race between `model.generateContent(prompt)` and the timer ends. -/
inductive Generation
  | text (s : JSString)
  | unreadable
  | failed (message : JSString)
  | timedOut
  deriving DecidableEq, Repr

/-- The generative-AI library as the handler sees it: `clientError` is the
message of the error `new GoogleGenerativeAI(apiKey)` throws (`none`: it
returns), `handleError name` the message of the error
`getGenerativeModel` throws for that model (`none`: it returns a handle),
`generate name prompt timeout` the end of the race on that handle:
`text s` when the call settles first and `response.text()` gives `s`,
`unreadable` when it settles first and reading the text throws, `failed msg`
when the call fails first with that message, `timedOut` when the timer
settles first. -/
structure Backend where
  clientError : Option JSString
  handleError : String → Option JSString
  generate : String → JSString → Option Nat → Generation

/-- What a request brings: the two address headers (`none`: `headers.get` gives
`null`), the parsed body (`none`: `request.json()` rejects) and `userIdText`,
the text `String(body.userId)`, which is read only when `body.userId` is truthy
and not a string; it is empty for an array such as `[]`, `[[]]` or `[null]`. -/
structure Request where
  forwardedFor : Option JSString
  realIp : Option JSString
  body : Option JSBody
  userIdText : JSString
  deriving DecidableEq, Repr

/-- What the surroundings supply to one run of the handler: the result of
`crypto.randomUUID()`, `process.env.GOOGLE_API_KEY`, the clock readings and the
library. -/
structure Env where
  requestId : JSString
  apiKey : Option JSString
  clock : Clock
  backend : Backend

/-- The module-level singletons the handler works on. -/
structure Server where
  rateLimiter : RateLimiter
  cache : SmartCache JSString
  deriving DecidableEq, Repr

/-- Models `a || b` on header values: `null` and the empty string are falsy. -/
def orElseHeader (a : Option JSString) (b : JSString) : JSString :=
  match a with
  | some s => if s = [] then b else s
  | none => b

/-- The client address:
`headers.get('x-forwarded-for') || headers.get('x-real-ip') || 'unknown'`. -/
def POST.ip (req : Request) : JSString :=
  orElseHeader req.forwardedFor (orElseHeader req.realIp (lit "unknown"))

/-- Models `body.userId || null` as the key builders use it: `none` for a falsy
value; for a truthy one the text it has in their template literals, which is
the string itself for a string, `true` for `true` and `userIdText` for a
number, an object or an array (possibly empty for an array). -/
def POST.userId (userId : JSValue) (userIdText : JSString) : Option JSString :=
  if userId.truthy then
    match userId with
    | .string s => some s
    | .boolean _ => some (lit "true")
    | _ => some userIdText
  else none

/-- The body of an error response: `error`, `requestId`, `timestamp`. -/
def POST.errorBody (env : Env) (error : JSString) : List (String × Json) :=
  [("error", .leaf (.str error)), ("requestId", .leaf (.str env.requestId)),
   ("timestamp", .leaf (.isoTime env.clock.respond))]

/-- The timer value `CONFIG.TIMEOUTS[complexity] || CONFIG.TIMEOUTS.normal`:
`none` when the lookup yields an inherited member instead of a number. -/
def POST.timeout (complexity : String) : Option Nat :=
  match CONFIG.TIMEOUTS complexity with
  | some n => some n
  | none => if complexity ∈ objectPrototypeKeys then none else CONFIG.TIMEOUTS "normal"

/-- The prompt sent to the model. -/
def POST.fullPrompt (queryType : String) (message : JSString) : JSString :=
  IntelligentAnalyzer.generateContext queryType ++ lit "\n\nUser: " ++ message ++
    lit "\n\nRespond as the B&R Food Services specialist:"

/-- The loop over `CONFIG.MODELS`: the first model whose handle is obtained
(`none` when every attempt throws) and the models for which
`getGenerativeModel` was called. -/
def POST.tryModels (handleError : String → Option JSString) : List String → Option String × List String
  | [] => (none, [])
  | candidateModel :: rest =>
      match handleError candidateModel with
      | none => (some candidateModel, [candidateModel])
      | some _ =>
          ((POST.tryModels handleError rest).1, candidateModel :: (POST.tryModels handleError rest).2)

/-- The text kept from a generated text: cut to `MAX_RESPONSE_LENGTH` code units
and followed by `...` when it is longer. -/
def POST.truncate (responseText : JSString) : JSString :=
  if responseText.length > CONFIG.MAX_RESPONSE_LENGTH then
    substring responseText CONFIG.MAX_RESPONSE_LENGTH ++ lit "..."
  else responseText

/-- What the first half of the handler hands over to the second: the address,
the sanitized message, `userId`, `queryType` and `complexity`. -/
structure Job where
  ip : JSString
  message : JSString
  userId : Option JSString
  queryType : String
  complexity : String
  deriving DecidableEq, Repr

/-- How the first half of the handler ends: with a response, or with the
request going on to model initialisation. -/
inductive Front
  | respond (r : Response)
  | proceed (job : Job)
  deriving DecidableEq, Repr

/-- The message of a body that passed validation; `none` stands for the
`TypeError` that `sanitize` throws on anything else. -/
def POST.message (body : JSBody) : Option JSString :=
  match body with
  | .props (.string m) _ => some m
  | _ => none

/-- The `userId` property of the body (`undefined` when it has none). -/
def POST.bodyUserId (body : JSBody) : JSValue :=
  match body with
  | .props _ userId => userId
  | .null => .undefined

/-- Models `rateLimitCheck.retryAfter || 60`. -/
def POST.retryAfterOr60 (retryAfter : Option Nat) : Nat :=
  match retryAfter with
  | some n => if n = 0 then 60 else n
  | none => 60

/-- The handler from the start to the API-key check: JSON parsing, validation,
sanitizing, classification, rate check, cache check, key check. An exception
that escapes (`validate` on a `null` body) ends in the catch-all response,
`internalError`. -/
def POST.front (hash : JSString → JSString) (server : Server) (req : Request) (env : Env) :
    Front × Server :=
  let internalError : Front × Server :=
    (.respond ⟨500, SECURITY_HEADERS, POST.errorBody env (lit "Internal server error")⟩, server)
  match req.body with
  | none =>
      (.respond ⟨400, SECURITY_HEADERS, POST.errorBody env (lit "Invalid JSON in request body")⟩,
        server)
  | some body =>
      match InputValidator.validate body with
      | none => internalError
      | some validation =>
          if !validation.valid then
            (.respond ⟨400, SECURITY_HEADERS,
                [("error", .leaf (.str (lit "Validation failed"))),
                 ("details", .strings (validation.errors.map lit)),
                 ("requestId", .leaf (.str env.requestId)),
                 ("timestamp", .leaf (.isoTime env.clock.respond))]⟩, server)
          else
            match POST.message body with
            | none => internalError
            | some rawMessage =>
                let message := InputValidator.sanitize rawMessage
                let userId := POST.userId (POST.bodyUserId body) req.userIdText
                let queryType := IntelligentAnalyzer.classifyQuery message
                let complexity := IntelligentAnalyzer.getQueryComplexity message
                let rateLimitCheck :=
                  server.rateLimiter.isAllowed env.clock.rate (POST.ip req) userId queryType
                if !rateLimitCheck.1.allowed then
                  (.respond ⟨429,
                      SECURITY_HEADERS ++
                        [("Retry-After",
                          lit (toString (POST.retryAfterOr60 rateLimitCheck.1.retryAfter)))],
                      [("error", .leaf (.str (lit "Rate limit exceeded")))] ++
                        (match rateLimitCheck.1.retryAfter with
                         | some n => [("retryAfter", .leaf (.num n))]
                         | none => []) ++
                        [("requestId", .leaf (.str env.requestId)),
                         ("timestamp", .leaf (.isoTime env.clock.respond))]⟩,
                    { server with rateLimiter := rateLimitCheck.2 })
                else
                  let cached := server.cache.get hash env.clock.cacheGet message userId
                  let server' : Server := { rateLimiter := rateLimitCheck.2, cache := cached.2 }
                  match cached.1 with
                  | some (c :: cs) =>
                      (.respond ⟨200, SECURITY_HEADERS,
                          [("response", .leaf (.str (c :: cs))), ("cached", .leaf (.bool true)),
                           ("requestId", .leaf (.str env.requestId)),
                           ("timestamp", .leaf (.isoTime env.clock.respond)),
                           ("processingTime",
                             .leaf (.num (env.clock.finish - env.clock.start)))]⟩,
                        server')
                  | _ =>
                      match env.apiKey with
                      | some apiKey =>
                          if startsWith apiKey (lit "AIza") then
                            (.proceed ⟨POST.ip req, message, userId, queryType, complexity⟩,
                              server')
                          else
                            (.respond ⟨500, SECURITY_HEADERS,
                              POST.errorBody env (lit "API configuration error")⟩, server')
                      | none =>
                          (.respond ⟨500, SECURITY_HEADERS,
                            POST.errorBody env (lit "API configuration error")⟩, server')

/-- What one run of the handler does: the response, the singletons afterwards,
the models for which a handle was requested and the generation calls issued
(model, prompt, timer value). -/
structure Outcome where
  response : Response
  server : Server
  handlesTried : List String
  generations : List (String × JSString × Option Nat)
  deriving DecidableEq, Repr

/-- The response built from `errorHandler.handle(error)`. -/
def POST.handled (env : Env) (message : JSString) : Response :=
  ⟨(ErrorHandler.handle message).httpStatus, SECURITY_HEADERS,
    POST.errorBody env (lit (ErrorHandler.handle message).message)⟩

/-- The handler from model initialisation to the end: model fallback loop,
generation raced against the timer, text extraction and truncation, cache
write, success response. -/
def POST.back (hash : JSString → JSString) (server : Server) (env : Env) (job : Job) : Outcome :=
  match env.backend.clientError with
  | some message =>
      { response := POST.handled env message, server := server, handlesTried := [],
        generations := [] }
  | none =>
      let tried := POST.tryModels env.backend.handleError CONFIG.MODELS
      match tried.1 with
      | none =>
          { response := POST.handled env (lit "No models available"), server := server,
            handlesTried := tried.2, generations := [] }
      | some modelName =>
          let fullPrompt := POST.fullPrompt job.queryType job.message
          let timeout := POST.timeout job.complexity
          match env.backend.generate modelName fullPrompt timeout with
          | .timedOut =>
              { response := POST.handled env (lit "Timeout"), server := server,
                handlesTried := tried.2, generations := [(modelName, fullPrompt, timeout)] }
          | .failed message =>
              { response := POST.handled env message, server := server,
                handlesTried := tried.2, generations := [(modelName, fullPrompt, timeout)] }
          | .unreadable =>
              { response := ⟨500, SECURITY_HEADERS,
                  POST.errorBody env (lit "Failed to process AI response")⟩,
                server := server, handlesTried := tried.2,
                generations := [(modelName, fullPrompt, timeout)] }
          | .text generated =>
              let responseText := POST.truncate generated
              { response := ⟨200, SECURITY_HEADERS,
                  [("response", .leaf (.str responseText)),
                   ("metadata", .obj
                     [("requestId", .str env.requestId), ("model", .str (lit modelName)),
                      ("queryType", .str (lit job.queryType)),
                      ("processingTime", .num (env.clock.finish - env.clock.start)),
                      ("timestamp", .isoTime env.clock.respond)])]⟩,
                server := { server with
                  cache := server.cache.set hash env.clock.cacheSet job.message responseText
                    job.queryType job.userId },
                handlesTried := tried.2, generations := [(modelName, fullPrompt, timeout)] }

/-- Models the exported `POST` handler. -/
def POST (hash : JSString → JSString) (server : Server) (req : Request) (env : Env) : Outcome :=
  match POST.front hash server req env with
  | (.respond r, server') =>
      { response := r, server := server', handlesTried := [], generations := [] }
  | (.proceed job, server') => POST.back hash server' env job

/-- The runs of the handler on requests served one after another, each with its
own surroundings. -/
def serve (hash : JSString → JSString) : Server → List (Request × Env) → List Outcome
  | _, [] => []
  | server, (req, env) :: rest =>
      POST hash server req env :: serve hash (POST hash server req env).server rest

/-! ## Client: `sendMessageToAPI` (`chat/page.js`) -/

/-- What `response.json()` gives on the client: `unreadable` when it rejects,
`null`, or a value whose properties `error` and `response` read as given
(`undefined` when absent). -/
inductive ReplyBody
  | unreadable
  | null
  | props (error response : JSValue)
  deriving DecidableEq, Repr

/-- How one call of `fetch` ends: it rejects, or it gives a response with
`ok`, `status` and a body. -/
inductive Fetched
  | rejected
  | settled (ok : Bool) (status : Nat) (body : ReplyBody)
  deriving DecidableEq, Repr

/-- The `try` block of `sendMessageToAPI`: `some response` when it returns
`data.response`; `none` when an exception reaches the `catch` block, which is
the case when `fetch` rejects, when the response is not `ok` (an `Error` is
thrown, or reading `errorData` throws first), when `response.json()` rejects
and when `data` is `null`. -/
def sendMessageToAPI.attempt : Fetched → Option JSValue
  | .rejected => none
  | .settled ok _ body =>
      if !ok then none
      else
        match body with
        | .props _ response => some response
        | .null => none
        | .unreadable => none

/-- What one call of `sendMessageToAPI` did: the number of `fetch` calls, the
delays of the timers it waited for (in ms, in order) and the value it
returned. -/
structure Sent where
  requests : Nat
  waits : List Nat
  returned : JSValue
  deriving DecidableEq, Repr

/-- Models `sendMessageToAPI(message, retry)`, given how the successive calls of
`fetch` end; the result is `none` when that list ends before the function
returns. The state setters (`setError`, `setRetryCount`) are left out. -/
def sendMessageToAPI : List Fetched → Nat → Option Sent
  | [], _ => none
  | fetched :: later, retry =>
      match sendMessageToAPI.attempt fetched with
      | some response => some ⟨1, [], response⟩
      | none =>
          if retry < 3 then
            (sendMessageToAPI later (retry + 1)).map
              (fun sent => ⟨sent.requests + 1, 1000 * (retry + 1) :: sent.waits, sent.returned⟩)
          else some ⟨1, [], .string (lit "Connection error. Please try again.")⟩

/-! ## Quantities the properties are stated with -/

/-- Number of timestamps of `l` after the threshold `θ`. -/
def countAfter (θ : Int) (l : List Int) : Nat :=
  (l.filter (fun t => decide (t > θ))).length

/-- The timestamps `isAllowed` counts for the trailing minute. -/
def minuteCount (s : RateLimiter) (key : JSString) (now : Int) : Nat :=
  ((s.history key).filter (fun t => decide (t > now - 60000))).length

/-- The timestamps `isAllowed` counts for the trailing hour. -/
def hourCount (s : RateLimiter) (key : JSString) (now : Int) : Nat :=
  ((s.history key).filter (fun t => decide (t > now - 3600000))).length

/-! ## Reference notions for the text properties -/

/-- The code unit just before the position reached by consuming `taken` from a
position whose previous code unit is `prev`. -/
def lastOr (prev : Option Nat) : List Nat → Option Nat
  | [] => prev
  | c :: cs => lastOr (some c) cs

/-- Consume the code units `w` one after another from position `p`, each
compared as a pattern character is. -/
def stripUnits (ic : Bool) : List Nat → Pos → Option Pos
  | [], p => some p
  | w :: ws, p =>
      match p.rest with
      | c :: cs => if (Atom.char w).accepts ic c then stripUnits ic ws ⟨some c, cs⟩ else none
      | [] => none

/-- ASCII lower-casing of one code unit. -/
def asciiLower (c : Nat) : Nat :=
  if 0x41 ≤ c ∧ c ≤ 0x5A then c + 0x20 else c

/-- The rest of `text` after a leading occurrence of `w`, letters compared
without regard to ASCII case; `none` when `text` does not start with `w`. -/
def stripIgnoreCase : List Nat → List Nat → Option (List Nat)
  | [], text => some text
  | _ :: _, [] => none
  | p :: ps, c :: cs => if asciiLower c = asciiLower p then stripIgnoreCase ps cs else none

/-- Whether `w` occurs somewhere in the text, in any letter case. -/
def occursIgnoreCase (w : List Nat) : List Nat → Bool
  | [] => (stripIgnoreCase w []).isSome
  | c :: cs => (stripIgnoreCase w (c :: cs)).isSome || occursIgnoreCase w cs

/-- Whether the text contains the literal `w` in any letter case. -/
def containsIgnoreCase (text : JSString) (w : String) : Bool :=
  occursIgnoreCase (lit w) text

/-- Whether `w` occurs in the text (in any letter case) as a whole word:
neither the code unit before the occurrence nor the one after it is a word
character. `prev` is the code unit before the text. -/
def occursAsWord (w : List Nat) : Option Nat → List Nat → Bool
  | prev, [] =>
      !isWordSide prev &&
        (match stripIgnoreCase w [] with
         | some rest => !isWordSide rest.head?
         | none => false)
  | prev, c :: cs =>
      (!isWordSide prev &&
        (match stripIgnoreCase w (c :: cs) with
         | some rest => !isWordSide rest.head?
         | none => false)) || occursAsWord w (some c) cs

/-- Whether the text contains the literal `w`, in any letter case, as a whole
word. -/
def containsWord (text : JSString) (w : String) : Bool :=
  occursAsWord (lit w) none text

/-- The shape `^(?!.*T).*$` of the two validation patterns. -/
def Regex.guard (T : Regex) : Regex :=
  .seq .bol (.seq (.negLookahead (.seq (.star .dot) T)) (.seq (.star .dot) .eol))

/-- The keywords of the `noSQLInjection` pattern. -/
def sqlKeywordList : List String :=
  ["SELECT", "INSERT", "UPDATE", "DELETE", "DROP", "UNION"]

/-- An ASCII letter. -/
def isAsciiLetter (c : Nat) : Bool :=
  (0x41 ≤ c && c ≤ 0x5A) || (0x61 ≤ c && c ≤ 0x7A)

/-- The text cut at every maximal run of whitespace, in one pass: `inRun` says
that the code unit just read was whitespace, `seg` is the segment being
collected. Leading and trailing whitespace give an empty first or last
segment. -/
def splitOnWhitespaceRuns : Bool → JSString → List Nat → List JSString
  | _, seg, [] => [seg]
  | inRun, seg, c :: cs =>
      if isWhiteSpace c then
        if inRun then splitOnWhitespaceRuns true seg cs
        else seg :: splitOnWhitespaceRuns true [] cs
      else splitOnWhitespaceRuns false (seg ++ [c]) cs

/-- The complexity tier as the specification words it: `wordCount` is the
number of segments obtained by splitting the message on runs of whitespace,
`hasDigit` says that the message contains a decimal digit, `hasTerm` that it
contains excel, formula, projection or analysis in any letter case. -/
def referenceComplexity (message : JSString) : String :=
  let wordCount := (splitOnWhitespaceRuns false [] message).length
  let hasDigit := message.any isDigit
  let hasTerm := containsIgnoreCase message "excel" || containsIgnoreCase message "formula" ||
    containsIgnoreCase message "projection" || containsIgnoreCase message "analysis"
  if wordCount > 50 || (hasDigit && hasTerm) then "complex"
  else if wordCount > 20 || hasTerm then "normal"
  else "fast"

/-- The place of a tier in the order fast, normal, complex. -/
def tierRank (tier : String) : Nat :=
  if tier = "fast" then 0 else if tier = "normal" then 1 else 2

/-- The code units `<` and `>`. -/
def isAngleBracket (c : Nat) : Bool := c = 0x3C || c = 0x3E

/-- The text contains the literal `w`, letter case respected. -/
def Contains (s : JSString) (w : String) : Prop :=
  ∃ a b, s = a ++ lit w ++ b

/-! ## Sample inputs -/

/-- Five calls of the 5-per-minute category within 40 ms, from one address. -/
def minuteCapCalls : List Call :=
  [⟨0, lit "10.0.0.1", none, "complex_analysis"⟩, ⟨10, lit "10.0.0.1", none, "complex_analysis"⟩,
   ⟨20, lit "10.0.0.1", none, "complex_analysis"⟩, ⟨30, lit "10.0.0.1", none, "complex_analysis"⟩,
   ⟨40, lit "10.0.0.1", none, "complex_analysis"⟩]

/-- Five calls of the 5-per-minute category within 40 ms, then two more within
the same minute. -/
def rolloverCalls : List Call :=
  [⟨0, lit "10.0.0.2", none, "complex_analysis"⟩, ⟨10, lit "10.0.0.2", none, "complex_analysis"⟩,
   ⟨20, lit "10.0.0.2", none, "complex_analysis"⟩, ⟨30, lit "10.0.0.2", none, "complex_analysis"⟩,
   ⟨40, lit "10.0.0.2", none, "complex_analysis"⟩, ⟨50, lit "10.0.0.2", none, "complex_analysis"⟩,
   ⟨59000, lit "10.0.0.2", none, "complex_analysis"⟩]

/-- Fifty requests within 50 ms that are 100 s old. -/
def hourCapState : RateLimiter :=
  ⟨[(lit "10.0.0.1", (List.range 50).map Int.ofNat)], []⟩

/-- A server that has seen no request and cached nothing. -/
def freshServer : Server := ⟨⟨[], []⟩, ⟨[], [], []⟩⟩

/-- An anonymous request from one address with the message `hello`. -/
def helloRequest : Request :=
  ⟨some (lit "10.0.0.9"), none, some (.props (.string (lit "hello")) .undefined), []⟩

/-- A library that hands out every handle and ends every generation the same
way. -/
def steadyBackend (g : Generation) : Backend := ⟨none, fun _ => none, fun _ _ _ => g⟩

/-- Surroundings with a well-formed API key in which every clock reading of the
request is `t`. -/
def sampleEnv (t : Int) (backend : Backend) : Env :=
  ⟨lit "request-1", some (lit "AIzaSample"), ⟨t, t, t, t, t, t⟩, backend⟩

/-- A generated text of 10001 code units. -/
def longText : JSString := List.replicate 10001 0x61

/-- A library on which `getGenerativeModel` throws for every model. -/
def noModelBackend : Backend :=
  ⟨none, fun _ => some (lit "model unavailable"), fun _ _ _ => .text (lit "Hi!")⟩

/-- A library on which the first two models fail and the third is obtained. -/
def thirdModelBackend : Backend :=
  ⟨none,
   fun name => if name = "gemini-1.5-pro-latest" ∨ name = "gemini-1.5-pro" then none
     else some (lit "model unavailable"),
   fun _ _ _ => .text (lit "Hi!")⟩

/-- Thirty-one anonymous `hello` requests from one address, one per second from
time 0 to time 30000. -/
def thirtyOneHellos : List (Request × Env) :=
  (List.range 31).map (fun i =>
    (helloRequest, sampleEnv (1000 * (i : Int)) (steadyBackend (.text (lit "Hi!")))))

/-- Two anonymous `hello` requests from one address, one second apart: the
model answers the first with the empty text and the second with `Hi!`. -/
def emptyThenText : List (Request × Env) :=
  [(helloRequest, sampleEnv 0 (steadyBackend (.text []))),
   (helloRequest, sampleEnv 1000 (steadyBackend (.text (lit "Hi!"))))]

/-- An anonymous request from one address whose message is one space. -/
def blankRequest : Request :=
  ⟨some (lit "10.0.0.9"), none, some (.props (.string (lit " ")) .undefined), []⟩

/-- Two anonymous `hello` requests from one address, one second apart, each
answered `Hi!` by the model when it is asked. -/
def twoHellos : List (Request × Env) :=
  [(helloRequest, sampleEnv 0 (steadyBackend (.text (lit "Hi!")))),
   (helloRequest, sampleEnv 1000 (steadyBackend (.text (lit "Hi!"))))]

/-- A request whose body is the JSON text `null`. -/
def nullBodyRequest : Request := ⟨some (lit "10.0.0.9"), none, some .null, []⟩

/-- A request whose body is an object without properties. -/
def emptyObjectRequest : Request :=
  ⟨some (lit "10.0.0.9"), none, some (.props .undefined .undefined), []⟩

/-- A `hello` request whose `userId` is the empty array, of text `""`. -/
def emptyArrayUserRequest : Request :=
  ⟨some (lit "10.0.0.9"), none, some (.props (.string (lit "hello")) .object), []⟩

/-! # Properties

## Maps and one call of `isAllowed` -/

theorem mapGet_mapSet_self {κ ν : Type} [DecidableEq κ] (m : List (κ × ν)) (k : κ) (v : ν) :
    mapGet (mapSet m k v) k = some v := by
  induction m with
  | nil => simp [mapSet, mapGet]
  | cons e rest ih =>
      obtain ⟨k', v'⟩ := e
      by_cases h : k' = k
      · simp [mapSet, mapGet, h]
      · simp [mapSet, mapGet, h, ih]

theorem mapGet_mapSet_ne {κ ν : Type} [DecidableEq κ] (m : List (κ × ν)) (k k' : κ) (v : ν)
    (hne : k' ≠ k) : mapGet (mapSet m k v) k' = mapGet m k' := by
  induction m with
  | nil => simp [mapSet, mapGet, Ne.symm hne]
  | cons e rest ih =>
      obtain ⟨k₀, v₀⟩ := e
      by_cases h : k₀ = k
      · subst h
        simp [mapSet, mapGet, Ne.symm hne]
      · by_cases h' : k₀ = k'
        · subst h'
          simp [mapSet, mapGet, h]
        · simp [mapSet, mapGet, h, h', ih]

theorem filter_minute_of_hour (l : List Int) (now : Int) :
    (l.filter (fun t => decide (t > now - 3600000))).filter (fun t => decide (t > now - 60000))
      = l.filter (fun t => decide (t > now - 60000)) := by
  rw [List.filter_filter]
  congr 1
  funext t
  by_cases h : t > now - 60000
  · have : t > now - 3600000 := by omega
    simp [h, this]
  · simp [h]

theorem userRequests_eq (s : RateLimiter) (key : JSString) :
    (mapGet (if mapHas s.requests key then s.requests else mapSet s.requests key []) key).getD []
      = s.history key := by
  unfold RateLimiter.history mapHas
  cases h : mapGet s.requests key with
  | none => simp [mapGet_mapSet_self]
  | some v => simp [h]

theorem isAllowed_result (s : RateLimiter) (now : Int) (ip : JSString)
    (userId : Option JSString) (q : String)
    (hb : RateLimiter.getKey ip userId ∉ s.blacklist) :
    (s.isAllowed now ip userId q).1 =
      if reaches (minuteCount s (RateLimiter.getKey ip userId) now)
          (RateLimiter.getLimitsForQueryType q).perMinute then
        { allowed := false, reason := some "Minute limit exceeded", retryAfter := some 60 }
      else if reaches (hourCount s (RateLimiter.getKey ip userId) now)
          (RateLimiter.getLimitsForQueryType q).perHour then
        { allowed := false, reason := some "Hour limit exceeded", retryAfter := some 3600 }
      else { allowed := true, reason := none, retryAfter := none } := by
  unfold RateLimiter.isAllowed minuteCount hourCount
  simp only [hb, if_false, userRequests_eq, filter_minute_of_hour]
  split
  · rfl
  · split <;> rfl

theorem isAllowed_history_self (s : RateLimiter) (now : Int) (ip : JSString)
    (userId : Option JSString) (q : String)
    (hb : RateLimiter.getKey ip userId ∉ s.blacklist) :
    (s.isAllowed now ip userId q).2.history (RateLimiter.getKey ip userId) =
      if (s.isAllowed now ip userId q).1.allowed then
        (s.history (RateLimiter.getKey ip userId)).filter (fun t => decide (t > now - 3600000))
          ++ [now]
      else (s.history (RateLimiter.getKey ip userId)).filter (fun t => decide (t > now - 3600000)) := by
  unfold RateLimiter.isAllowed
  simp only [hb, if_false, userRequests_eq]
  split
  · simp [RateLimiter.history, mapGet_mapSet_self]
  · split
    · simp [RateLimiter.history, mapGet_mapSet_self]
    · simp [RateLimiter.history, mapGet_mapSet_self]

theorem isAllowed_history_other (s : RateLimiter) (now : Int) (ip : JSString)
    (userId : Option JSString) (q : String) (k : JSString)
    (hk : k ≠ RateLimiter.getKey ip userId) :
    (s.isAllowed now ip userId q).2.history k = s.history k := by
  have h₁ : mapGet (if mapHas s.requests (RateLimiter.getKey ip userId) then s.requests
      else mapSet s.requests (RateLimiter.getKey ip userId) []) k = mapGet s.requests k := by
    split
    · rfl
    · exact mapGet_mapSet_ne _ _ _ _ hk
  by_cases hb : RateLimiter.getKey ip userId ∈ s.blacklist
  · simp [RateLimiter.isAllowed, hb]
  · simp only [RateLimiter.isAllowed, hb, if_false, RateLimiter.history]
    generalize (if mapHas s.requests (RateLimiter.getKey ip userId) then s.requests
      else mapSet s.requests (RateLimiter.getKey ip userId) []) = r₁ at h₁ ⊢
    split
    · simp only [mapGet_mapSet_ne _ _ _ _ hk, h₁]
    · split
      · simp only [mapGet_mapSet_ne _ _ _ _ hk, h₁]
      · simp only [mapGet_mapSet_ne _ _ _ _ hk, h₁]

theorem isAllowed_blacklist (s : RateLimiter) (now : Int) (ip : JSString)
    (userId : Option JSString) (q : String) :
    (s.isAllowed now ip userId q).2.blacklist = s.blacklist := by
  by_cases hb : RateLimiter.getKey ip userId ∈ s.blacklist
  · simp [RateLimiter.isAllowed, hb]
  · simp only [RateLimiter.isAllowed, hb, if_false]
    generalize (if mapHas s.requests (RateLimiter.getKey ip userId) then s.requests
      else mapSet s.requests (RateLimiter.getKey ip userId) []) = r₁
    split
    · rfl
    · split <;> rfl

/-! ## Rate limiter: what a sequence of calls stores -/

theorem countAfter_filter (θ θ' : Int) (l : List Int) (h : θ' ≤ θ) :
    countAfter θ (l.filter (fun t => decide (t > θ'))) = countAfter θ l := by
  unfold countAfter
  rw [List.filter_filter]
  congr 2
  funext t
  by_cases h₁ : t > θ
  · have : t > θ' := by omega
    simp [h₁, this]
  · simp [h₁]

theorem countAfter_append (θ : Int) (l₁ l₂ : List Int) :
    countAfter θ (l₁ ++ l₂) = countAfter θ l₁ + countAfter θ l₂ := by
  simp [countAfter]

theorem runCalls_blacklist (calls : List Call) :
    ∀ s : RateLimiter, (runCalls s calls).blacklist = s.blacklist := by
  induction calls with
  | nil => intro s; rfl
  | cons c cs ih =>
      intro s
      simp only [runCalls]
      rw [ih, isAllowed_blacklist]

theorem runCalls_count_ge (key : JSString) (θ : Int) (calls : List Call) :
    ∀ s : RateLimiter, key ∉ s.blacklist → (∀ c ∈ calls, c.now - 3600000 ≤ θ) →
      countAfter θ (s.history key) + countAfter θ (allowedTimes key s calls)
        ≤ countAfter θ ((runCalls s calls).history key) := by
  induction calls with
  | nil => intro s _ _; simp [allowedTimes, runCalls, countAfter]
  | cons c cs ih =>
      intro s hb hc
      have hθ : c.now - 3600000 ≤ θ := hc c (List.mem_cons_self _ _)
      have hcs : ∀ c' ∈ cs, c'.now - 3600000 ≤ θ := fun c' h => hc c' (List.mem_cons_of_mem _ h)
      have hb' : key ∉ (s.isAllowed c.now c.ip c.userId c.queryType).2.blacklist := by
        rw [isAllowed_blacklist]; exact hb
      have ih' := ih _ hb' hcs
      simp only [runCalls]
      refine le_trans ?_ ih'
      by_cases hk : RateLimiter.getKey c.ip c.userId = key
      · subst hk
        rw [isAllowed_history_self s c.now c.ip c.userId c.queryType hb]
        by_cases ha : (s.isAllowed c.now c.ip c.userId c.queryType).1.allowed = true
        · simp only [allowedTimes, ha, if_true, decide_True, Bool.and_self]
          rw [countAfter_append, countAfter_filter _ _ _ hθ]
          have : countAfter θ (c.now :: allowedTimes (RateLimiter.getKey c.ip c.userId)
              (s.isAllowed c.now c.ip c.userId c.queryType).2 cs)
              = countAfter θ [c.now] + countAfter θ (allowedTimes (RateLimiter.getKey c.ip c.userId)
              (s.isAllowed c.now c.ip c.userId c.queryType).2 cs) :=
            countAfter_append θ [c.now] _
          omega
        · simp only [allowedTimes, ha, Bool.false_and, Bool.false_eq_true, if_false]
          rw [countAfter_filter _ _ _ hθ]
      · have hk' : key ≠ RateLimiter.getKey c.ip c.userId := fun h => hk h.symm
        rw [isAllowed_history_other s c.now c.ip c.userId c.queryType key hk']
        simp [allowedTimes, hk]

theorem runCalls_history_sublist (key : JSString) (calls : List Call) :
    ∀ s : RateLimiter, key ∉ s.blacklist →
      List.Sublist ((runCalls s calls).history key) (s.history key ++ allowedTimes key s calls) := by
  induction calls with
  | nil => intro s _; simp [allowedTimes, runCalls]
  | cons c cs ih =>
      intro s hb
      have hb' : key ∉ (s.isAllowed c.now c.ip c.userId c.queryType).2.blacklist := by
        rw [isAllowed_blacklist]; exact hb
      have ih' := ih _ hb'
      simp only [runCalls]
      refine List.Sublist.trans ih' ?_
      by_cases hk : RateLimiter.getKey c.ip c.userId = key
      · subst hk
        rw [isAllowed_history_self s c.now c.ip c.userId c.queryType hb]
        by_cases ha : (s.isAllowed c.now c.ip c.userId c.queryType).1.allowed = true
        · simp only [allowedTimes, ha, if_true, decide_True, Bool.and_self, List.append_assoc,
            List.singleton_append]
          exact List.Sublist.append (List.filter_sublist _) (List.Sublist.refl _)
        · simp only [allowedTimes, ha, Bool.false_and, Bool.false_eq_true, if_false]
          exact List.Sublist.append (List.filter_sublist _) (List.Sublist.refl _)
      · have hk' : key ≠ RateLimiter.getKey c.ip c.userId := fun h => hk h.symm
        rw [isAllowed_history_other s c.now c.ip c.userId c.queryType key hk']
        simp [allowedTimes, hk]

theorem perHour_of_perMinute (q : String) (N : Nat)
    (h : (RateLimiter.getLimitsForQueryType q).perMinute = some N) :
    0 < N ∧ ∃ H, (RateLimiter.getLimitsForQueryType q).perHour = some H ∧ N < H := by
  unfold RateLimiter.getLimitsForQueryType at h ⊢
  by_cases h₁ : q = "simple_query"
  · rw [if_pos h₁] at h ⊢
    simp only [Option.some.injEq] at h
    subst h; exact ⟨by omega, 500, rfl, by omega⟩
  · rw [if_neg h₁] at h ⊢
    by_cases h₂ : q = "file_analysis"
    · rw [if_pos h₂] at h ⊢
      simp only [Option.some.injEq] at h
      subst h; exact ⟨by omega, 100, rfl, by omega⟩
    · rw [if_neg h₂] at h ⊢
      by_cases h₃ : q = "complex_analysis"
      · rw [if_pos h₃] at h ⊢
        simp only [Option.some.injEq] at h
        subst h; exact ⟨by omega, 50, rfl, by omega⟩
      · rw [if_neg h₃] at h ⊢
        by_cases h₄ : q ∈ objectPrototypeKeys
        · rw [if_pos h₄] at h
          simp at h
        · rw [if_neg h₄] at h ⊢
          simp only [CONFIG.RATE_LIMITS, Option.some.injEq] at h
          subst h; exact ⟨by omega, 1000, rfl, by omega⟩

/-! ## Rate limiter: caps, roll-over and blacklist -/

/-- C1. Minute cap: let `N` be the per-minute cap of the category and let the
key not be blacklisted. After any sequence of calls whose clock readings are
not later than `now`, among which at least `N` calls for the key were allowed
at readings later than `now - 60000`, the call at `now` returns
`allowed: false` with reason "Minute limit exceeded" and `retryAfter: 60`. -/
theorem isAllowed_minute_cap (s : RateLimiter) (calls : List Call) (now : Int)
    (ip : JSString) (userId : Option JSString) (queryType : String) (N : Nat)
    (hb : RateLimiter.getKey ip userId ∉ s.blacklist)
    (hN : (RateLimiter.getLimitsForQueryType queryType).perMinute = some N)
    (hclock : ∀ c ∈ calls, c.now ≤ now)
    (hcount : N ≤ ((allowedTimes (RateLimiter.getKey ip userId) s calls).filter
        (fun t => decide (t > now - 60000))).length) :
    ((runCalls s calls).isAllowed now ip userId queryType).1 =
      { allowed := false, reason := some "Minute limit exceeded", retryAfter := some 60 } := by
  have hb' : RateLimiter.getKey ip userId ∉ (runCalls s calls).blacklist := by
    rw [runCalls_blacklist]; exact hb
  have hge := runCalls_count_ge (RateLimiter.getKey ip userId) (now - 60000) calls s hb
    (fun c hc => by have := hclock c hc; omega)
  have hmin : N ≤ minuteCount (runCalls s calls) (RateLimiter.getKey ip userId) now := by
    have h₁ : N ≤ countAfter (now - 60000)
        (allowedTimes (RateLimiter.getKey ip userId) s calls) := hcount
    have h₂ : minuteCount (runCalls s calls) (RateLimiter.getKey ip userId) now
        = countAfter (now - 60000) ((runCalls s calls).history (RateLimiter.getKey ip userId)) := rfl
    omega
  rw [isAllowed_result _ _ _ _ _ hb', hN]
  simp [reaches, hmin]

theorem isAllowed_minute_cap_witness :
    ((runCalls ⟨[], []⟩ minuteCapCalls).isAllowed 50 (lit "10.0.0.1") none "complex_analysis").1 =
      { allowed := false, reason := some "Minute limit exceeded", retryAfter := some 60 } :=
  isAllowed_minute_cap ⟨[], []⟩ minuteCapCalls 50 (lit "10.0.0.1") none "complex_analysis" 5
    (by decide) (by decide) (by decide) (by decide)

/-- C2. Window roll-over: let `N` be the per-minute cap of the category, let the
key not be blacklisted and start with no stored timestamp. After any sequence
of calls in which at most `N` calls for the key were allowed (any number were
denied, at any time), a call made `60000` ms or more after every allowed call
returns `allowed: true`. -/
theorem isAllowed_after_rollover (s : RateLimiter) (calls : List Call) (now : Int)
    (ip : JSString) (userId : Option JSString) (queryType : String) (N : Nat)
    (hb : RateLimiter.getKey ip userId ∉ s.blacklist)
    (hempty : s.history (RateLimiter.getKey ip userId) = [])
    (hN : (RateLimiter.getLimitsForQueryType queryType).perMinute = some N)
    (hcount : (allowedTimes (RateLimiter.getKey ip userId) s calls).length ≤ N)
    (hlate : ∀ t ∈ allowedTimes (RateLimiter.getKey ip userId) s calls, t + 60000 ≤ now) :
    ((runCalls s calls).isAllowed now ip userId queryType).1 =
      { allowed := true, reason := none, retryAfter := none } := by
  have hb' : RateLimiter.getKey ip userId ∉ (runCalls s calls).blacklist := by
    rw [runCalls_blacklist]; exact hb
  have hsub := runCalls_history_sublist (RateLimiter.getKey ip userId) calls s hb
  rw [hempty, List.nil_append] at hsub
  obtain ⟨hpos, H, hH, hNH⟩ := perHour_of_perMinute queryType N hN
  have hmin : minuteCount (runCalls s calls) (RateLimiter.getKey ip userId) now = 0 := by
    unfold minuteCount
    rw [List.length_eq_zero, List.filter_eq_nil_iff]
    intro t ht
    have := hlate t (hsub.subset ht)
    simp only [decide_eq_true_eq, not_lt, ge_iff_le, gt_iff_lt]
    omega
  have hhour : hourCount (runCalls s calls) (RateLimiter.getKey ip userId) now ≤ N := by
    unfold hourCount
    exact le_trans (List.length_filter_le _ _) (le_trans hsub.length_le hcount)
  rw [isAllowed_result _ _ _ _ _ hb', hN, hH, hmin]
  have h₁ : reaches 0 (some N) = false := by simp [reaches]; omega
  have h₂ : reaches (hourCount (runCalls s calls) (RateLimiter.getKey ip userId) now) (some H)
      = false := by simp [reaches]; omega
  simp [h₁, h₂]

theorem isAllowed_after_rollover_witness :
    allowedTimes (lit "10.0.0.2") ⟨[], []⟩ rolloverCalls = [0, 10, 20, 30, 40] ∧
    ((runCalls ⟨[], []⟩ rolloverCalls).isAllowed 60040 (lit "10.0.0.2") none
        "complex_analysis").1 = { allowed := true, reason := none, retryAfter := none } :=
  ⟨by decide,
   isAllowed_after_rollover ⟨[], []⟩ rolloverCalls 60040 (lit "10.0.0.2") none "complex_analysis" 5
    (by decide) (by decide) (by decide) (by decide) (by decide)⟩

/-- C9. Blacklist: for a key on the blacklist, `isAllowed` returns
`allowed: false` with reason "Blacklisted" whatever the category, the clock
and the stored history are, and the limiter (the stored timestamps of every
key) is left exactly as it was. -/
theorem isAllowed_blacklisted (s : RateLimiter) (now : Int) (ip : JSString)
    (userId : Option JSString) (queryType : String)
    (hb : RateLimiter.getKey ip userId ∈ s.blacklist) :
    s.isAllowed now ip userId queryType =
      ({ allowed := false, reason := some "Blacklisted", retryAfter := none }, s) := by
  simp [RateLimiter.isAllowed, hb]

theorem isAllowed_blacklisted_witness :
    (RateLimiter.isAllowed ⟨[(lit "10.0.0.1:eve", [1, 2])], [lit "10.0.0.1:eve"]⟩ 7
        (lit "10.0.0.1") (some (lit "eve")) "simple_query") =
      ({ allowed := false, reason := some "Blacklisted", retryAfter := none },
        ⟨[(lit "10.0.0.1:eve", [1, 2])], [lit "10.0.0.1:eve"]⟩) :=
  isAllowed_blacklisted _ 7 (lit "10.0.0.1") (some (lit "eve")) "simple_query" (by decide)

/-- C10. Hour cap and precedence: for a key that is not blacklisted and a
category with caps `M` per minute and `H` per hour, with the stored timestamps
counted over the trailing 60 s and the trailing 3600 s: if the hour count has
reached `H`, the call is denied with `retryAfter: 3600` when the minute count
is below `M` and with the minute denial (`retryAfter: 60`) when it has reached
`M`; either way the key keeps exactly its stored timestamps of the trailing
hour (the reading `now` is not added) and every other key keeps its list. -/
theorem isAllowed_hour_cap (s : RateLimiter) (now : Int) (ip : JSString)
    (userId : Option JSString) (queryType : String) (M H : Nat)
    (hb : RateLimiter.getKey ip userId ∉ s.blacklist)
    (hM : (RateLimiter.getLimitsForQueryType queryType).perMinute = some M)
    (hH : (RateLimiter.getLimitsForQueryType queryType).perHour = some H)
    (hhour : H ≤ hourCount s (RateLimiter.getKey ip userId) now) :
    (s.isAllowed now ip userId queryType).1 =
      (if minuteCount s (RateLimiter.getKey ip userId) now < M then
        { allowed := false, reason := some "Hour limit exceeded", retryAfter := some 3600 }
       else { allowed := false, reason := some "Minute limit exceeded", retryAfter := some 60 }) ∧
    (s.isAllowed now ip userId queryType).2.history (RateLimiter.getKey ip userId) =
      (s.history (RateLimiter.getKey ip userId)).filter (fun t => decide (t > now - 3600000)) ∧
    ∀ k, k ≠ RateLimiter.getKey ip userId →
      (s.isAllowed now ip userId queryType).2.history k = s.history k := by
  have hres := isAllowed_result s now ip userId queryType hb
  rw [hM, hH] at hres
  have hr : (s.isAllowed now ip userId queryType).1 =
      (if minuteCount s (RateLimiter.getKey ip userId) now < M then
        { allowed := false, reason := some "Hour limit exceeded", retryAfter := some 3600 }
       else { allowed := false, reason := some "Minute limit exceeded", retryAfter := some 60 }) := by
    rw [hres]
    by_cases hlt : minuteCount s (RateLimiter.getKey ip userId) now < M
    · have : ¬ M ≤ minuteCount s (RateLimiter.getKey ip userId) now := by omega
      simp [reaches, hlt, this, hhour]
    · have : M ≤ minuteCount s (RateLimiter.getKey ip userId) now := by omega
      simp [reaches, hlt, this]
  refine ⟨hr, ?_, fun k hk => isAllowed_history_other s now ip userId queryType k hk⟩
  rw [isAllowed_history_self s now ip userId queryType hb, hr]
  split <;> simp

theorem isAllowed_hour_cap_witness :
    (hourCapState.isAllowed 100000 (lit "10.0.0.1") none "complex_analysis").1 =
      { allowed := false, reason := some "Hour limit exceeded", retryAfter := some 3600 } ∧
    (hourCapState.isAllowed 100000 (lit "10.0.0.1") none "complex_analysis").2 = hourCapState :=
  ⟨(isAllowed_hour_cap hourCapState 100000 (lit "10.0.0.1") none "complex_analysis" 5 50
      (by decide) (by decide) (by decide) (by decide)).1.trans (by decide),
   by decide⟩

/-! ## Response cache -/

theorem mapGet_filter_mapSet_self {κ ν : Type} [DecidableEq κ] (p : κ × ν → Bool)
    (m : List (κ × ν)) (k : κ) (v : ν) (hp : p (k, v) = true) :
    mapGet ((mapSet m k v).filter p) k = some v := by
  induction m with
  | nil => simp [mapSet, hp, mapGet]
  | cons e rest ih =>
      obtain ⟨k', v'⟩ := e
      by_cases h : k' = k
      · simp [mapSet, h, hp, mapGet]
      · by_cases hp' : p (k', v') = true
        · simp [mapSet, h, hp', mapGet, ih]
        · simp [mapSet, h, hp', ih]

theorem get_cache {α : Type} (hash : JSString → JSString) (s : SmartCache α) (now : Int)
    (message : JSString) (userId : Option JSString) :
    (s.get hash now message userId).2.cache = s.cache := by
  simp only [SmartCache.get]
  split
  · split <;> rfl
  · rfl

theorem runReads_cache {α : Type} (hash : JSString → JSString) (reads : List Read) :
    ∀ s : SmartCache α, (runReads hash s reads).cache = s.cache := by
  induction reads with
  | nil => intro s; rfl
  | cons r rs ih =>
      intro s
      simp only [runReads]
      rw [ih, get_cache]

theorem get_result {α : Type} (hash : JSString → JSString) (s : SmartCache α) (now : Int)
    (message : JSString) (userId : Option JSString) :
    (s.get hash now message userId).1 =
      match mapGet s.cache (SmartCache.generateKey hash message userId) with
      | some cached => if expiryAfter cached.expiry now then some cached.data else none
      | none => none := by
  simp only [SmartCache.get]
  split
  · split <;> rfl
  · rfl

theorem set_lookup {α : Type} (hash : JSString → JSString) (s : SmartCache α) (t : Int)
    (m : JSString) (p : α) (c : String) (u : Option JSString) (ttl : Nat)
    (httl : CONFIG.CACHE_TTL c = some ttl) :
    mapGet (s.set hash t m p c u).cache (SmartCache.generateKey hash m u) =
      some { data := p, expiry := some (t + (ttl : Int)), queryType := c, created := t } := by
  unfold SmartCache.set SmartCache.cleanup
  simp only [httl, Option.map_some']
  apply mapGet_filter_mapSet_self
  simp [expiryBefore]

/-- C3. Cache round trip: for a category whose TTL is the number `ttl`
(`CONFIG.CACHE_TTL[c]` or the 10-minute default), `set(m, p, c, u)` at time
`t` followed by `get(m, u)` at a time `t'` with `t ≤ t' < t + ttl` returns `p`. -/
theorem get_after_set {α : Type} (hash : JSString → JSString) (s : SmartCache α)
    (t t' : Int) (m : JSString) (p : α) (c : String) (u : Option JSString) (ttl : Nat)
    (httl : CONFIG.CACHE_TTL c = some ttl) (_hle : t ≤ t') (hlt : t' < t + (ttl : Int)) :
    ((s.set hash t m p c u).get hash t' m u).1 = some p := by
  rw [get_result, set_lookup hash s t m p c u ttl httl]
  simp [expiryAfter, hlt]

theorem get_after_set_witness :
    ((SmartCache.set (fun m => m.reverse) ⟨[], [], []⟩ 1000 (lit "hello") (lit "hi there")
        "excel_formulas" (some (lit "u1"))).get (fun m => m.reverse) 3600999 (lit "hello")
        (some (lit "u1"))).1 = some (lit "hi there") :=
  get_after_set (fun m => m.reverse) ⟨[], [], []⟩ 1000 3600999 (lit "hello") (lit "hi there")
    "excel_formulas" (some (lit "u1")) 3600000 (by decide) (by decide) (by decide)

/-- C4. Expiry without sliding: after `set(m, p, c, u)` at time `t` for a
category whose TTL is the number `ttl`, and after any sequence of `get` calls
(any messages, users and times), `get(m, u)` at time `now` returns `p` if
`now < t + ttl` and `null` if `now ≥ t + ttl`. -/
theorem get_expiry_fixed {α : Type} (hash : JSString → JSString) (s : SmartCache α)
    (t now : Int) (m : JSString) (p : α) (c : String) (u : Option JSString) (ttl : Nat)
    (reads : List Read) (httl : CONFIG.CACHE_TTL c = some ttl) :
    ((runReads hash (s.set hash t m p c u) reads).get hash now m u).1 =
      if now < t + (ttl : Int) then some p else none := by
  rw [get_result, runReads_cache, set_lookup hash s t m p c u ttl httl]
  by_cases h : now < t + (ttl : Int)
  · simp [expiryAfter, h]
  · simp [expiryAfter, h]

theorem get_expiry_fixed_witness :
    ((runReads (fun m => m.reverse)
        (SmartCache.set (fun m => m.reverse) ⟨[], [], []⟩ 1000 (lit "hello") (lit "hi there")
          "general_consultation" none)
        [⟨2000, lit "hello", none⟩, ⟨600999, lit "hello", none⟩, ⟨3000, lit "other", none⟩]).get
        (fun m => m.reverse) 601000 (lit "hello") none).1 = none :=
  get_expiry_fixed (fun m => m.reverse) ⟨[], [], []⟩ 1000 601000 (lit "hello") (lit "hi there")
    "general_consultation" none 600000 _ (by decide)

/-! ## Regular expressions: what the matcher computes -/

theorem lastOr_append (prev : Option Nat) (a b : List Nat) :
    lastOr prev (a ++ b) = lastOr (lastOr prev a) b := by
  induction a generalizing prev with
  | nil => rfl
  | cons c cs ih => simp [lastOr, ih]

theorem lastOr_eq_none (prev : Option Nat) (a : List Nat) :
    lastOr prev a = none ↔ prev = none ∧ a = [] := by
  induction a generalizing prev with
  | nil => simp [lastOr]
  | cons c cs ih => simp [lastOr, ih]

theorem mem_starRun (ic : Bool) (a : Atom) (q : Pos) (cs : List Nat) :
    ∀ prev, q ∈ starRun ic a prev cs ↔
      ∃ taken rest, cs = taken ++ rest ∧ (∀ c ∈ taken, a.accepts ic c = true) ∧
        q = ⟨lastOr prev taken, rest⟩ := by
  induction cs with
  | nil =>
      intro prev
      simp only [starRun, List.mem_singleton]
      constructor
      · intro h; exact ⟨[], [], rfl, by simp, by simpa [lastOr] using h⟩
      · rintro ⟨taken, rest, h, _, hq⟩
        have h' := h.symm
        rw [List.append_eq_nil] at h'
        obtain ⟨rfl, rfl⟩ := h'
        simpa [lastOr] using hq
  | cons c cs ih =>
      intro prev
      simp only [starRun, List.mem_append, List.mem_singleton]
      constructor
      · rintro (h | h)
        · by_cases hc : a.accepts ic c = true
          · rw [if_pos hc, ih] at h
            obtain ⟨taken, rest, hcs, hall, hq⟩ := h
            refine ⟨c :: taken, rest, by simp [hcs], ?_, by simpa [lastOr] using hq⟩
            intro x hx
            rcases List.mem_cons.mp hx with rfl | hx
            · exact hc
            · exact hall x hx
          · rw [if_neg hc] at h; simp at h
        · exact ⟨[], c :: cs, rfl, by simp, by simpa [lastOr] using h⟩
      · rintro ⟨taken, rest, hcs, hall, hq⟩
        cases taken with
        | nil =>
            right
            simp only [List.nil_append] at hcs
            rw [hq, ← hcs]; rfl
        | cons t ts =>
            left
            simp only [List.cons_append, List.cons.injEq] at hcs
            obtain ⟨rfl, hcs⟩ := hcs
            have hc : a.accepts ic c = true := hall c (List.mem_cons_self _ _)
            rw [if_pos hc, ih]
            exact ⟨ts, rest, hcs, fun x hx => hall x (List.mem_cons_of_mem _ hx),
              by simpa [lastOr] using hq⟩

theorem mem_run_seq (ic : Bool) (r₁ r₂ : Regex) (p q : Pos) :
    q ∈ Regex.run ic (.seq r₁ r₂) p ↔ ∃ x ∈ Regex.run ic r₁ p, q ∈ Regex.run ic r₂ x := by
  simp [Regex.run, List.mem_flatMap]

theorem mem_run_alts (ic : Bool) (rs : List Regex) (p q : Pos) :
    q ∈ Regex.run ic (Regex.alts rs) p ↔ ∃ r ∈ rs, q ∈ Regex.run ic r p := by
  induction rs with
  | nil => simp [Regex.alts, Regex.run]
  | cons r rs ih =>
      cases rs with
      | nil => simp [Regex.alts]
      | cons r' rs' =>
          rw [Regex.alts, Regex.run, List.mem_append, ih]
          · simp
          · simp

theorem run_units (ic : Bool) (w : List Nat) :
    ∀ p, Regex.run ic (Regex.units w) p = (stripUnits ic w p).toList := by
  induction w with
  | nil => intro p; simp [Regex.units, Regex.run, stripUnits]
  | cons x xs ih =>
      intro p
      obtain ⟨prev, rest⟩ := p
      cases rest with
      | nil => simp [Regex.units, Regex.run, stripUnits]
      | cons c cs =>
          by_cases hc : (Atom.char x).accepts ic c = true
          · simp [Regex.units, Regex.run, stripUnits, hc, ih]
          · simp [Regex.units, Regex.run, stripUnits, hc]

theorem testFrom_iff (ic : Bool) (r : Regex) (cs : List Nat) :
    ∀ prev, testFrom ic r prev cs = true ↔
      ∃ a b, cs = a ++ b ∧ Regex.run ic r ⟨lastOr prev a, b⟩ ≠ [] := by
  induction cs with
  | nil =>
      intro prev
      simp only [testFrom, Bool.not_eq_true', List.isEmpty_eq_false]
      constructor
      · intro h; exact ⟨[], [], rfl, by simpa [lastOr] using h⟩
      · rintro ⟨a, b, h, hne⟩
        have h' := h.symm
        rw [List.append_eq_nil] at h'
        obtain ⟨rfl, rfl⟩ := h'
        simpa [lastOr] using hne
  | cons c cs ih =>
      intro prev
      simp only [testFrom, Bool.or_eq_true, Bool.not_eq_true', List.isEmpty_eq_false, ih]
      constructor
      · rintro (h | ⟨a, b, hcs, hne⟩)
        · exact ⟨[], c :: cs, rfl, by simpa [lastOr] using h⟩
        · exact ⟨c :: a, b, by simp [hcs], by simpa [lastOr] using hne⟩
      · rintro ⟨a, b, hcs, hne⟩
        cases a with
        | nil =>
            left
            simp only [List.nil_append] at hcs
            rw [hcs]; simpa [lastOr] using hne
        | cons x xs =>
            right
            simp only [List.cons_append, List.cons.injEq] at hcs
            obtain ⟨rfl, hcs⟩ := hcs
            exact ⟨xs, b, hcs, by simpa [lastOr] using hne⟩

theorem run_ne_nil_alts (ic : Bool) (rs : List Regex) (p : Pos) :
    Regex.run ic (Regex.alts rs) p ≠ [] ↔ ∃ r ∈ rs, Regex.run ic r p ≠ [] := by
  constructor
  · intro h
    obtain ⟨q, hq⟩ := List.exists_mem_of_ne_nil _ h
    obtain ⟨r, hr, hq'⟩ := (mem_run_alts ic rs p q).mp hq
    exact ⟨r, hr, List.ne_nil_of_mem hq'⟩
  · rintro ⟨r, hr, h⟩
    obtain ⟨q, hq⟩ := List.exists_mem_of_ne_nil _ h
    exact List.ne_nil_of_mem ((mem_run_alts ic rs p q).mpr ⟨r, hr, hq⟩)

theorem run_star_then_ne_nil (ic : Bool) (a : Atom) (T : Regex) (prev : Option Nat)
    (m : List Nat) :
    Regex.run ic (.seq (.star a) T) ⟨prev, m⟩ ≠ [] ↔
      ∃ taken rest, m = taken ++ rest ∧ (∀ c ∈ taken, a.accepts ic c = true) ∧
        Regex.run ic T ⟨lastOr prev taken, rest⟩ ≠ [] := by
  constructor
  · intro h
    obtain ⟨q, hq⟩ := List.exists_mem_of_ne_nil _ h
    obtain ⟨x, hx, hq'⟩ := (mem_run_seq ic _ _ _ q).mp hq
    simp only [Regex.run] at hx
    obtain ⟨taken, rest, hm, hall, rfl⟩ := (mem_starRun ic a x m prev).mp hx
    exact ⟨taken, rest, hm, hall, List.ne_nil_of_mem hq'⟩
  · rintro ⟨taken, rest, hm, hall, h⟩
    obtain ⟨q, hq⟩ := List.exists_mem_of_ne_nil _ h
    refine List.ne_nil_of_mem ((mem_run_seq ic _ _ _ q).mpr ⟨⟨lastOr prev taken, rest⟩, ?_, hq⟩)
    simp only [Regex.run]
    exact (mem_starRun ic a _ m prev).mpr ⟨taken, rest, hm, hall, rfl⟩

theorem run_star_eol_ne_nil (ic : Bool) (a : Atom) (prev : Option Nat) (m : List Nat) :
    Regex.run ic (.seq (.star a) .eol) ⟨prev, m⟩ ≠ [] ↔ ∀ c ∈ m, a.accepts ic c = true := by
  rw [run_star_then_ne_nil]
  constructor
  · rintro ⟨taken, rest, hm, hall, h⟩
    cases rest with
    | nil => simpa [hm] using hall
    | cons x xs => simp [Regex.run] at h
  · intro hall
    exact ⟨m, [], by simp, hall, by simp [Regex.run]⟩

theorem test_guard (ic : Bool) (T : Regex) (m : JSString) :
    RegExp.test ⟨Regex.guard T, ic⟩ m = true ↔
      (∀ c ∈ m, isLineTerminator c = false) ∧
        ¬ ∃ a b, m = a ++ b ∧ Regex.run ic T ⟨lastOr none a, b⟩ ≠ [] := by
  have hbody : ∀ p : Pos, Regex.run ic (Regex.guard T) p ≠ [] ↔
      p.prev = none ∧ Regex.run ic (.seq (.star .dot) T) p = [] ∧
        Regex.run ic (.seq (.star .dot) .eol) p ≠ [] := by
    intro p
    unfold Regex.guard
    rw [Regex.run, Regex.run.eq_7]
    cases hp : p.prev with
    | some x => simp
    | none =>
        simp only [Option.isNone_none, if_true, List.flatMap_cons, List.flatMap_nil,
          List.append_nil, true_and]
        rw [Regex.run, Regex.run.eq_10]
        by_cases hL : Regex.run ic (.seq (.star .dot) T) p = []
        · simp [hL]
        · simp [hL]
  have hdot : ∀ c, Atom.dot.accepts ic c = true ↔ isLineTerminator c = false := by
    intro c; simp [Atom.accepts]
  unfold RegExp.test
  rw [testFrom_iff]
  constructor
  · rintro ⟨a, b, hm, hne⟩
    obtain ⟨hprev, hL, hY⟩ := (hbody _).mp hne
    obtain ⟨-, rfl⟩ := (lastOr_eq_none none a).mp hprev
    simp only [List.nil_append] at hm
    subst hm
    simp only [lastOr] at hL hY
    rw [run_star_eol_ne_nil] at hY
    refine ⟨fun c hc => (hdot c).mp (hY c hc), ?_⟩
    rintro ⟨a, b, hm, hT⟩
    have : Regex.run ic (.seq (.star .dot) T) ⟨none, m⟩ ≠ [] :=
      (run_star_then_ne_nil ic .dot T none m).mpr
        ⟨a, b, hm, fun c hc => hY c (by rw [hm]; exact List.mem_append_left _ hc), hT⟩
    exact this hL
  · rintro ⟨hlt, hno⟩
    refine ⟨[], m, rfl, (hbody _).mpr ⟨rfl, ?_, ?_⟩⟩
    · by_contra hL
      obtain ⟨taken, rest, hm, -, hT⟩ := (run_star_then_ne_nil ic .dot T none m).mp hL
      exact hno ⟨taken, rest, hm, hT⟩
    · simp only [lastOr]
      rw [run_star_eol_ne_nil]
      exact fun c hc => (hdot c).mpr (hlt c hc)

theorem accepts_char_ascii (p c : Nat) (hp : p < 128) :
    (Atom.char p).accepts true c = true ↔ asciiLower c = asciiLower p := by
  simp only [Atom.accepts, if_true, decide_eq_true_eq, canonicalize, asciiLower]
  split_ifs <;> omega

theorem stripUnits_rest (w : List Nat) (hw : ∀ x ∈ w, x < 128) :
    ∀ p : Pos, (stripUnits true w p).map Pos.rest = stripIgnoreCase w p.rest := by
  induction w with
  | nil => intro p; simp [stripUnits, stripIgnoreCase]
  | cons x xs ih =>
      intro p
      obtain ⟨prev, rest⟩ := p
      have hx : x < 128 := hw x (List.mem_cons_self _ _)
      have hxs : ∀ y ∈ xs, y < 128 := fun y hy => hw y (List.mem_cons_of_mem _ hy)
      cases rest with
      | nil => simp [stripUnits, stripIgnoreCase]
      | cons c cs =>
          by_cases hc : (Atom.char x).accepts true c = true
          · have hc' := (accepts_char_ascii x c hx).mp hc
            simp only [stripUnits, hc, if_true, stripIgnoreCase, hc']
            exact ih hxs ⟨some c, cs⟩
          · have hc' : ¬ asciiLower c = asciiLower x := fun h =>
              hc ((accepts_char_ascii x c hx).mpr h)
            simp [stripUnits, hc, stripIgnoreCase, hc']

theorem run_units_ne_nil (w : List Nat) (hw : ∀ x ∈ w, x < 128) (p : Pos) :
    Regex.run true (Regex.units w) p ≠ [] ↔ (stripIgnoreCase w p.rest).isSome = true := by
  rw [run_units, ← stripUnits_rest w hw p]
  cases stripUnits true w p <;> simp

theorem occursIgnoreCase_iff (w : List Nat) (m : List Nat) :
    occursIgnoreCase w m = true ↔
      ∃ a b, m = a ++ b ∧ (stripIgnoreCase w b).isSome = true := by
  induction m with
  | nil =>
      simp only [occursIgnoreCase]
      constructor
      · intro h; exact ⟨[], [], rfl, h⟩
      · rintro ⟨a, b, h, hs⟩
        have h' := h.symm
        rw [List.append_eq_nil] at h'
        obtain ⟨rfl, rfl⟩ := h'
        exact hs
  | cons c cs ih =>
      simp only [occursIgnoreCase, Bool.or_eq_true, ih]
      constructor
      · rintro (h | ⟨a, b, hcs, hs⟩)
        · exact ⟨[], c :: cs, rfl, h⟩
        · exact ⟨c :: a, b, by simp [hcs], hs⟩
      · rintro ⟨a, b, hcs, hs⟩
        cases a with
        | nil =>
            left
            simp only [List.nil_append] at hcs
            rw [hcs]; exact hs
        | cons x xs =>
            right
            simp only [List.cons_append, List.cons.injEq] at hcs
            exact ⟨xs, b, hcs.2, hs⟩

/-- Closed form of `noScripts.test`: the message has no line terminator and
contains none of the three sequences, in any letter case. -/
theorem noScripts_test (m : JSString) :
    InputValidator.noScripts.test m =
      (!m.any isLineTerminator &&
        !(containsIgnoreCase m "<script" || containsIgnoreCase m "javascript:" ||
          containsIgnoreCase m "data:")) := by
  have hshape : InputValidator.noScripts =
      ⟨Regex.guard (Regex.alts [Regex.str "<script", Regex.str "javascript:",
        Regex.str "data:"]), true⟩ := rfl
  have key : ∀ a b : List Nat,
      Regex.run true (Regex.alts [Regex.str "<script", Regex.str "javascript:",
        Regex.str "data:"]) ⟨lastOr none a, b⟩ ≠ [] ↔
      ((stripIgnoreCase (lit "<script") b).isSome = true ∨
        (stripIgnoreCase (lit "javascript:") b).isSome = true ∨
        (stripIgnoreCase (lit "data:") b).isSome = true) := by
    intro a b
    rw [run_ne_nil_alts]
    simp only [List.mem_cons, List.mem_singleton, exists_eq_or_imp, exists_eq_left,
      List.not_mem_nil, false_and, exists_false, or_false, Regex.str]
    rw [run_units_ne_nil _ (by decide), run_units_ne_nil _ (by decide),
      run_units_ne_nil _ (by decide)]
  rw [Bool.eq_iff_iff, hshape, test_guard]
  simp only [key, Bool.and_eq_true, Bool.not_eq_true', Bool.or_eq_false_iff,
    List.any_eq_false, containsIgnoreCase, Bool.not_eq_true]
  constructor
  · rintro ⟨hlt, hno⟩
    refine ⟨fun c hc => by simpa using hlt c hc, ⟨?_, ?_⟩, ?_⟩
    · rw [← Bool.not_eq_true, occursIgnoreCase_iff]
      rintro ⟨a, b, hm, hs⟩; exact hno ⟨a, b, hm, Or.inl hs⟩
    · rw [← Bool.not_eq_true, occursIgnoreCase_iff]
      rintro ⟨a, b, hm, hs⟩; exact hno ⟨a, b, hm, Or.inr (Or.inl hs)⟩
    · rw [← Bool.not_eq_true, occursIgnoreCase_iff]
      rintro ⟨a, b, hm, hs⟩; exact hno ⟨a, b, hm, Or.inr (Or.inr hs)⟩
  · rintro ⟨hlt, ⟨h₁, h₂⟩, h₃⟩
    refine ⟨fun c hc => by simpa using hlt c hc, ?_⟩
    rintro ⟨a, b, hm, hs | hs | hs⟩
    · have := (occursIgnoreCase_iff _ m).mpr ⟨a, b, hm, hs⟩
      simp [h₁] at this
    · have := (occursIgnoreCase_iff _ m).mpr ⟨a, b, hm, hs⟩
      simp [h₂] at this
    · have := (occursIgnoreCase_iff _ m).mpr ⟨a, b, hm, hs⟩
      simp [h₃] at this

theorem accepts_letter_word (p c : Nat) (hp : isAsciiLetter p = true)
    (h : (Atom.char p).accepts true c = true) : isWordChar c = true := by
  simp only [Atom.accepts, if_true, decide_eq_true_eq, canonicalize] at h
  simp only [isAsciiLetter, Bool.or_eq_true, Bool.and_eq_true, decide_eq_true_eq] at hp
  simp only [isWordChar, isDigit, Bool.or_eq_true, Bool.and_eq_true, decide_eq_true_eq]
  split_ifs at h <;> omega

theorem stripUnits_word (w : List Nat) (hl : ∀ x ∈ w, isAsciiLetter x = true) :
    ∀ p q : Pos, w ≠ [] → stripUnits true w p = some q →
      isWordSide p.rest.head? = true ∧ isWordSide q.prev = true := by
  induction w with
  | nil => intro p q h; exact absurd rfl h
  | cons x xs ih =>
      intro p q _ hq
      obtain ⟨prev, rest⟩ := p
      have hx : isAsciiLetter x = true := hl x (List.mem_cons_self _ _)
      cases rest with
      | nil => simp [stripUnits] at hq
      | cons c cs =>
          by_cases hc : (Atom.char x).accepts true c = true
          · simp only [stripUnits, hc, if_true] at hq
            have hword : isWordChar c = true := accepts_letter_word x c hx hc
            refine ⟨by simpa [isWordSide] using hword, ?_⟩
            cases xs with
            | nil =>
                simp only [stripUnits, Option.some.injEq] at hq
                rw [← hq]; simpa [isWordSide] using hword
            | cons y ys =>
                exact (ih (fun z hz => hl z (List.mem_cons_of_mem _ hz)) ⟨some c, cs⟩ q
                  (by simp) hq).2
          · simp [stripUnits, hc] at hq

theorem occursAsWord_iff (w : List Nat) (m : List Nat) :
    ∀ prev, occursAsWord w prev m = true ↔
      ∃ a b, m = a ++ b ∧ isWordSide (lastOr prev a) = false ∧
        ∃ rest, stripIgnoreCase w b = some rest ∧ isWordSide rest.head? = false := by
  have hhere : ∀ (prev : Option Nat) (b : List Nat),
      (!isWordSide prev &&
        (match stripIgnoreCase w b with
         | some rest => !isWordSide rest.head?
         | none => false)) = true ↔
      (isWordSide prev = false ∧
        ∃ rest, stripIgnoreCase w b = some rest ∧ isWordSide rest.head? = false) := by
    intro prev b
    cases stripIgnoreCase w b <;> simp
  induction m with
  | nil =>
      intro prev
      simp only [occursAsWord, hhere]
      constructor
      · rintro ⟨h₁, h₂⟩; exact ⟨[], [], rfl, by simpa [lastOr] using h₁, h₂⟩
      · rintro ⟨a, b, h, h₁, h₂⟩
        have h' := h.symm
        rw [List.append_eq_nil] at h'
        obtain ⟨rfl, rfl⟩ := h'
        exact ⟨by simpa [lastOr] using h₁, h₂⟩
  | cons c cs ih =>
      intro prev
      simp only [occursAsWord, Bool.or_eq_true, hhere, ih]
      constructor
      · rintro (⟨h₁, h₂⟩ | ⟨a, b, hcs, h₁, h₂⟩)
        · exact ⟨[], c :: cs, rfl, by simpa [lastOr] using h₁, h₂⟩
        · exact ⟨c :: a, b, by simp [hcs], by simpa [lastOr] using h₁, h₂⟩
      · rintro ⟨a, b, hcs, h₁, h₂⟩
        cases a with
        | nil =>
            left
            simp only [List.nil_append] at hcs
            rw [hcs]; exact ⟨by simpa [lastOr] using h₁, h₂⟩
        | cons x xs =>
            right
            simp only [List.cons_append, List.cons.injEq] at hcs
            obtain ⟨rfl, hcs⟩ := hcs
            exact ⟨xs, b, hcs, by simpa [lastOr] using h₁, h₂⟩

theorem run_word_ne_nil (ws : List (List Nat))
    (hws : ∀ w ∈ ws, w ≠ [] ∧ ∀ x ∈ w, isAsciiLetter x = true) (p : Pos) :
    Regex.run true (.seq .wordBoundary (.seq (Regex.alts (ws.map Regex.units)) .wordBoundary)) p
        ≠ [] ↔
      ∃ w ∈ ws, isWordSide p.prev = false ∧
        ∃ rest, stripIgnoreCase w p.rest = some rest ∧ isWordSide rest.head? = false := by
  have hlt : ∀ w ∈ ws, ∀ x ∈ w, x < 128 := by
    intro w hw x hx
    have := (hws w hw).2 x hx
    simp only [isAsciiLetter, Bool.or_eq_true, Bool.and_eq_true, decide_eq_true_eq] at this
    omega
  constructor
  · intro h
    obtain ⟨q, hq₀⟩ := List.exists_mem_of_ne_nil _ h
    obtain ⟨x, hx, hq₁⟩ := (mem_run_seq true _ _ p q).mp hq₀
    obtain ⟨y, hy, hq₂⟩ := (mem_run_seq true _ _ x q).mp hq₁
    obtain ⟨r, hr, hy₁⟩ := (mem_run_alts true _ x y).mp hy
    obtain ⟨w, hw, rfl⟩ := List.mem_map.mp hr
    rw [run_units] at hy₁
    have hy' : stripUnits true w x = some y := by
      cases hs : stripUnits true w x with
      | none => simp [hs] at hy₁
      | some z => simp [hs] at hy₁; rw [hy₁]
    simp only [Regex.run] at hx hq₂
    by_cases hbx : (isWordSide p.prev != isWordSide p.rest.head?) = true
    · rw [if_pos hbx, List.mem_singleton] at hx
      subst hx
      by_cases hby : (isWordSide y.prev != isWordSide y.rest.head?) = true
      · obtain ⟨h₁, h₂⟩ := stripUnits_word w (hws w hw).2 x y (hws w hw).1 hy'
        have hrest := stripUnits_rest w (hlt w hw) x
        rw [hy'] at hrest
        refine ⟨w, hw, ?_, y.rest, hrest.symm, ?_⟩
        · rw [h₁] at hbx; simpa using hbx
        · rw [h₂] at hby; simpa using hby
      · rw [if_neg hby] at hq₂; simp at hq₂
    · rw [if_neg hbx] at hx; simp at hx
  · rintro ⟨w, hw, hprev, rest, hrest, hnext⟩
    have hsr := stripUnits_rest w (hlt w hw) p
    rw [hrest] at hsr
    cases hs : stripUnits true w p with
    | none => simp [hs] at hsr
    | some y =>
        rw [hs] at hsr
        simp only [Option.map_some', Option.some.injEq] at hsr
        obtain ⟨h₁, h₂⟩ := stripUnits_word w (hws w hw).2 p y (hws w hw).1 hs
        have hy : y ∈ Regex.run true (Regex.alts (ws.map Regex.units)) p :=
          (mem_run_alts true _ p y).mpr ⟨Regex.units w, List.mem_map.mpr ⟨w, hw, rfl⟩,
            by rw [run_units, hs]; simp⟩
        have hyb : y ∈ Regex.run true .wordBoundary y := by
          simp [Regex.run, h₂, hsr, hnext]
        have hpb : p ∈ Regex.run true .wordBoundary p := by
          simp [Regex.run, h₁, hprev]
        exact List.ne_nil_of_mem ((mem_run_seq true _ _ p y).mpr
          ⟨p, hpb, (mem_run_seq true _ _ p y).mpr ⟨y, hy, hyb⟩⟩)

/-- Closed form of `noSQLInjection.test`: the message has no line terminator,
contains no quote, no `;`, no `--`, and none of the six keywords (in any letter
case) as a whole word. -/
theorem noSQLInjection_test (m : JSString) :
    InputValidator.noSQLInjection.test m =
      (!m.any isLineTerminator &&
        !(containsIgnoreCase m "'" || containsIgnoreCase m "\"" || containsIgnoreCase m ";" ||
          containsIgnoreCase m "--" || sqlKeywordList.any (fun w => containsWord m w))) := by
  have hshape : InputValidator.noSQLInjection =
      ⟨Regex.guard (Regex.alts [Regex.str "'", Regex.str "\"", Regex.str ";", Regex.str "--",
        .seq .wordBoundary (.seq (Regex.alts ((sqlKeywordList.map lit).map Regex.units))
          .wordBoundary)]), true⟩ := rfl
  have hkw : ∀ w ∈ sqlKeywordList.map lit, w ≠ [] ∧ ∀ x ∈ w, isAsciiLetter x = true := by
    decide
  have key : ∀ a b : List Nat,
      Regex.run true (Regex.alts [Regex.str "'", Regex.str "\"", Regex.str ";", Regex.str "--",
        .seq .wordBoundary (.seq (Regex.alts ((sqlKeywordList.map lit).map Regex.units))
          .wordBoundary)]) ⟨lastOr none a, b⟩ ≠ [] ↔
      ((stripIgnoreCase (lit "'") b).isSome = true ∨
        (stripIgnoreCase (lit "\"") b).isSome = true ∨
        (stripIgnoreCase (lit ";") b).isSome = true ∨
        (stripIgnoreCase (lit "--") b).isSome = true ∨
        ∃ w ∈ sqlKeywordList.map lit, isWordSide (lastOr none a) = false ∧
          ∃ rest, stripIgnoreCase w b = some rest ∧ isWordSide rest.head? = false) := by
    intro a b
    rw [run_ne_nil_alts]
    simp only [List.mem_cons, List.mem_singleton, exists_eq_or_imp, exists_eq_left,
      List.not_mem_nil, false_and, exists_false, or_false, Regex.str]
    rw [run_units_ne_nil _ (by decide), run_units_ne_nil _ (by decide),
      run_units_ne_nil _ (by decide), run_units_ne_nil _ (by decide),
      run_word_ne_nil _ hkw]
  have hany : (sqlKeywordList.any (fun w => containsWord m w)) = true ↔
      ∃ a b, m = a ++ b ∧ ∃ w ∈ sqlKeywordList.map lit, isWordSide (lastOr none a) = false ∧
        ∃ rest, stripIgnoreCase w b = some rest ∧ isWordSide rest.head? = false := by
    rw [List.any_eq_true]
    constructor
    · rintro ⟨w, hw, hc⟩
      obtain ⟨a, b, hm, h₁, h₂⟩ := (occursAsWord_iff (lit w) m none).mp hc
      exact ⟨a, b, hm, lit w, List.mem_map.mpr ⟨w, hw, rfl⟩, h₁, h₂⟩
    · rintro ⟨a, b, hm, w', hw', h₁, h₂⟩
      obtain ⟨w, hw, rfl⟩ := List.mem_map.mp hw'
      exact ⟨w, hw, (occursAsWord_iff (lit w) m none).mpr ⟨a, b, hm, h₁, h₂⟩⟩
  have hsplit : (∃ a b, m = a ++ b ∧ Regex.run true
        (Regex.alts [Regex.str "'", Regex.str "\"", Regex.str ";", Regex.str "--",
          .seq .wordBoundary (.seq (Regex.alts ((sqlKeywordList.map lit).map Regex.units))
            .wordBoundary)]) ⟨lastOr none a, b⟩ ≠ []) ↔
      (containsIgnoreCase m "'" || containsIgnoreCase m "\"" || containsIgnoreCase m ";" ||
          containsIgnoreCase m "--" || sqlKeywordList.any (fun w => containsWord m w)) = true := by
    simp only [key, Bool.or_eq_true, containsIgnoreCase, occursIgnoreCase_iff, hany]
    constructor
    · rintro ⟨a, b, hm, h | h | h | h | h⟩
      · exact Or.inl (Or.inl (Or.inl (Or.inl ⟨a, b, hm, h⟩)))
      · exact Or.inl (Or.inl (Or.inl (Or.inr ⟨a, b, hm, h⟩)))
      · exact Or.inl (Or.inl (Or.inr ⟨a, b, hm, h⟩))
      · exact Or.inl (Or.inr ⟨a, b, hm, h⟩)
      · exact Or.inr ⟨a, b, hm, h⟩
    · rintro ((((⟨a, b, hm, h⟩ | ⟨a, b, hm, h⟩) | ⟨a, b, hm, h⟩) | ⟨a, b, hm, h⟩) | ⟨a, b, hm, h⟩)
      · exact ⟨a, b, hm, Or.inl h⟩
      · exact ⟨a, b, hm, Or.inr (Or.inl h)⟩
      · exact ⟨a, b, hm, Or.inr (Or.inr (Or.inl h))⟩
      · exact ⟨a, b, hm, Or.inr (Or.inr (Or.inr (Or.inl h)))⟩
      · exact ⟨a, b, hm, Or.inr (Or.inr (Or.inr (Or.inr h)))⟩
  rw [Bool.eq_iff_iff, hshape, test_guard, hsplit]
  simp only [Bool.and_eq_true, Bool.not_eq_true', List.any_eq_false, Bool.not_eq_true]

/-! ## Input validator -/

theorem validate_string (m : JSString) (userId : JSValue) (hm : m ≠ []) :
    InputValidator.validate (.props (.string m) userId) =
      some
        { valid :=
            ((if m.length < 1 then ["Message is too short"] else []) ++
              (if m.length > CONFIG.MAX_MESSAGE_LENGTH then
                ["Message exceeds 5000 characters"] else []) ++
              ((if !InputValidator.noScripts.test m then
                  ["Message contains invalid content (noScripts)"] else []) ++
               (if !InputValidator.noSQLInjection.test m then
                  ["Message contains invalid content (noSQLInjection)"] else []))).length == 0,
          errors :=
            (if m.length < 1 then ["Message is too short"] else []) ++
              (if m.length > CONFIG.MAX_MESSAGE_LENGTH then
                ["Message exceeds 5000 characters"] else []) ++
              ((if !InputValidator.noScripts.test m then
                  ["Message contains invalid content (noScripts)"] else []) ++
               (if !InputValidator.noSQLInjection.test m then
                  ["Message contains invalid content (noSQLInjection)"] else [])) } := by
  have h₁ : "Message exceeds " ++ toString CONFIG.MAX_MESSAGE_LENGTH ++ " characters"
      = "Message exceeds 5000 characters" := by decide
  have h₂ : "Message contains invalid content (" ++ "noScripts" ++ ")"
      = "Message contains invalid content (noScripts)" := by decide
  have h₃ : "Message contains invalid content (" ++ "noSQLInjection" ++ ")"
      = "Message contains invalid content (noSQLInjection)" := by decide
  have ht : (JSValue.string m).truthy = true := by
    cases m with
    | nil => exact absurd rfl hm
    | cons c cs => rfl
  simp only [InputValidator.validate, ht, Bool.not_true, Bool.false_eq_true, if_false,
    InputValidator.patterns, List.filterMap_cons, List.filterMap_nil, h₁, h₂, h₃]
  by_cases hs : InputValidator.noScripts.test m = true <;>
    by_cases hq : InputValidator.noSQLInjection.test m = true <;>
    simp [hs, hq]

/-- Malformed messages in a body whose properties can be read: when the
`message` property is not a non-empty string (missing, empty, or of another
type) `validate` returns
`valid: false` with a non-empty `errors` list; for a string message longer
than 5000 code units it returns `valid: false` and `errors` contains
"Message exceeds 5000 characters". -/
theorem validate_rejects_malformed (message userId : JSValue) :
    ((∀ m, message = JSValue.string m → m = []) →
      ∃ r, InputValidator.validate (.props message userId) = some r ∧ r.valid = false ∧
        r.errors ≠ []) ∧
    (∀ m, message = JSValue.string m → CONFIG.MAX_MESSAGE_LENGTH < m.length →
      ∃ r, InputValidator.validate (.props message userId) = some r ∧ r.valid = false ∧
        "Message exceeds 5000 characters" ∈ r.errors) := by
  constructor
  · intro h
    cases message with
    | string m =>
        have hm : m = [] := h m rfl
        subst hm
        exact ⟨_, rfl, by decide, by decide⟩
    | undefined => exact ⟨_, rfl, by decide, by decide⟩
    | null => exact ⟨_, rfl, by decide, by decide⟩
    | boolean b => cases b <;> exact ⟨_, rfl, by decide, by decide⟩
    | number z => cases z <;> exact ⟨_, rfl, by decide, by decide⟩
    | object => exact ⟨_, rfl, by decide, by decide⟩
  · rintro m rfl hlen
    have hm : m ≠ [] := by
      rintro rfl
      simp at hlen
    have hgt : m.length > CONFIG.MAX_MESSAGE_LENGTH := hlen
    have hlt : ¬ m.length < 1 := by omega
    refine ⟨_, validate_string m userId hm, ?_, ?_⟩
    · simp [hgt, hlt]
    · simp [hgt, hlt]

theorem validate_rejects_malformed_witness :
    (∃ r, InputValidator.validate (.props (.number false) .undefined) = some r ∧
      r.valid = false ∧ r.errors ≠ []) ∧
    (∃ r, InputValidator.validate (.props (.string (List.replicate 5001 0x61)) .undefined)
        = some r ∧ r.valid = false ∧ "Message exceeds 5000 characters" ∈ r.errors) :=
  ⟨(validate_rejects_malformed (.number false) .undefined).1 (fun m h => by cases h),
   (validate_rejects_malformed (.string (List.replicate 5001 0x61)) .undefined).2
      (List.replicate 5001 0x61) rfl (by rw [List.length_replicate]; decide)⟩

/-- C6. Disallowed content: a string message that contains `<script`,
`javascript:` or `data:` in any letter case makes `validate` return
`valid: false` with the error naming `noScripts`; a string message that
contains a single quote, a double quote, `;`, `--` or one of SELECT, INSERT,
UPDATE, DELETE, DROP, UNION (in any letter case) as a whole word makes it return
`valid: false` with the error naming `noSQLInjection`. -/
theorem validate_rejects_disallowed (m : JSString) (userId : JSValue) :
    ((containsIgnoreCase m "<script" = true ∨ containsIgnoreCase m "javascript:" = true ∨
        containsIgnoreCase m "data:" = true) →
      ∃ r, InputValidator.validate (.props (.string m) userId) = some r ∧ r.valid = false ∧
        "Message contains invalid content (noScripts)" ∈ r.errors) ∧
    ((containsIgnoreCase m "'" = true ∨ containsIgnoreCase m "\"" = true ∨
        containsIgnoreCase m ";" = true ∨ containsIgnoreCase m "--" = true ∨
        ∃ w ∈ sqlKeywordList, containsWord m w = true) →
      ∃ r, InputValidator.validate (.props (.string m) userId) = some r ∧ r.valid = false ∧
        "Message contains invalid content (noSQLInjection)" ∈ r.errors) := by
  constructor
  · intro h
    have hm : m ≠ [] := by
      rintro rfl
      revert h; decide
    have ht : InputValidator.noScripts.test m = false := by
      rw [noScripts_test]
      rcases h with h | h | h <;> simp [h]
    refine ⟨_, validate_string m userId hm, ?_, ?_⟩
    · simp [ht]
    · simp [ht]
  · intro h
    have hm : m ≠ [] := by
      rintro rfl
      revert h; decide
    have ht : InputValidator.noSQLInjection.test m = false := by
      rw [noSQLInjection_test]
      rcases h with h | h | h | h | ⟨w, hw, h⟩
      · simp [h]
      · simp [h]
      · simp [h]
      · simp [h]
      · have : sqlKeywordList.any (fun w => containsWord m w) = true :=
          List.any_eq_true.mpr ⟨w, hw, h⟩
        simp [this]
    refine ⟨_, validate_string m userId hm, ?_, ?_⟩
    · simp [ht]
    · simp [ht]

theorem validate_rejects_disallowed_witness :
    (∃ r, InputValidator.validate (.props (.string (lit "see <ScRiPt>")) .undefined) = some r ∧
      r.valid = false ∧ "Message contains invalid content (noScripts)" ∈ r.errors) ∧
    (∃ r, InputValidator.validate (.props (.string (lit "please Drop it")) .undefined) = some r ∧
      r.valid = false ∧ "Message contains invalid content (noSQLInjection)" ∈ r.errors) :=
  ⟨(validate_rejects_disallowed (lit "see <ScRiPt>") .undefined).1 (Or.inl (by decide)),
   (validate_rejects_disallowed (lit "please Drop it") .undefined).2
      (Or.inr (Or.inr (Or.inr (Or.inr ⟨"DROP", by decide, by decide⟩))))⟩

/-! ## Query classifier -/

/-- The catch-all pattern `/.*/` tests true on every string. -/
theorem general_consultation_test (m : JSString) :
    IntelligentAnalyzer.general_consultation.test m = true := by
  unfold RegExp.test
  rw [testFrom_iff]
  refine ⟨[], m, rfl, ?_⟩
  have : (⟨lastOr none [], m⟩ : Pos) ∈
      Regex.run false (.star .dot) ⟨lastOr none [], m⟩ := by
    simp only [Regex.run]
    exact (mem_starRun false .dot _ m _).mpr ⟨[], m, rfl, by simp, rfl⟩
  exact List.ne_nil_of_mem this

/-- C7. `classifyQuery` is total and first-match: the result is
`invoice_analysis` when the invoice pattern tests true, else
`margin_optimization` when the margin pattern does, else `excel_formulas`, else
`fifa_projections`, else `general_consultation`; it is always one of these
five names; a message on which both the invoice and the margin pattern test
true is an `invoice_analysis`; and the three sample messages classify as
stated. -/
theorem classifyQuery_first_match (m : JSString) :
    IntelligentAnalyzer.classifyQuery m =
      (if IntelligentAnalyzer.invoice_analysis.test m then "invoice_analysis"
       else if IntelligentAnalyzer.margin_optimization.test m then "margin_optimization"
       else if IntelligentAnalyzer.excel_formulas.test m then "excel_formulas"
       else if IntelligentAnalyzer.fifa_projections.test m then "fifa_projections"
       else "general_consultation") ∧
    IntelligentAnalyzer.classifyQuery m ∈
      ["invoice_analysis", "margin_optimization", "excel_formulas", "fifa_projections",
        "general_consultation"] ∧
    (IntelligentAnalyzer.invoice_analysis.test m = true →
      IntelligentAnalyzer.margin_optimization.test m = true →
      IntelligentAnalyzer.classifyQuery m = "invoice_analysis") ∧
    IntelligentAnalyzer.classifyQuery (lit "hello") = "general_consultation" ∧
    IntelligentAnalyzer.classifyQuery (lit "Analyze my invoice with CRV fees")
      = "invoice_analysis" ∧
    IntelligentAnalyzer.margin_optimization.test (lit "margin of this invoice") = true ∧
    IntelligentAnalyzer.classifyQuery (lit "margin of this invoice") = "invoice_analysis" := by
  have hchain : IntelligentAnalyzer.classifyQuery m =
      (if IntelligentAnalyzer.invoice_analysis.test m then "invoice_analysis"
       else if IntelligentAnalyzer.margin_optimization.test m then "margin_optimization"
       else if IntelligentAnalyzer.excel_formulas.test m then "excel_formulas"
       else if IntelligentAnalyzer.fifa_projections.test m then "fifa_projections"
       else "general_consultation") := by
    simp only [IntelligentAnalyzer.classifyQuery, IntelligentAnalyzer.patterns, List.find?]
    cases h₁ : IntelligentAnalyzer.invoice_analysis.test m
    · cases h₂ : IntelligentAnalyzer.margin_optimization.test m
      · cases h₃ : IntelligentAnalyzer.excel_formulas.test m
        · cases h₄ : IntelligentAnalyzer.fifa_projections.test m
          · simp [general_consultation_test]
          · simp
        · simp
      · simp
    · simp
  refine ⟨hchain, ?_, ?_, by decide, by decide, by decide, by decide⟩
  · rw [hchain]
    split_ifs <;> simp
  · intro h _
    rw [hchain, if_pos h]

theorem anyDigit_test (m : JSString) :
    IntelligentAnalyzer.anyDigit.test m = m.any isDigit := by
  have h : ∀ (cs : List Nat) (prev : Option Nat),
      testFrom false (.atom .digit) prev cs = cs.any isDigit := by
    intro cs
    induction cs with
    | nil => intro prev; simp [testFrom, Regex.run]
    | cons c cs ih =>
        intro prev
        simp only [testFrom, ih, List.any_cons, Regex.run, Atom.accepts]
        by_cases hc : isDigit c = true
        · simp [hc]
        · simp [hc]
  exact h m none

theorem test_words (ws : List (List Nat)) (hws : ∀ w ∈ ws, ∀ x ∈ w, x < 128) (m : JSString) :
    RegExp.test ⟨Regex.alts (ws.map Regex.units), true⟩ m
      = ws.any (fun w => occursIgnoreCase w m) := by
  rw [Bool.eq_iff_iff, List.any_eq_true]
  unfold RegExp.test
  rw [testFrom_iff]
  constructor
  · rintro ⟨a, b, hm, hne⟩
    obtain ⟨r, hr, hne'⟩ := (run_ne_nil_alts true _ _).mp hne
    obtain ⟨w, hw, rfl⟩ := List.mem_map.mp hr
    exact ⟨w, hw, (occursIgnoreCase_iff w m).mpr
      ⟨a, b, hm, (run_units_ne_nil w (hws w hw) _).mp hne'⟩⟩
  · rintro ⟨w, hw, hocc⟩
    obtain ⟨a, b, hm, hs⟩ := (occursIgnoreCase_iff w m).mp hocc
    exact ⟨a, b, hm, (run_ne_nil_alts true _ _).mpr
      ⟨Regex.units w, List.mem_map.mpr ⟨w, hw, rfl⟩,
        (run_units_ne_nil w (hws w hw) ⟨lastOr none a, b⟩).mpr hs⟩⟩

theorem specialTerms_test (m : JSString) :
    IntelligentAnalyzer.specialTerms.test m =
      (containsIgnoreCase m "excel" || containsIgnoreCase m "formula" ||
        containsIgnoreCase m "projection" || containsIgnoreCase m "analysis") := by
  have hshape : IntelligentAnalyzer.specialTerms =
      ⟨Regex.alts ([lit "excel", lit "formula", lit "projection", lit "analysis"].map
        Regex.units), true⟩ := rfl
  rw [hshape, test_words _ (by decide)]
  simp [containsIgnoreCase, Bool.or_assoc]

theorem starRun_head (ic : Bool) (a : Atom) (cs : List Nat) :
    ∀ prev, (starRun ic a prev cs).head? =
      some ⟨lastOr prev (cs.takeWhile (a.accepts ic)), cs.dropWhile (a.accepts ic)⟩ := by
  induction cs with
  | nil => intro prev; simp [starRun, lastOr]
  | cons c cs ih =>
      intro prev
      by_cases hc : a.accepts ic c = true
      · have hne := ih (some c)
        simp only [starRun, hc, if_true, List.takeWhile_cons, List.dropWhile_cons, lastOr]
        cases hl : starRun ic a (some c) cs with
        | nil => rw [hl] at hne; simp at hne
        | cons x xs => rw [hl] at hne; simpa using hne
      · simp [starRun, hc, List.takeWhile_cons, List.dropWhile_cons, lastOr]

theorem splitOnWhitespaceRuns_inRun (cs : List Nat) :
    splitOnWhitespaceRuns true [] cs
      = splitOnWhitespaceRuns false [] (cs.dropWhile isWhiteSpace) := by
  induction cs with
  | nil => rfl
  | cons c cs ih =>
      by_cases hc : isWhiteSpace c = true
      · simp [splitOnWhitespaceRuns, hc, List.dropWhile_cons, ih]
      · simp [splitOnWhitespaceRuns, hc, List.dropWhile_cons]

theorem splitLoop_whitespace (fuel : Nat) :
    ∀ (seg : JSString) (prev : Option Nat) (l : List Nat), l.length < fuel →
      splitLoop IntelligentAnalyzer.whitespaceRun fuel seg ⟨prev, l⟩
        = splitOnWhitespaceRuns false seg l := by
  induction fuel with
  | zero => intro seg prev l h; omega
  | succ fuel ih =>
      intro seg prev l hl
      cases l with
      | nil => simp [splitLoop, splitOnWhitespaceRuns]
      | cons c cs =>
          simp only [List.length_cons] at hl
          by_cases hc : isWhiteSpace c = true
          · have hrun : (Regex.run IntelligentAnalyzer.whitespaceRun.ignoreCase
                IntelligentAnalyzer.whitespaceRun.body ⟨prev, c :: cs⟩).head?
                = some ⟨lastOr (some c) (cs.takeWhile isWhiteSpace),
                    cs.dropWhile isWhiteSpace⟩ := by
              simp only [IntelligentAnalyzer.whitespaceRun, Regex.run, Atom.accepts, hc, if_true]
              exact starRun_head false .space cs (some c)
            have hlen : (cs.dropWhile isWhiteSpace).length ≤ cs.length :=
              (List.dropWhile_sublist _).length_le
            have hne : ¬ (cs.dropWhile isWhiteSpace).length = (c :: cs).length + seg.length := by
              simp only [List.length_cons]; omega
            simp only [splitLoop, hrun, hne, if_false]
            rw [ih [] _ _ (by omega)]
            simp [splitOnWhitespaceRuns, hc, splitOnWhitespaceRuns_inRun]
          · have hrun : (Regex.run IntelligentAnalyzer.whitespaceRun.ignoreCase
                IntelligentAnalyzer.whitespaceRun.body ⟨prev, c :: cs⟩).head? = none := by
              simp [IntelligentAnalyzer.whitespaceRun, Regex.run, Atom.accepts, hc]
            simp only [splitLoop, hrun]
            rw [ih _ _ _ (by omega)]
            simp [splitOnWhitespaceRuns, hc]

theorem split_whitespace (m : JSString) :
    split m IntelligentAnalyzer.whitespaceRun = splitOnWhitespaceRuns false [] m := by
  cases m with
  | nil => simp [split, IntelligentAnalyzer.whitespaceRun, Regex.run, splitOnWhitespaceRuns]
  | cons c cs =>
      simp only [split]
      exact splitLoop_whitespace _ [] none (c :: cs) (by simp; omega)

/-- C8. `getQueryComplexity` equals the reference definition on every string:
with `wordCount` the number of segments of the message split on runs of
whitespace, `hasDigit` and `hasTerm` as in `referenceComplexity`, the result is
"complex" if `wordCount > 50` or (`hasDigit` and `hasTerm`), otherwise "normal"
if `wordCount > 20` or `hasTerm`, otherwise "fast"; the sample message is
"fast". -/
theorem getQueryComplexity_eq_reference (m : JSString) :
    IntelligentAnalyzer.getQueryComplexity m = referenceComplexity m ∧
    IntelligentAnalyzer.getQueryComplexity (lit "Analyze my invoice with CRV fees") = "fast" := by
  refine ⟨?_, by decide⟩
  simp only [IntelligentAnalyzer.getQueryComplexity, referenceComplexity, split_whitespace,
    anyDigit_test, specialTerms_test]

/-! ## The `POST` handler: shape of a run -/

theorem front_proceed (hash : JSString → JSString) (server server' : Server) (req : Request)
    (env : Env) (job : Job) (h : POST.front hash server req env = (.proceed job, server')) :
    ∃ raw userId, req.body = some (.props (.string raw) userId) ∧
      job.message = InputValidator.sanitize raw ∧
      job.queryType = IntelligentAnalyzer.classifyQuery job.message ∧
      job.complexity = IntelligentAnalyzer.getQueryComplexity job.message ∧
      job.ip = POST.ip req ∧ job.userId = POST.userId userId req.userIdText := by
  unfold POST.front at h
  cases hb : req.body with
  | none => simp [hb] at h
  | some body =>
      simp only [hb] at h
      cases hv : InputValidator.validate body with
      | none => simp [hv] at h
      | some validation =>
          simp only [hv] at h
          by_cases hvalid : validation.valid = true
          · simp only [hvalid, Bool.not_true, Bool.false_eq_true, if_false] at h
            cases hm : POST.message body with
            | none => simp [hm] at h
            | some raw =>
                simp only [hm] at h
                have hbody : ∃ userId, body = .props (.string raw) userId := by
                  cases body with
                  | null => simp [POST.message] at hm
                  | props message userId =>
                      cases message <;> simp [POST.message] at hm
                      subst hm
                      exact ⟨userId, rfl⟩
                obtain ⟨userId, rfl⟩ := hbody
                refine ⟨raw, userId, rfl, ?_⟩
                split at h
                · simp at h
                · split at h
                  · simp at h
                  · split at h
                    · split at h
                      · simp only [Prod.mk.injEq, Front.proceed.injEq] at h
                        obtain ⟨rfl, -⟩ := h
                        exact ⟨rfl, rfl, rfl, rfl, rfl⟩
                      · simp at h
                    · simp at h
          · simp [hvalid] at h

theorem POST_generation (hash : JSString → JSString) (server : Server) (req : Request)
    (env : Env) (g : String × JSString × Option Nat)
    (hg : g ∈ (POST hash server req env).generations) :
    ∃ job server', POST.front hash server req env = (.proceed job, server') ∧
      env.backend.clientError = none ∧
      (POST.tryModels env.backend.handleError CONFIG.MODELS).1 = some g.1 ∧
      g = (g.1, POST.fullPrompt job.queryType job.message, POST.timeout job.complexity) ∧
      POST hash server req env = POST.back hash server' env job := by
  unfold POST at hg ⊢
  cases hf : POST.front hash server req env with
  | mk front server' =>
      cases front with
      | respond r => simp [hf] at hg
      | proceed job =>
          simp only [hf] at hg ⊢
          refine ⟨job, server', rfl, ?_⟩
          unfold POST.back at hg
          cases hc : env.backend.clientError with
          | some message => simp [hc] at hg
          | none =>
              simp only [hc] at hg
              cases ht : (POST.tryModels env.backend.handleError CONFIG.MODELS).1 with
              | none => simp [ht] at hg
              | some modelName =>
                  simp only [ht] at hg
                  have hg' : g = (modelName, POST.fullPrompt job.queryType job.message,
                      POST.timeout job.complexity) := by
                    cases hgen : env.backend.generate modelName
                        (POST.fullPrompt job.queryType job.message)
                        (POST.timeout job.complexity) <;>
                      simpa [hgen] using hg
                  subst hg'
                  exact ⟨rfl, rfl, rfl, rfl⟩

theorem tryModels_eq (handleError : String → Option JSString) (models : List String) :
    POST.tryModels handleError models =
      (models.find? (fun c => (handleError c).isNone),
        models.takeWhile (fun c => (handleError c).isSome) ++
          (models.find? (fun c => (handleError c).isNone)).toList) := by
  induction models with
  | nil => rfl
  | cons c cs ih =>
      cases hc : handleError c with
      | none => simp [POST.tryModels, hc, List.find?, List.takeWhile]
      | some msg => simp [POST.tryModels, hc, List.find?, List.takeWhile, ih]

theorem getQueryComplexity_tier (m : JSString) :
    IntelligentAnalyzer.getQueryComplexity m = "fast" ∨
      IntelligentAnalyzer.getQueryComplexity m = "normal" ∨
      IntelligentAnalyzer.getQueryComplexity m = "complex" := by
  unfold IntelligentAnalyzer.getQueryComplexity
  simp only
  split_ifs <;> simp

theorem classifyQuery_chain (m : JSString) :
    IntelligentAnalyzer.classifyQuery m =
      (if IntelligentAnalyzer.invoice_analysis.test m then "invoice_analysis"
       else if IntelligentAnalyzer.margin_optimization.test m then "margin_optimization"
       else if IntelligentAnalyzer.excel_formulas.test m then "excel_formulas"
       else if IntelligentAnalyzer.fifa_projections.test m then "fifa_projections"
       else "general_consultation") := by
  simp only [IntelligentAnalyzer.classifyQuery, IntelligentAnalyzer.patterns, List.find?]
  cases h₁ : IntelligentAnalyzer.invoice_analysis.test m
  · cases h₂ : IntelligentAnalyzer.margin_optimization.test m
    · cases h₃ : IntelligentAnalyzer.excel_formulas.test m
      · cases h₄ : IntelligentAnalyzer.fifa_projections.test m
        · simp [general_consultation_test]
        · simp
      · simp
    · simp
  · simp

theorem cacheTTL_classifyQuery (m : JSString) :
    ∃ ttl, CONFIG.CACHE_TTL (IntelligentAnalyzer.classifyQuery m) = some ttl := by
  rw [classifyQuery_chain]
  split_ifs
  · exact ⟨600000, by decide⟩
  · exact ⟨600000, by decide⟩
  · exact ⟨3600000, by decide⟩
  · exact ⟨86400000, by decide⟩
  · exact ⟨600000, by decide⟩

/-! ## The `POST` handler: generation, timeout, truncation, model fallback -/

/-- C12. Generation timeout: whenever a generation call issued by `POST` ends
with the timer settling first, the response has status 408 and its `error` is
"Request timeout", whatever the message and the model. -/
theorem POST_generation_timeout (hash : JSString → JSString) (server : Server) (req : Request)
    (env : Env) (model : String) (prompt : JSString) (t : Option Nat)
    (hg : (model, prompt, t) ∈ (POST hash server req env).generations)
    (ht : env.backend.generate model prompt t = .timedOut) :
    (POST hash server req env).response.status = 408 ∧
    (POST hash server req env).response.field "error"
      = some (.leaf (.str (lit "Request timeout"))) := by
  obtain ⟨job, server', -, hc, htry, hshape, hback⟩ := POST_generation hash server req env _ hg
  simp only [Prod.mk.injEq, true_and] at hshape htry
  obtain ⟨rfl, rfl⟩ := hshape
  have hT : ErrorHandler.handle (lit "Timeout") = ErrorHandler.TIMEOUT_ERROR := by decide
  rw [hback]
  simp only [POST.back, hc, htry, ht, POST.handled, hT]
  exact ⟨rfl, rfl⟩

set_option maxRecDepth 20000 in
theorem POST_generation_timeout_witness :
    (POST id freshServer helloRequest (sampleEnv 5 (steadyBackend .timedOut))).response.status
      = 408 ∧
    (POST id freshServer helloRequest (sampleEnv 5 (steadyBackend .timedOut))).response.field
      "error" = some (.leaf (.str (lit "Request timeout"))) :=
  POST_generation_timeout id freshServer helloRequest (sampleEnv 5 (steadyBackend .timedOut))
    "gemini-1.5-flash-latest" (POST.fullPrompt "general_consultation" (lit "hello")) (some 15000)
    (by decide) rfl

/-- C13. Progressive timeout selection: for every message the complexity tier is
fast, normal or complex, the lookup `CONFIG.TIMEOUTS[complexity]` finds 15000,
30000 or 60000 respectively (so the fallback after `||` is not used) and that
is the timer value; the timer value does not decrease along the tier order
fast, normal, complex; and the timer of every generation call `POST` issues is
the value selected for the complexity of the sanitized message. -/
theorem POST_timeout_by_tier :
    (∀ m : JSString,
      (IntelligentAnalyzer.getQueryComplexity m = "fast" ∧
        CONFIG.TIMEOUTS (IntelligentAnalyzer.getQueryComplexity m) = some 15000 ∧
        POST.timeout (IntelligentAnalyzer.getQueryComplexity m) = some 15000) ∨
      (IntelligentAnalyzer.getQueryComplexity m = "normal" ∧
        CONFIG.TIMEOUTS (IntelligentAnalyzer.getQueryComplexity m) = some 30000 ∧
        POST.timeout (IntelligentAnalyzer.getQueryComplexity m) = some 30000) ∨
      (IntelligentAnalyzer.getQueryComplexity m = "complex" ∧
        CONFIG.TIMEOUTS (IntelligentAnalyzer.getQueryComplexity m) = some 60000 ∧
        POST.timeout (IntelligentAnalyzer.getQueryComplexity m) = some 60000)) ∧
    (∀ (m₁ m₂ : JSString) (t₁ t₂ : Nat),
      POST.timeout (IntelligentAnalyzer.getQueryComplexity m₁) = some t₁ →
      POST.timeout (IntelligentAnalyzer.getQueryComplexity m₂) = some t₂ →
      tierRank (IntelligentAnalyzer.getQueryComplexity m₁)
        ≤ tierRank (IntelligentAnalyzer.getQueryComplexity m₂) → t₁ ≤ t₂) ∧
    (∀ (hash : JSString → JSString) (server : Server) (req : Request) (env : Env)
      (model : String) (prompt : JSString) (t : Option Nat),
      (model, prompt, t) ∈ (POST hash server req env).generations →
      ∃ raw userId, req.body = some (.props (.string raw) userId) ∧
        t = POST.timeout (IntelligentAnalyzer.getQueryComplexity (InputValidator.sanitize raw))) := by
  refine ⟨?_, ?_, ?_⟩
  · intro m
    rcases getQueryComplexity_tier m with h | h | h
    · exact Or.inl ⟨h, by rw [h]; decide, by rw [h]; decide⟩
    · exact Or.inr (Or.inl ⟨h, by rw [h]; decide, by rw [h]; decide⟩)
    · exact Or.inr (Or.inr ⟨h, by rw [h]; decide, by rw [h]; decide⟩)
  · intro m₁ m₂ t₁ t₂ h₁ h₂ hr
    have e₁ : POST.timeout "fast" = some 15000 := by decide
    have e₂ : POST.timeout "normal" = some 30000 := by decide
    have e₃ : POST.timeout "complex" = some 60000 := by decide
    have r₁ : tierRank "fast" = 0 := by decide
    have r₂ : tierRank "normal" = 1 := by decide
    have r₃ : tierRank "complex" = 2 := by decide
    rcases getQueryComplexity_tier m₁ with h | h | h <;>
      rcases getQueryComplexity_tier m₂ with h' | h' | h' <;>
      rw [h] at h₁ hr <;> rw [h'] at h₂ hr <;>
      simp only [e₁, e₂, e₃, r₁, r₂, r₃, Option.some.injEq] at h₁ h₂ hr <;> omega
  · intro hash server req env model prompt t hg
    obtain ⟨job, server', hf, -, -, hshape, -⟩ := POST_generation hash server req env _ hg
    obtain ⟨raw, userId, hbody, hmsg, -, hcx, -, -⟩ :=
      front_proceed hash server server' req env job hf
    simp only [Prod.mk.injEq, true_and] at hshape
    refine ⟨raw, userId, hbody, ?_⟩
    rw [hshape.2, hcx, hmsg]

set_option maxRecDepth 20000 in
theorem POST_timeout_by_tier_witness :
    ∃ raw userId, helloRequest.body = some (.props (.string raw) userId) ∧
      some 15000 = POST.timeout (IntelligentAnalyzer.getQueryComplexity
        (InputValidator.sanitize raw)) :=
  POST_timeout_by_tier.2.2 id freshServer helloRequest (sampleEnv 5 (steadyBackend .timedOut))
    "gemini-1.5-flash-latest" (POST.fullPrompt "general_consultation" (lit "hello")) (some 15000)
    (by decide)

theorem truncate_length (s : JSString) :
    (POST.truncate s).length ≤ CONFIG.MAX_RESPONSE_LENGTH + 3 := by
  unfold POST.truncate substring
  have h3 : (lit "...").length = 3 := by decide
  split
  · rw [List.length_append, List.length_take, h3]
    omega
  · omega

theorem back_text (hash : JSString → JSString) (server : Server) (env : Env) (job : Job)
    (model : String) (s : JSString) (hc : env.backend.clientError = none)
    (htry : (POST.tryModels env.backend.handleError CONFIG.MODELS).1 = some model)
    (hs : env.backend.generate model (POST.fullPrompt job.queryType job.message)
      (POST.timeout job.complexity) = .text s) :
    (POST.back hash server env job).response.status = 200 ∧
    (POST.back hash server env job).response.field "response"
      = some (.leaf (.str (POST.truncate s))) ∧
    (POST.back hash server env job).server.cache =
      server.cache.set hash env.clock.cacheSet job.message (POST.truncate s) job.queryType
        job.userId := by
  simp [POST.back, hc, htry, hs, Response.field, mapGet]

/-- C14. Response truncation: when a generation call issued by `POST` returns the
text `s`, the response has status 200, its `response` is `s` itself if `s` has
at most 10000 code units and otherwise the first 10000 code units of `s`
followed by `...`, and that same text is the payload stored in the cache under
the key of the sanitized message and the user id. -/
theorem POST_truncation (hash : JSString → JSString) (server : Server) (req : Request)
    (env : Env) (model : String) (prompt : JSString) (t : Option Nat) (s : JSString)
    (hg : (model, prompt, t) ∈ (POST hash server req env).generations)
    (hs : env.backend.generate model prompt t = .text s) :
    (POST hash server req env).response.status = 200 ∧
    (POST hash server req env).response.field "response" =
      some (.leaf (.str (if s.length ≤ 10000 then s else s.take 10000 ++ lit "..."))) ∧
    ∃ raw userId entry, req.body = some (.props (.string raw) userId) ∧
      mapGet (POST hash server req env).server.cache.cache
        (SmartCache.generateKey hash (InputValidator.sanitize raw)
          (POST.userId userId req.userIdText)) = some entry ∧
      entry.data = (if s.length ≤ 10000 then s else s.take 10000 ++ lit "...") := by
  obtain ⟨job, server', hf, hc, htry, hshape, hback⟩ := POST_generation hash server req env _ hg
  simp only [Prod.mk.injEq, true_and] at hshape htry
  obtain ⟨rfl, rfl⟩ := hshape
  obtain ⟨raw, userId, hbody, hmsg, hq, -, -, hu⟩ :=
    front_proceed hash server server' req env job hf
  obtain ⟨h₁, h₂, h₃⟩ := back_text hash server' env job model s hc htry hs
  have hkept : POST.truncate s = (if s.length ≤ 10000 then s else s.take 10000 ++ lit "...") := by
    unfold POST.truncate substring CONFIG.MAX_RESPONSE_LENGTH
    by_cases h : s.length ≤ 10000
    · have : ¬ s.length > 10000 := by omega
      simp [h, this]
    · have : s.length > 10000 := by omega
      simp [h, this]
  obtain ⟨ttl, httl⟩ := cacheTTL_classifyQuery job.message
  have hl := set_lookup hash server'.cache env.clock.cacheSet job.message
    (if s.length ≤ 10000 then s else s.take 10000 ++ lit "...") job.queryType job.userId
    ttl (by rw [hq]; exact httl)
  rw [hmsg, hu] at hl
  rw [hback, h₁, h₂, h₃, hkept, hmsg, hu]
  exact ⟨rfl, rfl, raw, userId, _, hbody, hl, rfl⟩

set_option maxRecDepth 20000 in
theorem POST_truncation_witness :
    (POST id freshServer helloRequest (sampleEnv 5 (steadyBackend (.text (lit "Hi!"))))).response.field
      "response" = some (.leaf (.str (lit "Hi!"))) :=
  (POST_truncation id freshServer helloRequest (sampleEnv 5 (steadyBackend (.text (lit "Hi!"))))
    "gemini-1.5-flash-latest" (POST.fullPrompt "general_consultation" (lit "hello")) (some 15000)
    (lit "Hi!") (by decide) rfl).2.1

/-- C15, as stated, fails: a generated text of 10001 code units is answered with
a `response` of 10003 code units, more than `MAX_RESPONSE_LENGTH`. -/
theorem POST_response_length_exceeds :
    ∃ txt, (POST id freshServer helloRequest
        (sampleEnv 5 (steadyBackend (.text longText)))).response.field "response"
          = some (.leaf (.str txt)) ∧
      txt.length = 10003 ∧ CONFIG.MAX_RESPONSE_LENGTH < txt.length := by
  refine ⟨POST.truncate longText, rfl, ?_⟩
  have h : (POST.truncate longText).length = 10003 := by
    have h3 : (lit "...").length = 3 := by decide
    have hlen : longText.length = 10001 := List.length_replicate _ _
    have hgt : longText.length > CONFIG.MAX_RESPONSE_LENGTH := by
      rw [hlen]; decide
    rw [POST.truncate, if_pos hgt, List.length_append, substring, List.length_take, hlen, h3]
    decide
  rw [h]
  exact ⟨rfl, by decide⟩

/-- C15, amended. Response length: when a generation call issued by `POST`
returns a text, the `response` of the answer has at most
`MAX_RESPONSE_LENGTH + 3` code units (the cut text and the three of `...`). -/
theorem POST_response_length (hash : JSString → JSString) (server : Server) (req : Request)
    (env : Env) (model : String) (prompt : JSString) (t : Option Nat) (s : JSString)
    (hg : (model, prompt, t) ∈ (POST hash server req env).generations)
    (hs : env.backend.generate model prompt t = .text s) :
    ∃ txt, (POST hash server req env).response.field "response" = some (.leaf (.str txt)) ∧
      txt.length ≤ CONFIG.MAX_RESPONSE_LENGTH + 3 := by
  obtain ⟨job, server', -, hc, htry, hshape, hback⟩ := POST_generation hash server req env _ hg
  simp only [Prod.mk.injEq, true_and] at hshape htry
  obtain ⟨rfl, rfl⟩ := hshape
  obtain ⟨-, h₂, -⟩ := back_text hash server' env job model s hc htry hs
  rw [hback]
  exact ⟨POST.truncate s, h₂, truncate_length s⟩

set_option maxRecDepth 20000 in
theorem POST_response_length_witness :
    ∃ txt, (POST id freshServer helloRequest
        (sampleEnv 5 (steadyBackend (.text (lit "Hello there"))))).response.field "response"
          = some (.leaf (.str txt)) ∧
      txt.length ≤ CONFIG.MAX_RESPONSE_LENGTH + 3 :=
  POST_response_length id freshServer helloRequest
    (sampleEnv 5 (steadyBackend (.text (lit "Hello there"))))
    "gemini-1.5-flash-latest" (POST.fullPrompt "general_consultation" (lit "hello")) (some 15000)
    (lit "Hello there") (by decide) rfl

/-- C16. Model fallback: when a request reaches model initialisation, the client
is constructed and `model` is the first entry of `CONFIG.MODELS` whose handle is
obtained, then handles were requested for the entries before it and for it and
for no later one, exactly one generation call is issued and it is on `model`,
and a success response reports `model` as `metadata.model`. -/
theorem POST_model_fallback (hash : JSString → JSString) (server server' : Server)
    (req : Request) (env : Env) (job : Job) (model : String)
    (hf : POST.front hash server req env = (.proceed job, server'))
    (hc : env.backend.clientError = none)
    (hm : CONFIG.MODELS.find? (fun c => (env.backend.handleError c).isNone) = some model) :
    (POST hash server req env).handlesTried =
      CONFIG.MODELS.takeWhile (fun c => (env.backend.handleError c).isSome) ++ [model] ∧
    (POST hash server req env).generations =
      [(model, POST.fullPrompt job.queryType job.message, POST.timeout job.complexity)] ∧
    ((POST hash server req env).response.status = 200 →
      ∃ fields, (POST hash server req env).response.field "metadata" = some (.obj fields) ∧
        mapGet fields "model" = some (.str (lit model))) := by
  have htry := tryModels_eq env.backend.handleError CONFIG.MODELS
  rw [hm] at htry
  have hback : POST hash server req env = POST.back hash server' env job := by
    simp only [POST, hf]
  rw [hback]
  simp only [POST.back, hc, htry, Option.toList]
  cases hgen : env.backend.generate model (POST.fullPrompt job.queryType job.message)
      (POST.timeout job.complexity) with
  | text s =>
      refine ⟨rfl, rfl, fun _ => ⟨_, rfl, ?_⟩⟩
      simp [mapGet]
  | unreadable =>
      refine ⟨rfl, rfl, fun h => ?_⟩
      simp at h
  | failed message =>
      refine ⟨rfl, rfl, fun h => ?_⟩
      simp only [POST.handled] at h
      unfold ErrorHandler.handle at h
      split_ifs at h <;> simp [ErrorHandler.TIMEOUT_ERROR, ErrorHandler.MODEL_ERROR,
        ErrorHandler.VALIDATION_ERROR, ErrorHandler.SYSTEM_ERROR] at h
  | timedOut =>
      refine ⟨rfl, rfl, fun h => ?_⟩
      have hT : ErrorHandler.handle (lit "Timeout") = ErrorHandler.TIMEOUT_ERROR := by decide
      simp [POST.handled, hT, ErrorHandler.TIMEOUT_ERROR] at h

set_option maxRecDepth 20000 in
theorem POST_model_fallback_witness :
    (POST id freshServer helloRequest (sampleEnv 5 thirdModelBackend)).handlesTried =
      ["gemini-1.5-flash-latest", "gemini-1.5-flash", "gemini-1.5-pro-latest"] ∧
    (POST id freshServer helloRequest (sampleEnv 5 thirdModelBackend)).generations.map Prod.fst
      = ["gemini-1.5-pro-latest"] :=
  ⟨(POST_model_fallback id freshServer _ helloRequest (sampleEnv 5 thirdModelBackend) _
      "gemini-1.5-pro-latest" rfl rfl (by decide)).1.trans (by decide),
   by decide⟩

/-- C11, evaluated: when `getGenerativeModel` throws for all four models, a
valid request is answered with status 500 and "Internal system error", not with
503; a handle was requested for each model and no generation call was made. -/
theorem POST_no_model_available :
    (POST id freshServer helloRequest (sampleEnv 5 noModelBackend)).response.status = 500 ∧
    (POST id freshServer helloRequest (sampleEnv 5 noModelBackend)).response.field "error"
      = some (.leaf (.str (lit "Internal system error"))) ∧
    ErrorHandler.handle (lit "No models available") = ErrorHandler.SYSTEM_ERROR ∧
    (POST id freshServer helloRequest (sampleEnv 5 noModelBackend)).handlesTried = CONFIG.MODELS ∧
    (POST id freshServer helloRequest (sampleEnv 5 noModelBackend)).generations = [] := by
  decide

/-! ## Cache sweep -/

/-- C17, evaluated: an entry written at time 0 with the 10-minute TTL expires at
600000; after a `set` for another message at time 600000 the entry is still in
the cache, although `get` at that same time treats it as a miss. -/
theorem set_keeps_entry_expiring_now :
    mapGet
        ((SmartCache.set id (SmartCache.set id ⟨[], [], []⟩ 0 (lit "first") (lit "one")
            "general_consultation" none) 600000 (lit "second") (lit "two")
            "general_consultation" none).cache)
        (SmartCache.generateKey id (lit "first") none)
      = some { data := lit "one", expiry := some 600000, queryType := "general_consultation",
               created := 0 } ∧
    ((SmartCache.set id (SmartCache.set id ⟨[], [], []⟩ 0 (lit "first") (lit "one")
            "general_consultation" none) 600000 (lit "second") (lit "two")
            "general_consultation" none).get id 600000 (lit "first") none).1 = none := by
  decide

/-- What the sweep of `set` does: afterwards no entry has an expiry before
`now`, and an entry under another key is present afterwards exactly if it was
present before with an expiry that is not before `now`. -/
theorem set_sweep {α : Type} (hash : JSString → JSString) (s : SmartCache α) (now : Int)
    (m : JSString) (p : α) (c : String) (u : Option JSString) :
    (∀ kv ∈ (s.set hash now m p c u).cache, expiryBefore kv.2.expiry now = false) ∧
    (∀ kv, kv.1 ≠ SmartCache.generateKey hash m u →
      (kv ∈ (s.set hash now m p c u).cache ↔
        kv ∈ s.cache ∧ expiryBefore kv.2.expiry now = false)) := by
  have hmem : ∀ (l : List (JSString × CacheEntry α)) (k : JSString) (e : CacheEntry α)
      (kv : JSString × CacheEntry α), kv.1 ≠ k → (kv ∈ mapSet l k e ↔ kv ∈ l) := by
    intro l k e kv hne
    induction l with
    | nil =>
        simp only [mapSet, List.mem_singleton, List.not_mem_nil, iff_false]
        rintro rfl
        exact hne rfl
    | cons x xs ih =>
        obtain ⟨k', v'⟩ := x
        by_cases hk : k' = k
        · subst hk
          simp only [mapSet, if_true, List.mem_cons]
          constructor
          · rintro (h | h)
            · exact absurd (by rw [h]) hne
            · exact Or.inr h
          · rintro (h | h)
            · exact absurd (by rw [h]) hne
            · exact Or.inr h
        · simp only [mapSet, hk, if_false, List.mem_cons, ih]
  constructor
  · intro kv hkv
    simp only [SmartCache.set, SmartCache.cleanup, List.mem_filter, Bool.not_eq_true'] at hkv
    exact hkv.2
  · intro kv hne
    simp only [SmartCache.set, SmartCache.cleanup, List.mem_filter, Bool.not_eq_true',
      hmem _ _ _ kv hne]

/-! ## Sanitizer -/

theorem accepts_angle (x : Nat) :
    (Atom.anyOf [0x3C, 0x3E]).accepts false x = isAngleBracket x := by
  simp only [Atom.accepts, isAngleBracket, Bool.false_eq_true, if_false, List.contains_cons,
    List.contains_nil, Bool.or_false]
  by_cases h₁ : x = 0x3C <;> by_cases h₂ : x = 0x3E <;> simp [h₁, h₂]

theorem execFrom_angle (l : List Nat) :
    ∀ prev, (execFrom InputValidator.angleBrackets prev l = none ∧
        l.filter (fun c => !isAngleBracket c) = l) ∨
      ∃ skipped c cs start,
        execFrom InputValidator.angleBrackets prev l = some (skipped, start, ⟨some c, cs⟩) ∧
        start.rest = c :: cs ∧ l = skipped ++ c :: cs ∧
        skipped.filter (fun c => !isAngleBracket c) = skipped ∧ isAngleBracket c = true := by
  induction l with
  | nil =>
      intro prev
      left
      simp [execFrom, InputValidator.angleBrackets, Regex.run]
  | cons x xs ih =>
      intro prev
      by_cases hx : isAngleBracket x = true
      · right
        refine ⟨[], x, xs, ⟨prev, x :: xs⟩, ?_, rfl, rfl, rfl, hx⟩
        simp [execFrom, InputValidator.angleBrackets, Regex.run, accepts_angle, hx]
      · have hrun : (Regex.run InputValidator.angleBrackets.ignoreCase
            InputValidator.angleBrackets.body ⟨prev, x :: xs⟩).head? = none := by
          simp [InputValidator.angleBrackets, Regex.run, accepts_angle, hx]
        rcases ih (some x) with ⟨hnone, hfil⟩ | ⟨skipped, c, cs, start, hsome, hst, hl, hsk, hc⟩
        · left
          refine ⟨?_, ?_⟩
          · simp only [execFrom, hrun, hnone]
          · simp [List.filter_cons, hx, hfil]
        · right
          refine ⟨x :: skipped, c, cs, start, ?_, hst, by simp [hl], ?_, hc⟩
          · simp only [execFrom, hrun, hsome]
          · simp [List.filter_cons, hx, hsk]

theorem replaceLoop_angle (fuel : Nat) :
    ∀ (prev : Option Nat) (l : List Nat), l.length < fuel →
      replaceLoop InputValidator.angleBrackets [] fuel ⟨prev, l⟩
        = l.filter (fun c => !isAngleBracket c) := by
  induction fuel with
  | zero => intro prev l h; omega
  | succ fuel ih =>
      intro prev l hl
      rcases execFrom_angle l prev with ⟨hnone, hfil⟩ | ⟨skipped, c, cs, start, hsome, hst, hsplit, hsk, hc⟩
      · simp only [replaceLoop, hnone, hfil]
      · have hlen : cs.length < fuel := by
          have := congrArg List.length hsplit
          rw [List.length_append, List.length_cons] at this
          omega
        have hne : ¬ cs.length = start.rest.length := by
          rw [hst, List.length_cons]; omega
        simp only [replaceLoop, hsome, hne, if_false, List.append_nil, ih (some c) cs hlen]
        rw [hsplit, List.filter_append, List.filter_cons, hsk]
        simp [hc]

theorem replace_angle (s : JSString) :
    replace s InputValidator.angleBrackets [] = s.filter (fun c => !isAngleBracket c) :=
  replaceLoop_angle _ none s (Nat.lt_succ_self _)

/-- C18. Definition of `sanitize`: for every string `m`, `sanitize m` is `m`
with leading and trailing whitespace removed, then every `<` and `>` deleted,
then cut to its first 5000 code units; the result contains no angle bracket and
has at most `MAX_MESSAGE_LENGTH` code units. -/
theorem sanitize_eq (m : JSString) :
    InputValidator.sanitize m =
      (((m.dropWhile isWhiteSpace).reverse.dropWhile isWhiteSpace).reverse.filter
        (fun c => !isAngleBracket c)).take 5000 ∧
    (∀ c ∈ InputValidator.sanitize m, isAngleBracket c = false) ∧
    (InputValidator.sanitize m).length ≤ CONFIG.MAX_MESSAGE_LENGTH := by
  have h : InputValidator.sanitize m =
      (((m.dropWhile isWhiteSpace).reverse.dropWhile isWhiteSpace).reverse.filter
        (fun c => !isAngleBracket c)).take 5000 := by
    simp only [InputValidator.sanitize, replace_angle, substring, trim,
      CONFIG.MAX_MESSAGE_LENGTH]
  refine ⟨h, ?_, ?_⟩
  · intro c hmem
    rw [h] at hmem
    have := (List.mem_filter.mp (List.mem_of_mem_take hmem)).2
    simpa using this
  · rw [h, List.length_take]
    exact Nat.min_le_left _ _

/-! ## Error handler -/

theorem startsWith_iff (s t : JSString) : startsWith s t = true ↔ ∃ b, s = t ++ b := by
  induction t generalizing s with
  | nil => simp [startsWith]
  | cons p ps ih =>
      cases s with
      | nil => simp [startsWith]
      | cons c cs =>
          simp only [startsWith, Bool.and_eq_true, decide_eq_true_eq, ih, List.cons_append,
            List.cons.injEq]
          constructor
          · rintro ⟨rfl, b, rfl⟩; exact ⟨b, rfl, rfl⟩
          · rintro ⟨b, rfl, rfl⟩; exact ⟨rfl, b, rfl⟩

theorem includes_iff (s t : JSString) : includes s t = true ↔ ∃ a b, s = a ++ t ++ b := by
  induction s with
  | nil =>
      simp only [includes, startsWith_iff]
      constructor
      · rintro ⟨b, h⟩; exact ⟨[], b, by simpa using h⟩
      · rintro ⟨a, b, h⟩
        have h' := h.symm
        simp only [List.append_assoc, List.append_eq_nil] at h'
        obtain ⟨rfl, rfl, rfl⟩ := h'
        exact ⟨[], rfl⟩
  | cons c cs ih =>
      simp only [includes, Bool.or_eq_true, startsWith_iff, ih]
      constructor
      · rintro (⟨b, h⟩ | ⟨a, b, h⟩)
        · exact ⟨[], b, by simpa using h⟩
        · exact ⟨c :: a, b, by simp [h]⟩
      · rintro ⟨a, b, h⟩
        cases a with
        | nil => left; exact ⟨b, by simpa using h⟩
        | cons x xs =>
            right
            simp only [List.cons_append, List.cons.injEq] at h
            exact ⟨xs, b, by simpa using h.2⟩

theorem includes_lit (s : JSString) (w : String) : includes s (lit w) = true ↔ Contains s w :=
  includes_iff s (lit w)

/-- C19, as stated, fails: the message "404" contains none of the keywords
timeout, not found, invalid (in any letter case), and `handle` returns the
ModelUnavailable type (503), not InternalError. -/
theorem handle_404 :
    containsIgnoreCase (lit "404") "timeout" = false ∧
    containsIgnoreCase (lit "404") "not found" = false ∧
    containsIgnoreCase (lit "404") "invalid" = false ∧
    ErrorHandler.handle (lit "404") = ErrorHandler.MODEL_ERROR ∧
    (ErrorHandler.handle (lit "404")).httpStatus = 503 ∧
    ErrorHandler.handle (lit "404") ≠ ErrorHandler.SYSTEM_ERROR := by
  decide

/-- C19, amended. Classification by keyword, letter case respected: `handle`
returns the Timeout type (408) if the message contains "timeout" or is exactly
"Timeout"; otherwise the ModelUnavailable type (503) if it contains "404" or
"not found"; otherwise the ValidationError type (400) if it contains "Invalid";
and the InternalError type (500) in every other case. The result is always one
of these four types. -/
theorem handle_by_keyword (m : JSString) :
    ((Contains m "timeout" ∨ m = lit "Timeout") →
      ErrorHandler.handle m = ErrorHandler.TIMEOUT_ERROR) ∧
    (¬ (Contains m "timeout" ∨ m = lit "Timeout") →
      (Contains m "404" ∨ Contains m "not found") →
      ErrorHandler.handle m = ErrorHandler.MODEL_ERROR) ∧
    (¬ (Contains m "timeout" ∨ m = lit "Timeout") →
      ¬ (Contains m "404" ∨ Contains m "not found") → Contains m "Invalid" →
      ErrorHandler.handle m = ErrorHandler.VALIDATION_ERROR) ∧
    (¬ (Contains m "timeout" ∨ m = lit "Timeout") →
      ¬ (Contains m "404" ∨ Contains m "not found") → ¬ Contains m "Invalid" →
      ErrorHandler.handle m = ErrorHandler.SYSTEM_ERROR) ∧
    ErrorHandler.handle m ∈ [ErrorHandler.TIMEOUT_ERROR, ErrorHandler.MODEL_ERROR,
      ErrorHandler.VALIDATION_ERROR, ErrorHandler.SYSTEM_ERROR] ∧
    ErrorHandler.TIMEOUT_ERROR.httpStatus = 408 ∧ ErrorHandler.MODEL_ERROR.httpStatus = 503 ∧
    ErrorHandler.VALIDATION_ERROR.httpStatus = 400 ∧ ErrorHandler.SYSTEM_ERROR.httpStatus = 500 := by
  have h₁ : (includes m (lit "timeout") || decide (m = lit "Timeout")) = true ↔
      (Contains m "timeout" ∨ m = lit "Timeout") := by
    simp only [Bool.or_eq_true, includes_lit, decide_eq_true_eq]
  have h₂ : (includes m (lit "404") || includes m (lit "not found")) = true ↔
      (Contains m "404" ∨ Contains m "not found") := by
    simp only [Bool.or_eq_true, includes_lit]
  have h₃ : includes m (lit "Invalid") = true ↔ Contains m "Invalid" := includes_lit m _
  refine ⟨?_, ?_, ?_, ?_, ?_, rfl, rfl, rfl, rfl⟩
  · intro h
    rw [ErrorHandler.handle, if_pos (h₁.mpr h)]
  · intro hn h
    rw [ErrorHandler.handle, if_neg (fun x => hn (h₁.mp x)), if_pos (h₂.mpr h)]
  · intro hn hn' h
    rw [ErrorHandler.handle, if_neg (fun x => hn (h₁.mp x)), if_neg (fun x => hn' (h₂.mp x)),
      if_pos (h₃.mpr h)]
  · intro hn hn' hn''
    rw [ErrorHandler.handle, if_neg (fun x => hn (h₁.mp x)), if_neg (fun x => hn' (h₂.mp x)),
      if_neg (fun x => hn'' (h₃.mp x))]
  · unfold ErrorHandler.handle
    split_ifs <;> simp

theorem handle_by_keyword_witness :
    ErrorHandler.handle (lit "model not found") = ErrorHandler.MODEL_ERROR :=
  (handle_by_keyword (lit "model not found")).2.1
    (by
      rw [← includes_lit]
      decide)
    (Or.inr ⟨lit "model ", [], by decide⟩)

/-! ## Rate limit end to end -/

set_option maxRecDepth 100000 in
/-- C20, evaluated: `hello` is classified `general_consultation`, for which the
tier lookup gives the default caps 60 and 1000; of thirty-one anonymous `hello`
requests sent from one address within 30 s every one, the thirty-first
included, passes the rate check (its time stamp is recorded) and is answered
with status 200, none with 429. -/
theorem POST_thirty_first_hello :
    IntelligentAnalyzer.classifyQuery (InputValidator.sanitize (lit "hello"))
      = "general_consultation" ∧
    RateLimiter.getLimitsForQueryType "general_consultation"
      = { perMinute := some 60, perHour := some 1000 } ∧
    (serve id freshServer thirtyOneHellos).map (fun o => o.response.status)
      = List.replicate 31 200 ∧
    (serve id freshServer thirtyOneHellos).getLast?.map
        (fun o => (o.server.rateLimiter.history (lit "10.0.0.9")).length) = some 31 := by
  decide

/-! ## Tiers and TTLs reached through the classifier -/

theorem classifyQuery_mem (m : JSString) :
    IntelligentAnalyzer.classifyQuery m ∈
      ["invoice_analysis", "margin_optimization", "excel_formulas", "fifa_projections",
        "general_consultation"] := by
  rw [classifyQuery_chain]
  split_ifs <;> simp

/-- C27. Rate-limit tier reached from the classifier: for every string `m`,
`getLimitsForQueryType (classifyQuery m)` is `CONFIG.RATE_LIMITS`, that is 60
per minute and 1000 per hour; the category is never one of the keys
`simple_query`, `file_analysis`, `complex_analysis` of the tier table, so none
of the tiers 30/500, 10/100, 5/50 is selected. -/
theorem getLimits_classifyQuery (m : JSString) :
    RateLimiter.getLimitsForQueryType (IntelligentAnalyzer.classifyQuery m)
      = CONFIG.RATE_LIMITS ∧
    CONFIG.RATE_LIMITS = { perMinute := some 60, perHour := some 1000 } ∧
    IntelligentAnalyzer.classifyQuery m ∉ ["simple_query", "file_analysis", "complex_analysis"] ∧
    RateLimiter.getLimitsForQueryType "simple_query" = { perMinute := some 30, perHour := some 500 } ∧
    RateLimiter.getLimitsForQueryType "file_analysis" = { perMinute := some 10, perHour := some 100 } ∧
    RateLimiter.getLimitsForQueryType "complex_analysis" = { perMinute := some 5, perHour := some 50 } := by
  have h := classifyQuery_mem m
  simp only [List.mem_cons, List.mem_singleton, List.not_mem_nil, or_false] at h
  refine ⟨?_, rfl, ?_, by decide, by decide, by decide⟩
  · rcases h with h | h | h | h | h <;> rw [h] <;> decide
  · rcases h with h | h | h | h | h <;> rw [h] <;> decide

/-- C28. Cache TTL reached from the classifier: for every string `m` the TTL
looked up for the category `classifyQuery m` is 3600000 ms for
`excel_formulas`, 86400000 ms for `fifa_projections` and the 600000 ms default
for `invoice_analysis`, `margin_optimization` and `general_consultation`; the
category is never `margin_analysis`, so the 1800000 ms entry is not used; and
the entry `set` writes for that category at time `now` expires at `now` plus
that TTL. -/
theorem cacheTTL_by_category (m : JSString) :
    (IntelligentAnalyzer.classifyQuery m = "excel_formulas" ∧
        CONFIG.CACHE_TTL (IntelligentAnalyzer.classifyQuery m) = some 3600000 ∨
      IntelligentAnalyzer.classifyQuery m = "fifa_projections" ∧
        CONFIG.CACHE_TTL (IntelligentAnalyzer.classifyQuery m) = some 86400000 ∨
      (IntelligentAnalyzer.classifyQuery m = "invoice_analysis" ∨
        IntelligentAnalyzer.classifyQuery m = "margin_optimization" ∨
        IntelligentAnalyzer.classifyQuery m = "general_consultation") ∧
        CONFIG.CACHE_TTL (IntelligentAnalyzer.classifyQuery m) = some 600000) ∧
    IntelligentAnalyzer.classifyQuery m ≠ "margin_analysis" ∧
    CONFIG.CACHE_TTL "margin_analysis" = some 1800000 ∧
    (∀ (hash : JSString → JSString) (s : SmartCache JSString) (now : Int) (text : JSString)
        (u : Option JSString),
      ∃ ttl entry, CONFIG.CACHE_TTL (IntelligentAnalyzer.classifyQuery m) = some ttl ∧
        mapGet (s.set hash now m text (IntelligentAnalyzer.classifyQuery m) u).cache
          (SmartCache.generateKey hash m u) = some entry ∧
        entry.expiry = some (now + (ttl : Int))) := by
  have h := classifyQuery_mem m
  simp only [List.mem_cons, List.mem_singleton, List.not_mem_nil, or_false] at h
  refine ⟨?_, ?_, by decide, ?_⟩
  · rcases h with h | h | h | h | h
    · exact Or.inr (Or.inr ⟨Or.inl h, by rw [h]; decide⟩)
    · exact Or.inr (Or.inr ⟨Or.inr (Or.inl h), by rw [h]; decide⟩)
    · exact Or.inl ⟨h, by rw [h]; decide⟩
    · exact Or.inr (Or.inl ⟨h, by rw [h]; decide⟩)
    · exact Or.inr (Or.inr ⟨Or.inr (Or.inr h), by rw [h]; decide⟩)
  · rcases h with h | h | h | h | h <;> rw [h] <;> decide
  · intro hash s now text u
    obtain ⟨ttl, httl⟩ := cacheTTL_classifyQuery m
    exact ⟨ttl, _, httl, set_lookup hash s now m text _ u ttl httl, rfl⟩

/-! ## Rate limiter: burst bound -/

theorem runCalls_append (a b : List Call) :
    ∀ s : RateLimiter, runCalls s (a ++ b) = runCalls (runCalls s a) b := by
  induction a with
  | nil => intro s; rfl
  | cons c cs ih =>
      intro s
      rw [List.cons_append, runCalls, runCalls, ih]

theorem allowedTimes_append (key : JSString) (a b : List Call) :
    ∀ s : RateLimiter, allowedTimes key s (a ++ b)
      = allowedTimes key s a ++ allowedTimes key (runCalls s a) b := by
  induction a with
  | nil => intro s; rfl
  | cons c cs ih =>
      intro s
      rw [List.cons_append, allowedTimes, allowedTimes, runCalls, ih]
      split <;> simp

theorem countAfter_mono (θ θ' : Int) (l : List Int) (h : θ' ≤ θ) :
    countAfter θ l ≤ countAfter θ' l := by
  rw [← countAfter_filter θ θ' l h]
  exact List.length_filter_le _ _

theorem allowedTimes_blacklisted (key : JSString) (calls : List Call) :
    ∀ s : RateLimiter, key ∈ s.blacklist → allowedTimes key s calls = [] := by
  induction calls with
  | nil => intro s _; rfl
  | cons c cs ih =>
      intro s hb
      have hb' : key ∈ (s.isAllowed c.now c.ip c.userId c.queryType).2.blacklist := by
        rw [isAllowed_blacklist]; exact hb
      simp only [allowedTimes, ih _ hb']
      by_cases hk : RateLimiter.getKey c.ip c.userId = key
      · have : (s.isAllowed c.now c.ip c.userId c.queryType).1.allowed = false := by
          simp [RateLimiter.isAllowed, hk, hb]
        simp [this]
      · simp [hk]

theorem allowed_call_room (key : JSString) (s : RateLimiter) (pre : List Call) (c : Call)
    (N : Nat) (hk : RateLimiter.getKey c.ip c.userId = key)
    (hN : (RateLimiter.getLimitsForQueryType c.queryType).perMinute = some N)
    (hclock : ∀ c' ∈ pre, c'.now ≤ c.now)
    (ha : ((runCalls s pre).isAllowed c.now c.ip c.userId c.queryType).1.allowed = true) :
    countAfter (c.now - 60000) (allowedTimes key s pre) < N := by
  by_cases hb : key ∈ s.blacklist
  · have hb' : RateLimiter.getKey c.ip c.userId ∈ (runCalls s pre).blacklist := by
      rw [runCalls_blacklist, hk]; exact hb
    simp [RateLimiter.isAllowed, hb'] at ha
  · have hb' : RateLimiter.getKey c.ip c.userId ∉ (runCalls s pre).blacklist := by
      rw [runCalls_blacklist, hk]; exact hb
    have hres := isAllowed_result (runCalls s pre) c.now c.ip c.userId c.queryType hb'
    rw [hN, hk] at hres
    have hlt : minuteCount (runCalls s pre) key c.now < N := by
      by_contra hge
      have hr : reaches (minuteCount (runCalls s pre) key c.now) (some N) = true := by
        simp only [reaches, decide_eq_true_eq]; omega
      rw [hres, if_pos hr] at ha
      simp at ha
    have hge := runCalls_count_ge key (c.now - 60000) pre s hb
      (fun c' hc' => by have := hclock c' hc'; omega)
    have : minuteCount (runCalls s pre) key c.now
        = countAfter (c.now - 60000) ((runCalls s pre).history key) := rfl
    omega

theorem allowed_window (key : JSString) (s : RateLimiter) (N : Nat) (calls : List Call) :
    calls.Pairwise (fun a b => a.now ≤ b.now) →
    (∀ c ∈ calls, RateLimiter.getKey c.ip c.userId = key →
      (RateLimiter.getLimitsForQueryType c.queryType).perMinute = some N) →
    ∀ ts, List.Sublist ts (allowedTimes key s calls) →
      (∀ a ∈ ts, ∀ b ∈ ts, a - b < 60000) → ts.length ≤ N := by
  induction calls using List.reverseRecOn with
  | nil =>
      intro _ _ ts hts _
      simp only [allowedTimes, List.sublist_nil] at hts
      simp [hts]
  | append_singleton pre c ih =>
      intro hsorted hcat ts hts hwin
      rw [List.pairwise_append] at hsorted
      obtain ⟨hpre, -, hlast⟩ := hsorted
      have hclock : ∀ c' ∈ pre, c'.now ≤ c.now := fun c' hc' =>
        hlast c' hc' c (List.mem_singleton_self c)
      have hcat' : ∀ c' ∈ pre, RateLimiter.getKey c'.ip c'.userId = key →
          (RateLimiter.getLimitsForQueryType c'.queryType).perMinute = some N :=
        fun c' hc' => hcat c' (List.mem_append_left _ hc')
      rw [allowedTimes_append] at hts
      obtain ⟨ts₁, ts₂, rfl, h₁, h₂⟩ := List.sublist_append_iff.mp hts
      by_cases hlastAllowed :
          (((runCalls s pre).isAllowed c.now c.ip c.userId c.queryType).1.allowed &&
            decide (RateLimiter.getKey c.ip c.userId = key)) = true
      · simp only [allowedTimes, hlastAllowed, if_true] at h₂
        cases ts₂ with
        | nil =>
            rw [List.append_nil] at hwin ⊢
            exact ih hpre hcat' ts₁ h₁ hwin
        | cons x xs =>
            have hx : x = c.now ∧ xs = [] := by
              have := h₂.length_le
              have hxs : xs = [] := by
                cases xs with
                | nil => rfl
                | cons y ys => simp at this
              subst hxs
              exact ⟨by simpa using h₂, rfl⟩
            obtain ⟨rfl, rfl⟩ := hx
            simp only [Bool.and_eq_true, decide_eq_true_eq] at hlastAllowed
            obtain ⟨ha, hk⟩ := hlastAllowed
            have hN := hcat c (List.mem_append_right _ (List.mem_singleton_self c)) hk
            have hroom := allowed_call_room key s pre c N hk hN hclock ha
            have hall : ∀ b ∈ ts₁, decide (b > c.now - 60000) = true := by
              intro b hb
              have := hwin c.now (by simp) b (by simp [hb])
              simp only [decide_eq_true_eq]; omega
            have hsub : List.Sublist ts₁
                ((allowedTimes key s pre).filter (fun t => decide (t > c.now - 60000))) := by
              have := h₁.filter (fun t => decide (t > c.now - 60000))
              rwa [List.filter_eq_self.mpr hall] at this
            have hlen := hsub.length_le
            have : countAfter (c.now - 60000) (allowedTimes key s pre)
                = ((allowedTimes key s pre).filter (fun t => decide (t > c.now - 60000))).length :=
              rfl
            simp only [List.length_append, List.length_singleton]
            omega
      · simp only [allowedTimes, hlastAllowed, if_false, Bool.false_eq_true] at h₂
        have : ts₂ = [] := by simpa using h₂
        subst this
        rw [List.append_nil] at hwin ⊢
        exact ih hpre hcat' ts₁ h₁ hwin

theorem stored_window (key : JSString) (N : Nat) (calls : List Call) :
    ∀ (s : RateLimiter) (t₀ : Int),
      (∀ t, t₀ ≤ t → countAfter (t - 60000) (s.history key) ≤ N) →
      (∀ c ∈ calls, t₀ ≤ c.now) →
      calls.Pairwise (fun a b => a.now ≤ b.now) →
      (∀ c ∈ calls, RateLimiter.getKey c.ip c.userId = key →
        (RateLimiter.getLimitsForQueryType c.queryType).perMinute = some N) →
      ∀ pre c post, calls = pre ++ c :: post →
        minuteCount (runCalls s (pre ++ [c])) key c.now ≤ N := by
  induction calls with
  | nil =>
      intro s t₀ _ _ _ _ pre c post h
      simp at h
  | cons c₀ rest ih =>
      intro s t₀ hinv hlow hsorted hcat pre c post hsplit
      rw [List.pairwise_cons] at hsorted
      obtain ⟨hfirst, hrest⟩ := hsorted
      have ht₀ : t₀ ≤ c₀.now := hlow c₀ (List.mem_cons_self _ _)
      have hinv' : ∀ t, c₀.now ≤ t → countAfter (t - 60000)
          ((s.isAllowed c₀.now c₀.ip c₀.userId c₀.queryType).2.history key) ≤ N := by
        intro t ht
        by_cases hk : RateLimiter.getKey c₀.ip c₀.userId = key
        · by_cases hb : RateLimiter.getKey c₀.ip c₀.userId ∈ s.blacklist
          · have : (s.isAllowed c₀.now c₀.ip c₀.userId c₀.queryType).2 = s := by
              simp [RateLimiter.isAllowed, hb]
            rw [this]
            exact hinv t (le_trans ht₀ ht)
          · have hN := hcat c₀ (List.mem_cons_self _ _) hk
            have hself := isAllowed_history_self s c₀.now c₀.ip c₀.userId c₀.queryType hb
            have hres := isAllowed_result s c₀.now c₀.ip c₀.userId c₀.queryType hb
            rw [hk] at hself hres
            rw [hN] at hres
            have hfil : countAfter (t - 60000)
                ((s.history key).filter (fun x => decide (x > c₀.now - 3600000)))
                ≤ countAfter (t - 60000) (s.history key) := by
              unfold countAfter
              exact ((List.filter_sublist _).filter _).length_le
            rw [hself]
            by_cases ha : (s.isAllowed c₀.now c₀.ip c₀.userId c₀.queryType).1.allowed = true
            · rw [if_pos ha, countAfter_append]
              have hlt : minuteCount s key c₀.now < N := by
                by_contra hge
                have hr : reaches (minuteCount s key c₀.now) (some N) = true := by
                  simp only [reaches, decide_eq_true_eq]; omega
                rw [hres, if_pos hr] at ha
                simp at ha
              have hmono := countAfter_mono (t - 60000) (c₀.now - 60000) (s.history key)
                (by omega)
              have hone : countAfter (t - 60000) [c₀.now] ≤ 1 := by
                unfold countAfter
                exact le_trans (List.length_filter_le _ _) (by simp)
              have hmc : minuteCount s key c₀.now
                  = countAfter (c₀.now - 60000) (s.history key) := rfl
              omega
            · rw [if_neg ha]
              exact le_trans hfil (hinv t (le_trans ht₀ ht))
        · have hk' : key ≠ RateLimiter.getKey c₀.ip c₀.userId := fun h => hk h.symm
          rw [isAllowed_history_other s c₀.now c₀.ip c₀.userId c₀.queryType key hk']
          exact hinv t (le_trans ht₀ ht)
      cases pre with
      | nil =>
          simp only [List.nil_append, List.cons.injEq] at hsplit
          obtain ⟨rfl, -⟩ := hsplit
          simp only [List.nil_append, runCalls]
          exact hinv' c₀.now (le_refl _)
      | cons p ps =>
          simp only [List.cons_append, List.cons.injEq] at hsplit
          obtain ⟨rfl, hrest'⟩ := hsplit
          simp only [List.cons_append, runCalls]
          exact ih _ c₀.now hinv' (fun c' hc' => hfirst c' hc') hrest
            (fun c' hc' => hcat c' (List.mem_cons_of_mem _ hc')) ps c post hrest'

/-- C26. Burst bound: take any sequence of `isAllowed` calls made at
non-decreasing clock readings in which every call for the key `key` is of a
category whose per-minute cap is `N` (calls for other keys may be interleaved).
Then any selection of the allowed calls for the key whose clock readings
pairwise differ by less than `60000` ms has at most `N` members; and, when no
timestamp is stored for the key at the start, after every call of the sequence
the stored timestamps of the key within the trailing minute of that call number
at most `N`. -/
theorem isAllowed_burst_bound (key : JSString) (s : RateLimiter) (N : Nat) (calls : List Call)
    (hfresh : s.history key = [])
    (hclock : calls.Pairwise (fun a b => a.now ≤ b.now))
    (hcat : ∀ c ∈ calls, RateLimiter.getKey c.ip c.userId = key →
      (RateLimiter.getLimitsForQueryType c.queryType).perMinute = some N) :
    (∀ ts, List.Sublist ts (allowedTimes key s calls) →
      (∀ a ∈ ts, ∀ b ∈ ts, a - b < 60000) → ts.length ≤ N) ∧
    (∀ pre c post, calls = pre ++ c :: post →
      minuteCount (runCalls s (pre ++ [c])) key c.now ≤ N) := by
  refine ⟨allowed_window key s N calls hclock hcat, ?_⟩
  intro pre c post hsplit
  cases calls with
  | nil => simp at hsplit
  | cons c₀ rest =>
      have hlow : ∀ c' ∈ c₀ :: rest, c₀.now ≤ c'.now := by
        intro c' hc'
        rcases List.mem_cons.mp hc' with rfl | hmem
        · exact le_refl _
        · exact (List.pairwise_cons.mp hclock).1 c' hmem
      refine stored_window key N (c₀ :: rest) s c₀.now ?_ hlow hclock hcat pre c post hsplit
      intro t _
      rw [hfresh]
      simp [countAfter]

theorem isAllowed_burst_bound_witness :
    (allowedTimes (lit "10.0.0.2") ⟨[], []⟩ rolloverCalls).length ≤ 5 ∧
    minuteCount (runCalls ⟨[], []⟩ rolloverCalls) (lit "10.0.0.2") 59000 ≤ 5 :=
  have h := isAllowed_burst_bound (lit "10.0.0.2") ⟨[], []⟩ 5 rolloverCalls
    (by decide) (by decide) (by decide)
  ⟨h.1 _ (List.Sublist.refl _) (by decide),
   h.2 [⟨0, lit "10.0.0.2", none, "complex_analysis"⟩,
        ⟨10, lit "10.0.0.2", none, "complex_analysis"⟩,
        ⟨20, lit "10.0.0.2", none, "complex_analysis"⟩,
        ⟨30, lit "10.0.0.2", none, "complex_analysis"⟩,
        ⟨40, lit "10.0.0.2", none, "complex_analysis"⟩,
        ⟨50, lit "10.0.0.2", none, "complex_analysis"⟩]
      ⟨59000, lit "10.0.0.2", none, "complex_analysis"⟩ [] rfl⟩

/-! ## The `POST` handler: cache table and shape of the success response -/

theorem front_cache (hash : JSString → JSString) (server : Server) (req : Request) (env : Env) :
    (POST.front hash server req env).2.cache.cache = server.cache.cache := by
  unfold POST.front
  simp only []
  repeat' split
  all_goals first | rfl | exact get_cache _ _ _ _ _

theorem handle_status (message : JSString) :
    (ErrorHandler.handle message).httpStatus ≠ 200 := by
  unfold ErrorHandler.handle
  split_ifs <;> decide

theorem front_respond (hash : JSString → JSString) (server server' : Server) (req : Request)
    (env : Env) (r : Response) (h : POST.front hash server req env = (.respond r, server'))
    (hr : r.status = 200) :
    ∃ text, text ≠ [] ∧
      r.body =
        [("response", .leaf (.str text)), ("cached", .leaf (.bool true)),
         ("requestId", .leaf (.str env.requestId)),
         ("timestamp", .leaf (.isoTime env.clock.respond)),
         ("processingTime", .leaf (.num (env.clock.finish - env.clock.start)))] := by
  unfold POST.front at h
  simp only [] at h
  repeat' split at h
  all_goals
    simp only [Prod.mk.injEq, Front.respond.injEq, reduceCtorEq, false_and] at h
  all_goals
    obtain ⟨rfl, -⟩ := h
    first
    | exact ⟨_, List.cons_ne_nil _ _, rfl⟩
    | simp at hr

theorem back_cases (hash : JSString → JSString) (server : Server) (env : Env) (job : Job) :
    ((POST.back hash server env job).response.status ≠ 200 ∧
      (POST.back hash server env job).server = server) ∨
    ∃ model s, env.backend.clientError = none ∧
      (POST.tryModels env.backend.handleError CONFIG.MODELS).1 = some model ∧
      env.backend.generate model (POST.fullPrompt job.queryType job.message)
        (POST.timeout job.complexity) = .text s ∧
      (POST.back hash server env job) =
        { response := ⟨200, SECURITY_HEADERS,
            [("response", .leaf (.str (POST.truncate s))),
             ("metadata", .obj
               [("requestId", .str env.requestId), ("model", .str (lit model)),
                ("queryType", .str (lit job.queryType)),
                ("processingTime", .num (env.clock.finish - env.clock.start)),
                ("timestamp", .isoTime env.clock.respond)])]⟩,
          server := { server with
            cache := server.cache.set hash env.clock.cacheSet job.message (POST.truncate s)
              job.queryType job.userId },
          handlesTried := (POST.tryModels env.backend.handleError CONFIG.MODELS).2,
          generations := [(model, POST.fullPrompt job.queryType job.message,
            POST.timeout job.complexity)] } := by
  unfold POST.back
  simp only []
  split
  · exact Or.inl ⟨handle_status _, rfl⟩
  · split
    · exact Or.inl ⟨handle_status _, rfl⟩
    · rename_i model hmodel
      split
      · exact Or.inl ⟨handle_status _, rfl⟩
      · exact Or.inl ⟨handle_status _, rfl⟩
      · exact Or.inl ⟨by simp, rfl⟩
      · rename_i s hs
        exact Or.inr ⟨model, s, by assumption, hmodel, hs, rfl⟩

/-- C24. Cache write only after a successful generation: a run of `POST` that
ends with a status other than 200 (every error response), and a run answered
from the cache (`cached: true`), leave the entry table of the cache as it was;
and when a run changes the entry table, the request went past the cache check
without a usable entry, exactly one generation call was made, it returned a
text, the status is 200 and the table is the one `cache.set` produces for the
sanitized message, the kept text, the category and the `userId`. -/
theorem POST_cache_write (hash : JSString → JSString) (server : Server) (req : Request)
    (env : Env) :
    (((POST hash server req env).response.status ≠ 200 ∨
        (POST hash server req env).response.field "cached" = some (.leaf (.bool true))) →
      (POST hash server req env).server.cache.cache = server.cache.cache) ∧
    ((POST hash server req env).server.cache.cache ≠ server.cache.cache →
      ∃ job server' model s,
        POST.front hash server req env = (.proceed job, server') ∧
        env.backend.generate model (POST.fullPrompt job.queryType job.message)
          (POST.timeout job.complexity) = .text s ∧
        (POST hash server req env).generations =
          [(model, POST.fullPrompt job.queryType job.message, POST.timeout job.complexity)] ∧
        (POST hash server req env).response.status = 200 ∧
        (POST hash server req env).server.cache =
          server'.cache.set hash env.clock.cacheSet job.message (POST.truncate s) job.queryType
            job.userId) := by
  have hfront := front_cache hash server req env
  unfold POST
  cases h : POST.front hash server req env with
  | mk f server' =>
    rw [h] at hfront
    cases f with
    | respond r =>
        simp only []
        exact ⟨fun _ => hfront, fun hne => absurd hfront hne⟩
    | proceed job =>
        simp only []
        rcases back_cases hash server' env job with ⟨hne, hsrv⟩ | ⟨model, s, -, -, hs, hback⟩
        · rw [hsrv]
          exact ⟨fun _ => hfront, fun hne => absurd hfront hne⟩
        · rw [hback]
          refine ⟨?_, fun _ => ⟨job, server', model, s, rfl, hs, rfl, rfl, rfl⟩⟩
          rintro (hne | hc)
          · exact absurd rfl hne
          · simp [Response.field, mapGet] at hc

set_option maxRecDepth 20000 in
theorem POST_cache_write_witness :
    (POST id freshServer helloRequest (sampleEnv 5 (steadyBackend .timedOut))).response.status
      = 408 ∧
    (POST id freshServer helloRequest (sampleEnv 5 (steadyBackend .timedOut))).server.cache.cache
      = freshServer.cache.cache :=
  ⟨by decide,
   (POST_cache_write id freshServer helloRequest (sampleEnv 5 (steadyBackend .timedOut))).1
     (Or.inl (by decide))⟩

set_option maxRecDepth 100000 in
/-- C22, evaluated: the 200 response of a request answered by a generation call
(no cached entry) has, at top level, neither `cached` nor `requestId` nor
`timestamp` nor `processingTime`; these values sit inside `metadata`. The same
request sent again one second later is answered from the cache with `cached`,
`requestId`, `timestamp` and `processingTime` at top level, and the error
response of a timed-out generation has `requestId` and `timestamp` at top
level too. -/
theorem POST_success_miss_fields :
    (POST id freshServer helloRequest
      (sampleEnv 5 (steadyBackend (.text (lit "Hi!"))))).response.status = 200 ∧
    (POST id freshServer helloRequest
      (sampleEnv 5 (steadyBackend (.text (lit "Hi!"))))).generations.length = 1 ∧
    (POST id freshServer helloRequest
      (sampleEnv 5 (steadyBackend (.text (lit "Hi!"))))).response.field "cached" = none ∧
    (POST id freshServer helloRequest
      (sampleEnv 5 (steadyBackend (.text (lit "Hi!"))))).response.field "requestId" = none ∧
    (POST id freshServer helloRequest
      (sampleEnv 5 (steadyBackend (.text (lit "Hi!"))))).response.field "timestamp" = none ∧
    (POST id freshServer helloRequest
      (sampleEnv 5 (steadyBackend (.text (lit "Hi!"))))).response.field "processingTime"
        = none ∧
    (POST id freshServer helloRequest
      (sampleEnv 5 (steadyBackend (.text (lit "Hi!"))))).response.body =
        [("response", .leaf (.str (lit "Hi!"))),
         ("metadata", .obj
           [("requestId", .str (lit "request-1")), ("model", .str (lit "gemini-1.5-flash-latest")),
            ("queryType", .str (lit "general_consultation")),
            ("processingTime", .num 0), ("timestamp", .isoTime 5)])] ∧
    (serve id freshServer twoHellos).map
        (fun o => (o.response.status, o.generations.length, o.response.field "cached"))
      = [(200, 1, none), (200, 0, some (.leaf (.bool true)))] ∧
    (serve id freshServer twoHellos).map
        (fun o => (o.response.field "requestId", o.response.field "timestamp",
          o.response.field "processingTime"))
      = [(none, none, none),
         (some (.leaf (.str (lit "request-1"))), some (.leaf (.isoTime 1000)),
           some (.leaf (.num 0)))] ∧
    (POST id freshServer helloRequest (sampleEnv 5 (steadyBackend .timedOut))).response.body =
      [("error", .leaf (.str (lit "Request timeout"))),
       ("requestId", .leaf (.str (lit "request-1"))), ("timestamp", .leaf (.isoTime 5))] := by
  decide

/-- The two shapes of a success response: every response of `POST` with status
200 has one of two shapes. Answered from the cache (no generation call): the body is `response`
(a non-empty text), `cached: true`, `requestId`, `timestamp`, `processingTime`,
all at top level. Answered by a generation call: the body is `response` and a
`metadata` object holding `requestId`, `model`, `queryType`, `processingTime`
and `timestamp`; it has no top-level `cached`, `requestId`, `timestamp` or
`processingTime`. -/
theorem POST_success_shape (hash : JSString → JSString) (server : Server) (req : Request)
    (env : Env) (h200 : (POST hash server req env).response.status = 200) :
    (∃ text, text ≠ [] ∧ (POST hash server req env).generations = [] ∧
      (POST hash server req env).response.body =
        [("response", .leaf (.str text)), ("cached", .leaf (.bool true)),
         ("requestId", .leaf (.str env.requestId)),
         ("timestamp", .leaf (.isoTime env.clock.respond)),
         ("processingTime", .leaf (.num (env.clock.finish - env.clock.start)))]) ∨
    (∃ text model queryType, (POST hash server req env).generations.length = 1 ∧
      (POST hash server req env).response.body =
        [("response", .leaf (.str text)),
         ("metadata", .obj
           [("requestId", .str env.requestId), ("model", .str (lit model)),
            ("queryType", .str (lit queryType)),
            ("processingTime", .num (env.clock.finish - env.clock.start)),
            ("timestamp", .isoTime env.clock.respond)])] ∧
      (POST hash server req env).response.field "cached" = none ∧
      (POST hash server req env).response.field "requestId" = none ∧
      (POST hash server req env).response.field "timestamp" = none ∧
      (POST hash server req env).response.field "processingTime" = none) := by
  unfold POST at h200 ⊢
  cases h : POST.front hash server req env with
  | mk f server' =>
    rw [h] at h200
    cases f with
    | respond r =>
        simp only [] at h200 ⊢
        obtain ⟨text, htext, hbody⟩ := front_respond hash server server' req env r h h200
        exact Or.inl ⟨text, htext, trivial, hbody⟩
    | proceed job =>
        simp only [] at h200 ⊢
        rcases back_cases hash server' env job with ⟨hne, -⟩ | ⟨model, s, -, -, -, hback⟩
        · exact absurd h200 hne
        · rw [hback]
          exact Or.inr ⟨POST.truncate s, model, job.queryType, rfl, rfl, rfl, rfl, rfl, rfl⟩

set_option maxRecDepth 20000 in
theorem POST_success_shape_witness :
    (POST id freshServer helloRequest
      (sampleEnv 5 (steadyBackend (.text (lit "Hi!"))))).response.body =
        [("response", .leaf (.str (lit "Hi!"))),
         ("metadata", .obj
           [("requestId", .str (lit "request-1")), ("model", .str (lit "gemini-1.5-flash-latest")),
            ("queryType", .str (lit "general_consultation")),
            ("processingTime", .num 0), ("timestamp", .isoTime 5)])] :=
  (POST_success_shape id freshServer helloRequest
    (sampleEnv 5 (steadyBackend (.text (lit "Hi!")))) (by decide)).elim
    (fun _ => by decide) (fun _ => by decide)

/-! ## Cache hit end to end -/

set_option maxRecDepth 100000 in
/-- C21, evaluated: the model answers `hello` with the empty text. The first
request succeeds through one generation call, is answered with status 200 and
the empty `response`, and the empty text is stored in the cache with expiry
600000. One second later the same request finds that entry (`cache.get`
returns the stored empty text and counts a hit), but the handler takes the
empty text for a miss: it makes a generation call again and answers with the
newly generated text and no `cached` field. -/
theorem POST_empty_text_regenerated :
    (serve id freshServer emptyThenText).map
        (fun o => (o.response.status, o.generations.length, o.response.field "response",
          o.response.field "cached"))
      = [(200, 1, some (.leaf (.str [])), none),
         (200, 1, some (.leaf (.str (lit "Hi!"))), none)] ∧
    (serve id freshServer emptyThenText).head?.map
        (fun o => (mapGet o.server.cache.cache (SmartCache.generateKey id (lit "hello") none)).map
          (fun e => (e.data, e.expiry)))
      = some (some ([], some 600000)) ∧
    (serve id freshServer emptyThenText).head?.map
        (fun o => (o.server.cache.get id 1000 (lit "hello") none).1) = some (some []) ∧
    (serve id freshServer emptyThenText).getLast?.map (fun o => o.server.cache.hits)
      = some [(SmartCache.generateKey id (lit "hello") none, 1)] := by
  decide

theorem front_validated (hash : JSString → JSString) (server server' : Server) (req : Request)
    (env : Env) (job : Job) (h : POST.front hash server req env = (.proceed job, server')) :
    ∃ raw userId v, req.body = some (.props (.string raw) userId) ∧
      InputValidator.validate (.props (.string raw) userId) = some v ∧ v.valid = true ∧
      job.message = InputValidator.sanitize raw ∧
      job.queryType = IntelligentAnalyzer.classifyQuery (InputValidator.sanitize raw) ∧
      job.userId = POST.userId userId req.userIdText ∧
      server'.cache = (server.cache.get hash env.clock.cacheGet job.message job.userId).2 := by
  unfold POST.front at h
  cases hb : req.body with
  | none => simp [hb] at h
  | some body =>
      simp only [hb] at h
      cases hv : InputValidator.validate body with
      | none => simp [hv] at h
      | some validation =>
          simp only [hv] at h
          by_cases hvalid : validation.valid = true
          · simp only [hvalid, Bool.not_true, Bool.false_eq_true, if_false] at h
            cases hm : POST.message body with
            | none => simp [hm] at h
            | some raw =>
                simp only [hm] at h
                have hbody : ∃ userId, body = .props (.string raw) userId := by
                  cases body with
                  | null => simp [POST.message] at hm
                  | props message userId =>
                      cases message <;> simp [POST.message] at hm
                      subst hm
                      exact ⟨userId, rfl⟩
                obtain ⟨userId, rfl⟩ := hbody
                refine ⟨raw, userId, validation, rfl, hv, hvalid, ?_⟩
                split at h
                · simp at h
                · split at h
                  · simp at h
                  · split at h
                    · split at h
                      · simp only [Prod.mk.injEq, Front.proceed.injEq] at h
                        obtain ⟨rfl, rfl⟩ := h
                        exact ⟨rfl, rfl, rfl, rfl⟩
                      · simp at h
                    · simp at h
          · simp [hvalid] at h

theorem front_denied (hash : JSString → JSString) (server : Server) (req : Request) (env : Env)
    (raw : JSString) (userId : JSValue) (v : ValidationResult)
    (hbody : req.body = some (.props (.string raw) userId))
    (hv : InputValidator.validate (.props (.string raw) userId) = some v) (hvalid : v.valid = true)
    (hdenied : (server.rateLimiter.isAllowed env.clock.rate (POST.ip req)
      (POST.userId userId req.userIdText)
      (IntelligentAnalyzer.classifyQuery (InputValidator.sanitize raw))).1.allowed = false) :
    (POST hash server req env).response.status = 429 := by
  unfold POST POST.front
  simp [hbody, hv, hvalid, POST.message, POST.bodyUserId, hdenied]

theorem front_hit (hash : JSString → JSString) (server : Server) (req : Request) (env : Env)
    (raw : JSString) (userId : JSValue) (v : ValidationResult) (text : JSString)
    (hbody : req.body = some (.props (.string raw) userId))
    (hv : InputValidator.validate (.props (.string raw) userId) = some v) (hvalid : v.valid = true)
    (hallowed : (server.rateLimiter.isAllowed env.clock.rate (POST.ip req)
      (POST.userId userId req.userIdText)
      (IntelligentAnalyzer.classifyQuery (InputValidator.sanitize raw))).1.allowed = true)
    (hget : (server.cache.get hash env.clock.cacheGet (InputValidator.sanitize raw)
      (POST.userId userId req.userIdText)).1 = some text)
    (hne : text ≠ []) :
    (POST hash server req env).generations = [] ∧
    (POST hash server req env).response.status = 200 ∧
    (POST hash server req env).response.field "cached" = some (.leaf (.bool true)) ∧
    (POST hash server req env).response.field "response" = some (.leaf (.str text)) := by
  cases text with
  | nil => exact absurd rfl hne
  | cons c cs =>
      unfold POST POST.front
      simp [hbody, hv, hvalid, POST.message, POST.bodyUserId, hallowed, hget, Response.field,
        mapGet]

/-- Cache hit for a non-empty text: when a request is answered with
status 200 through a generation call and the kept text is not empty, a request
with the same body (and the same text of `userId`) that is served next, passes
the rate check and reads the cache before the entry's expiry is answered
without a generation call, with `cached: true` and the same `response` text. -/
theorem POST_cache_hit_nonempty (hash : JSString → JSString) (server : Server)
    (req req₂ : Request) (env₁ env₂ : Env) (text : JSString)
    (hbody : req₂.body = req.body) (huid : req₂.userIdText = req.userIdText)
    (hgen : (POST hash server req env₁).generations ≠ [])
    (htext : (POST hash server req env₁).response.field "response" = some (.leaf (.str text)))
    (h200 : (POST hash server req env₁).response.status = 200)
    (hne : text ≠ [])
    (hrate : (POST hash (POST hash server req env₁).server req₂ env₂).response.status ≠ 429)
    (hfresh : ∀ raw userId ttl, req.body = some (.props (.string raw) userId) →
      CONFIG.CACHE_TTL (IntelligentAnalyzer.classifyQuery (InputValidator.sanitize raw))
        = some ttl →
      env₂.clock.cacheGet < env₁.clock.cacheSet + (ttl : Int)) :
    (POST hash (POST hash server req env₁).server req₂ env₂).generations = [] ∧
    (POST hash (POST hash server req env₁).server req₂ env₂).response.status = 200 ∧
    (POST hash (POST hash server req env₁).server req₂ env₂).response.field "cached"
      = some (.leaf (.bool true)) ∧
    (POST hash (POST hash server req env₁).server req₂ env₂).response.field "response"
      = some (.leaf (.str text)) := by
  have hpost : ∃ job server', POST.front hash server req env₁ = (.proceed job, server') ∧
      POST hash server req env₁ = POST.back hash server' env₁ job := by
    cases h : POST.front hash server req env₁ with
    | mk f server' =>
      cases f with
      | respond r => exact absurd (by simp [POST, h]) hgen
      | proceed job => exact ⟨job, server', rfl, by simp [POST, h]⟩
  obtain ⟨job, server', hfront, hrun⟩ := hpost
  obtain ⟨raw, userId, v, hb, hv, hvalid, hmsg, hq, hu, -⟩ :=
    front_validated hash server server' req env₁ job hfront
  obtain ⟨ttl, httl⟩ := cacheTTL_classifyQuery (InputValidator.sanitize raw)
  have hlate := hfresh raw userId ttl hb httl
  rw [hrun] at htext h200 hrate ⊢
  rcases back_cases hash server' env₁ job with ⟨hbad, -⟩ | ⟨model, s, -, -, -, hback⟩
  · exact absurd h200 hbad
  · rw [hback] at htext hrate ⊢
    simp only [Response.field, mapGet, if_true, Option.some.injEq, Json.leaf.injEq,
      JsonLeaf.str.injEq] at htext
    have hb₂ : req₂.body = some (.props (.string raw) userId) := by rw [hbody, hb]
    have hlook := set_lookup hash server'.cache env₁.clock.cacheSet job.message (POST.truncate s)
      job.queryType job.userId ttl (by rw [hq]; exact httl)
    have hget : ((server'.cache.set hash env₁.clock.cacheSet job.message (POST.truncate s)
        job.queryType job.userId).get hash env₂.clock.cacheGet (InputValidator.sanitize raw)
          (POST.userId userId req₂.userIdText)).1 = some text := by
      rw [get_result, huid, ← hu, ← hmsg, hlook]
      simp only [expiryAfter]
      rw [if_pos (by simpa using hlate)]
      simpa using htext
    by_cases hallowed : (server'.rateLimiter.isAllowed env₂.clock.rate (POST.ip req₂)
        (POST.userId userId req₂.userIdText)
        (IntelligentAnalyzer.classifyQuery (InputValidator.sanitize raw))).1.allowed = true
    · exact front_hit hash _ req₂ env₂ raw userId v text hb₂ hv hvalid hallowed hget hne
    · exact absurd (front_denied hash _ req₂ env₂ raw userId v hb₂ hv hvalid
        (by simpa using hallowed)) hrate

/-! ## Validator and sanitizer on multi-line and blank messages -/

theorem validate_single_line (m : JSString) (userId : JSValue)
    (hmin : 1 ≤ m.length) (hmax : m.length ≤ CONFIG.MAX_MESSAGE_LENGTH)
    (hline : m.any isLineTerminator = false)
    (hscript : containsIgnoreCase m "<script" = false)
    (hjs : containsIgnoreCase m "javascript:" = false)
    (hdata : containsIgnoreCase m "data:" = false)
    (hquote : containsIgnoreCase m "'" = false)
    (hdquote : containsIgnoreCase m "\"" = false)
    (hsemi : containsIgnoreCase m ";" = false)
    (hdash : containsIgnoreCase m "--" = false)
    (hsql : sqlKeywordList.any (fun w => containsWord m w) = false) :
    InputValidator.validate (.props (.string m) userId) = some { valid := true, errors := [] } := by
  have hm : m ≠ [] := by
    intro h
    rw [h] at hmin
    simp at hmin
  have h₁ : InputValidator.noScripts.test m = true := by
    rw [noScripts_test, hline, hscript, hjs, hdata]; rfl
  have h₂ : InputValidator.noSQLInjection.test m = true := by
    rw [noSQLInjection_test, hline, hquote, hdquote, hsemi, hdash, hsql]; rfl
  rw [validate_string m userId hm, h₁, h₂]
  have h₃ : ¬ m.length < 1 := by omega
  have h₄ : ¬ m.length > CONFIG.MAX_MESSAGE_LENGTH := by omega
  simp [h₃, h₄]

theorem validate_line_terminator (m : JSString) (userId : JSValue)
    (hline : m.any isLineTerminator = true) :
    ∃ v, InputValidator.validate (.props (.string m) userId) = some v ∧ v.valid = false ∧
      "Message contains invalid content (noScripts)" ∈ v.errors ∧
      "Message contains invalid content (noSQLInjection)" ∈ v.errors := by
  have hm : m ≠ [] := by
    intro h
    rw [h] at hline
    simp at hline
  have h₁ : InputValidator.noScripts.test m = false := by
    rw [noScripts_test, hline]; rfl
  have h₂ : InputValidator.noSQLInjection.test m = false := by
    rw [noSQLInjection_test, hline]; rfl
  rw [validate_string m userId hm, h₁, h₂]
  refine ⟨_, rfl, ?_, ?_, ?_⟩ <;> simp

/-- C23, evaluated: the message `hello`, line feed, `world` has 11 code units
and contains none of the disallowed sequences, and `validate` rejects it, with
one error for each of the two patterns. -/
theorem validate_rejects_two_lines :
    (lit "hello\nworld").length = 11 ∧
    (containsIgnoreCase (lit "hello\nworld") "<script" ||
      containsIgnoreCase (lit "hello\nworld") "javascript:" ||
      containsIgnoreCase (lit "hello\nworld") "data:" ||
      containsIgnoreCase (lit "hello\nworld") "'" ||
      containsIgnoreCase (lit "hello\nworld") "\"" ||
      containsIgnoreCase (lit "hello\nworld") ";" ||
      containsIgnoreCase (lit "hello\nworld") "--" ||
      sqlKeywordList.any (fun w => containsWord (lit "hello\nworld") w)) = false ∧
    InputValidator.validate (.props (.string (lit "hello\nworld")) .undefined) =
      some { valid := false,
             errors := ["Message contains invalid content (noScripts)",
                        "Message contains invalid content (noSQLInjection)"] } := by
  decide

set_option maxRecDepth 100000 in
/-- C30, evaluated: `validate` accepts the message that is one space, and the
message `<`; `sanitize` turns each into the empty string; and the handler,
given the one-space message, classifies the empty string, issues a generation
call whose prompt holds the empty string as the user's message, and stores the
answer in the cache under the key of the empty string. -/
theorem POST_blank_message :
    InputValidator.validate (.props (.string (lit " ")) .undefined)
      = some { valid := true, errors := [] } ∧
    InputValidator.sanitize (lit " ") = [] ∧
    InputValidator.validate (.props (.string (lit "<")) .undefined)
      = some { valid := true, errors := [] } ∧
    InputValidator.sanitize (lit "<") = [] ∧
    (POST id freshServer blankRequest (sampleEnv 5 (steadyBackend (.text (lit "Hi!"))))).response.status
      = 200 ∧
    (POST id freshServer blankRequest (sampleEnv 5 (steadyBackend (.text (lit "Hi!"))))).generations
      = [("gemini-1.5-flash-latest", POST.fullPrompt "general_consultation" [], some 15000)] ∧
    ((POST id freshServer blankRequest
        (sampleEnv 5 (steadyBackend (.text (lit "Hi!"))))).server.cache.cache.map (fun kv => kv.1))
      = [SmartCache.generateKey id [] none] := by
  decide

/-! ## Sanitizer applied twice -/

theorem head_dropWhile (p : Nat → Bool) (l : List Nat) (c : Nat)
    (h : (l.dropWhile p).head? = some c) : p c = false := by
  induction l with
  | nil => simp at h
  | cons x xs ih =>
      by_cases hx : p x = true
      · rw [List.dropWhile_cons_of_pos hx] at h
        exact ih h
      · rw [List.dropWhile_cons_of_neg hx] at h
        simp only [List.head?_cons, Option.some.injEq] at h
        subst h
        simpa using hx

theorem dropWhile_fixed (p : Nat → Bool) (l : List Nat)
    (h : ∀ c, l.head? = some c → p c = false) : l.dropWhile p = l := by
  cases l with
  | nil => rfl
  | cons x xs =>
      have hx := h x rfl
      rw [List.dropWhile_cons_of_neg (by simp [hx])]

theorem trim_prefix (s : JSString) :
    ∃ t, s.dropWhile isWhiteSpace = trim s ++ t := by
  refine ⟨((s.dropWhile isWhiteSpace).reverse.takeWhile isWhiteSpace).reverse, ?_⟩
  unfold trim
  rw [← List.reverse_append, List.takeWhile_append_dropWhile, List.reverse_reverse]

theorem trim_head (s : JSString) (c : Nat) (h : (trim s).head? = some c) :
    isWhiteSpace c = false := by
  obtain ⟨t, ht⟩ := trim_prefix s
  apply head_dropWhile isWhiteSpace s c
  rw [ht]
  cases hts : trim s with
  | nil => rw [hts] at h; simp at h
  | cons x xs => rw [hts] at h; simpa using h

theorem trim_last (s : JSString) (c : Nat) (h : (trim s).getLast? = some c) :
    isWhiteSpace c = false := by
  apply head_dropWhile isWhiteSpace (s.dropWhile isWhiteSpace).reverse c
  unfold trim at h
  rwa [List.getLast?_reverse] at h

theorem trim_fixed (s : JSString) (hhead : ∀ c, s.head? = some c → isWhiteSpace c = false)
    (hlast : ∀ c, s.getLast? = some c → isWhiteSpace c = false) : trim s = s := by
  unfold trim
  rw [dropWhile_fixed isWhiteSpace s hhead,
    dropWhile_fixed isWhiteSpace s.reverse (by rw [List.head?_reverse]; exact hlast),
    List.reverse_reverse]

theorem trim_trim (s : JSString) : trim (trim s) = trim s :=
  trim_fixed (trim s) (trim_head s) (trim_last s)

theorem trim_sublist (s : JSString) : List.Sublist (trim s) s := by
  unfold trim
  exact ((List.reverse_sublist.mpr (List.dropWhile_sublist _)).trans
    (by rw [List.reverse_reverse])).trans (List.dropWhile_sublist _)

theorem sanitize_closed (m : JSString) :
    InputValidator.sanitize m
      = ((trim m).filter (fun c => !isAngleBracket c)).take CONFIG.MAX_MESSAGE_LENGTH := by
  simp only [InputValidator.sanitize, replace_angle, substring]

theorem sanitize_fixed (x : JSString) (hangle : ∀ c ∈ x, isAngleBracket c = false)
    (hlen : (trim x).length ≤ CONFIG.MAX_MESSAGE_LENGTH) :
    InputValidator.sanitize x = trim x := by
  rw [sanitize_closed, List.filter_eq_self.mpr, List.take_of_length_le hlen]
  intro c hc
  simp [hangle c ((trim_sublist x).subset hc)]

/-- C29, as stated, fails: `sanitize` turns `< a` into ` a`, which starts with
whitespace, and turns that into `a`. -/
theorem sanitize_not_idempotent :
    InputValidator.sanitize (lit "< a") = lit " a" ∧
    InputValidator.sanitize (InputValidator.sanitize (lit "< a")) = lit "a" ∧
    InputValidator.sanitize (InputValidator.sanitize (lit "< a"))
      ≠ InputValidator.sanitize (lit "< a") := by
  decide

/-- C29, amended. For every string `m`, `sanitize (sanitize m)` is
`trim (sanitize m)`, and a third application changes nothing more. When `m`
contains no angle bracket and its trimmed text has at most
`MAX_MESSAGE_LENGTH` code units, `sanitize m` is `trim m`, it neither starts
nor ends with whitespace, and `sanitize (sanitize m) = sanitize m`. -/
theorem sanitize_twice (m : JSString) :
    InputValidator.sanitize (InputValidator.sanitize m) = trim (InputValidator.sanitize m) ∧
    InputValidator.sanitize (InputValidator.sanitize (InputValidator.sanitize m))
      = InputValidator.sanitize (InputValidator.sanitize m) ∧
    ((∀ c ∈ m, isAngleBracket c = false) → (trim m).length ≤ CONFIG.MAX_MESSAGE_LENGTH →
      InputValidator.sanitize m = trim m ∧
      InputValidator.sanitize (InputValidator.sanitize m) = InputValidator.sanitize m ∧
      (∀ c, (InputValidator.sanitize m).head? = some c → isWhiteSpace c = false) ∧
      (∀ c, (InputValidator.sanitize m).getLast? = some c → isWhiteSpace c = false)) := by
  have hangle : ∀ x : JSString, ∀ c ∈ InputValidator.sanitize x, isAngleBracket c = false := by
    intro x c hc
    rw [sanitize_closed] at hc
    have := (List.mem_filter.mp (List.mem_of_mem_take hc)).2
    simpa using this
  have hlen : ∀ x : JSString,
      (trim (InputValidator.sanitize x)).length ≤ CONFIG.MAX_MESSAGE_LENGTH := by
    intro x
    refine le_trans (trim_sublist _).length_le ?_
    rw [sanitize_closed, List.length_take]
    exact Nat.min_le_left _ _
  have hone : ∀ x : JSString,
      InputValidator.sanitize (InputValidator.sanitize x) = trim (InputValidator.sanitize x) :=
    fun x => sanitize_fixed _ (hangle x) (hlen x)
  refine ⟨hone m, ?_, ?_⟩
  · rw [hone (InputValidator.sanitize m), hone m, trim_trim]
  · intro hm hshort
    have hs := sanitize_fixed m hm hshort
    refine ⟨hs, ?_, ?_, ?_⟩
    · rw [hone m, hs, trim_trim]
    · rw [hs]; exact trim_head m
    · rw [hs]; exact trim_last m

theorem sanitize_twice_witness :
    InputValidator.sanitize (lit "  hello ") = lit "hello" ∧
    InputValidator.sanitize (InputValidator.sanitize (lit "  hello "))
      = InputValidator.sanitize (lit "  hello ") :=
  have h := (sanitize_twice (lit "  hello ")).2.2 (by decide) (by decide)
  ⟨h.1.trans (by decide), h.2.1⟩

/-! ## Client retry -/

/-- C25. Client retry is bounded. Given how the successive calls of `fetch`
end (at least four outcomes), `sendMessageToAPI(message)` returns after at
most 4 requests. When the first four attempts all fail it makes exactly 4
requests, waits 1000, 2000 and 3000 ms before the retries and returns
`Connection error. Please try again.`. When the first `k ≤ 3` attempts fail and
the next one succeeds it returns the `response` of that reply after `k + 1`
requests, having waited `1000 * j` ms before the `j`-th retry, and no later
outcome is consumed. -/
theorem sendMessageToAPI_bounded :
    (∀ replies : List Fetched, 4 ≤ replies.length →
      (∀ f ∈ replies.take 4, sendMessageToAPI.attempt f = none) →
      sendMessageToAPI replies 0 =
        some ⟨4, [1000, 2000, 3000], .string (lit "Connection error. Please try again.")⟩) ∧
    (∀ (pre : List Fetched) (f : Fetched) (later : List Fetched) (response : JSValue),
      pre.length ≤ 3 → (∀ p ∈ pre, sendMessageToAPI.attempt p = none) →
      sendMessageToAPI.attempt f = some response →
      sendMessageToAPI (pre ++ f :: later) 0 =
        some ⟨pre.length + 1, (List.range pre.length).map (fun j => 1000 * (j + 1)), response⟩) ∧
    (∀ replies : List Fetched, 4 ≤ replies.length →
      ∃ sent, sendMessageToAPI replies 0 = some sent ∧ sent.requests ≤ 4 ∧
        sent.waits = (List.range (sent.requests - 1)).map (fun j => 1000 * (j + 1))) := by
  have hfail : ∀ replies : List Fetched, 4 ≤ replies.length →
      (∀ f ∈ replies.take 4, sendMessageToAPI.attempt f = none) →
      sendMessageToAPI replies 0 =
        some ⟨4, [1000, 2000, 3000], .string (lit "Connection error. Please try again.")⟩ := by
    intro replies hlen hall
    rcases replies with _ | ⟨a, _ | ⟨b, _ | ⟨c, _ | ⟨d, rest⟩⟩⟩⟩
    · simp at hlen
    · simp at hlen
    · simp at hlen
    · simp at hlen
    · simp only [List.take_succ_cons, List.take_zero, List.mem_cons, List.mem_singleton,
        List.not_mem_nil, or_false, forall_eq_or_imp, forall_eq] at hall
      obtain ⟨ha, hb, hc, hd⟩ := hall
      simp [sendMessageToAPI, ha, hb, hc, hd]
  have hok : ∀ (pre : List Fetched) (f : Fetched) (later : List Fetched) (response : JSValue),
      pre.length ≤ 3 → (∀ p ∈ pre, sendMessageToAPI.attempt p = none) →
      sendMessageToAPI.attempt f = some response →
      sendMessageToAPI (pre ++ f :: later) 0 =
        some ⟨pre.length + 1, (List.range pre.length).map (fun j => 1000 * (j + 1)),
          response⟩ := by
    intro pre f later response hlen hall hf
    rcases pre with _ | ⟨a, _ | ⟨b, _ | ⟨c, _ | ⟨d, rest⟩⟩⟩⟩
    · simp [sendMessageToAPI, hf]
    · simp only [List.mem_singleton, forall_eq] at hall
      simp [sendMessageToAPI, hf, hall, List.range_succ]
    · simp only [List.mem_cons, List.mem_singleton, List.not_mem_nil, or_false,
        forall_eq_or_imp, forall_eq] at hall
      simp [sendMessageToAPI, hf, hall.1, hall.2, List.range_succ]
    · simp only [List.mem_cons, List.mem_singleton, List.not_mem_nil, or_false,
        forall_eq_or_imp, forall_eq] at hall
      simp [sendMessageToAPI, hf, hall.1, hall.2.1, hall.2.2, List.range_succ]
    · simp at hlen
  refine ⟨hfail, hok, ?_⟩
  intro replies hlen
  rcases replies with _ | ⟨a, _ | ⟨b, _ | ⟨c, _ | ⟨d, rest⟩⟩⟩⟩
  · simp at hlen
  · simp at hlen
  · simp at hlen
  · simp at hlen
  · cases ha : sendMessageToAPI.attempt a with
    | some v => exact ⟨_, hok [] a _ v (by simp) (by simp) ha, by simp, by simp⟩
    | none =>
      cases hb : sendMessageToAPI.attempt b with
      | some v =>
          exact ⟨_, hok [a] b _ v (by simp) (by simpa using ha) hb, by simp,
            by simp [List.range_succ]⟩
      | none =>
        cases hc : sendMessageToAPI.attempt c with
        | some v =>
            exact ⟨_, hok [a, b] c _ v (by simp) (by simp [ha, hb]) hc, by simp,
              by simp [List.range_succ]⟩
        | none =>
          cases hd : sendMessageToAPI.attempt d with
          | some v =>
              exact ⟨_, hok [a, b, c] d _ v (by simp) (by simp [ha, hb, hc]) hd, by simp,
                by simp [List.range_succ]⟩
          | none =>
              exact ⟨_, hfail (a :: b :: c :: d :: rest) (by simp) (by simp [ha, hb, hc, hd]),
                by simp, by simp [List.range_succ]⟩

theorem sendMessageToAPI_bounded_witness :
    sendMessageToAPI
        [.rejected, .settled false 429 (.props (.string (lit "Rate limit exceeded")) .undefined),
         .settled true 200 .null, .settled false 500 .unreadable, .rejected] 0
      = some ⟨4, [1000, 2000, 3000], .string (lit "Connection error. Please try again.")⟩ ∧
    sendMessageToAPI
        ([.rejected, .settled false 503 .unreadable] ++
          .settled true 200 (.props .undefined (.string (lit "Hi!"))) :: [.rejected]) 0
      = some ⟨3, [1000, 2000], .string (lit "Hi!")⟩ :=
  ⟨sendMessageToAPI_bounded.1 _ (by decide) (by decide),
   sendMessageToAPI_bounded.2.1 [.rejected, .settled false 503 .unreadable]
     (.settled true 200 (.props .undefined (.string (lit "Hi!")))) [.rejected]
     (.string (lit "Hi!")) (by decide) (by decide) rfl⟩

/-! ## Body `null`, and a `userId` of empty text -/

set_option maxRecDepth 100000 in
/-- C5, evaluated: for the JSON body `null` the `message` property is missing,
and reading it throws, so `validate` returns no result at all; the handler
answers with status 500 and `Internal server error`, without `details`. For a
body that is an object without properties `validate` returns `valid: false`
with `Message is required`, and the handler answers with status 400,
`Validation failed` and that error in `details`. -/
theorem POST_null_body :
    InputValidator.validate .null = none ∧
    (POST id freshServer nullBodyRequest
      (sampleEnv 5 (steadyBackend (.text (lit "Hi!"))))).response.body =
        [("error", .leaf (.str (lit "Internal server error"))),
         ("requestId", .leaf (.str (lit "request-1"))), ("timestamp", .leaf (.isoTime 5))] ∧
    (POST id freshServer nullBodyRequest
      (sampleEnv 5 (steadyBackend (.text (lit "Hi!"))))).response.status = 500 ∧
    InputValidator.validate (.props .undefined .undefined)
      = some { valid := false, errors := ["Message is required"] } ∧
    (POST id freshServer emptyObjectRequest
      (sampleEnv 5 (steadyBackend (.text (lit "Hi!"))))).response.body =
        [("error", .leaf (.str (lit "Validation failed"))),
         ("details", .strings [lit "Message is required"]),
         ("requestId", .leaf (.str (lit "request-1"))), ("timestamp", .leaf (.isoTime 5))] ∧
    (POST id freshServer emptyObjectRequest
      (sampleEnv 5 (steadyBackend (.text (lit "Hi!"))))).response.status = 400 := by
  decide

set_option maxRecDepth 100000 in
theorem POST_empty_array_userId :
    RateLimiter.getKey (lit "10.0.0.9") (POST.userId .object []) = lit "10.0.0.9:" ∧
    SmartCache.generateKey id (lit "hello") (POST.userId .object []) = lit ":hello" ∧
    ((POST id freshServer emptyArrayUserRequest
        (sampleEnv 5 (steadyBackend (.text (lit "Hi!"))))).server.rateLimiter.requests.map
          (fun kv => kv.1)) = [lit "10.0.0.9:"] ∧
    ((POST id freshServer emptyArrayUserRequest
        (sampleEnv 5 (steadyBackend (.text (lit "Hi!"))))).server.cache.cache.map
          (fun kv => kv.1)) = [lit ":hello"] := by
  decide

end ByrChallenge
